import Mathlib

/-!
Verification development for the CSV-reader grouping engine
(`backend/grouping_logic.py`).

The Python source is shallowly embedded: every function that the claims
touch is translated into an executable Lean definition operating on
explicit data (lists of characters for strings, association lists for
Python dicts, `Option` for possibly-missing dict keys / NaN cells, and
`Rat` for Python floats, whose arithmetic on the small fractions used here
is exact).  In-place mutation (the validator writes counts onto the group
tree) is modelled by returning the updated structure.  `uuid.uuid4()` is
modelled by a threaded counter producing fresh identifiers, and the single
OpenAI request is modelled as an injected `Except` value describing the
outcome of the one attempt.

Note on the Python source: the file contains two `else:` lines (190, 463)
that are indented one level too deep, which is a syntax error; the only
sensible reading — the `else` belongs to the immediately preceding `if` —
is embedded here.
-/

set_option maxHeartbeats 1000000
set_option maxRecDepth 8000
set_option allowUnsafeReducibility true
attribute [semireducible] Rat.add Rat.mul Rat.inv Rat.div Rat.sub Rat.neg Rat.ofScientific

namespace Grouping

/-! ## Character and string utilities (Python `str` fragment) -/

/-- Python regex `\w` (ASCII fragment): letters, digits, underscore. -/
def isWordChar (c : Char) : Bool := c.isAlphanum || c = '_'

/-- Python regex `\s` / `str.strip` whitespace (ASCII fragment). -/
def isSpaceChar (c : Char) : Bool :=
  c = ' ' || c = '\t' || c = '\n' || c = '\r' || c = '\x0b' || c = '\x0c'

/-- Python `str.strip()` on a character list. -/
def stripCL (cs : List Char) : List Char :=
  ((cs.dropWhile isSpaceChar).reverse.dropWhile isSpaceChar).reverse

/-- Helper for `wordsCL`: accumulate the current word (reversed). -/
def wordsGo : List Char → List Char → List (List Char)
  | [], acc => if acc.isEmpty then [] else [acc.reverse]
  | c :: cs, acc =>
      if isSpaceChar c then
        if acc.isEmpty then wordsGo cs [] else acc.reverse :: wordsGo cs []
      else wordsGo cs (c :: acc)

/-- Python `str.split()` with no argument: split on whitespace runs. -/
def wordsCL (cs : List Char) : List (List Char) := wordsGo cs []

/-- Join word lists with single spaces (`' '.join(words)`). -/
def joinSpace (ws : List (List Char)) : List Char := (ws.intersperse [' ']).flatten

/-- Whitespace collapsing: `re.sub(r'\s+', ' ', s).strip()`, which is
`' '.join(s.split())`. -/
def collapseWs (cs : List Char) : List Char := joinSpace (wordsCL cs)

/-- Does `p` occur at the start of `cs`? (list-level `startswith`). -/
def startsCL : List Char → List Char → Bool
  | [], _ => true
  | _ :: _, [] => false
  | p :: ps, c :: cs => p = c && startsCL ps cs

/-- Python `sub in s` substring containment on character lists. -/
def containsCL (p : List Char) : List Char → Bool
  | [] => startsCL p []
  | c :: cs => startsCL p (c :: cs) || containsCL p cs

/-- Python `sub in s` on strings. -/
def strContains (s sub : String) : Bool := containsCL sub.toList s.toList

/-- Python `str.lower()` (ASCII fragment, matching `Char.toLower`). -/
def lowerCL (cs : List Char) : List Char := cs.map Char.toLower

/-- Python `str.strip()` on strings. -/
def pyStrip (s : String) : String := String.mk (stripCL s.toList)

/-- Python `str.lower()` on strings. -/
def pyLower (s : String) : String := String.mk (lowerCL s.toList)

/-- Python `str.split()` on strings. -/
def pySplit (s : String) : List String := (wordsCL s.toList).map String.mk

/-! ## Decimal rendering of naturals (Python `str(n)` for `n : Nat`)

Defined from scratch so that injectivity is available for the
fresh-sub-group-name argument. -/

/-- Digit character for `d < 10`. -/
def digCh (d : Nat) : Char := Char.ofNat (48 + d)

/-- Big-endian decimal digits, structurally recursive on a fuel bound
(`n` itself is always enough fuel, since `n / 10 < n` for `n ≥ 1`). -/
def natDigsF : Nat → Nat → List Char
  | _, 0 => []
  | 0, _ + 1 => []
  | fuel + 1, n + 1 => natDigsF fuel ((n + 1) / 10) ++ [digCh ((n + 1) % 10)]

/-- Big-endian decimal digits of a positive natural. -/
def natDigs (n : Nat) : List Char := natDigsF n n

/-- Python `str(n)` for a natural number. -/
def natDec (n : Nat) : String :=
  if n = 0 then "0" else String.mk (natDigs n)

/-- Decode big-endian decimal digits (inverse of `natDigs` up to leading
zeros). -/
def decVal (cs : List Char) : Nat := cs.foldl (fun a c => a * 10 + (c.toNat - 48)) 0

theorem decVal_append (a b : List Char) :
    decVal (a ++ b) = b.foldl (fun x c => x * 10 + (c.toNat - 48)) (decVal a) := by
  simp [decVal, List.foldl_append]

theorem digCh_toNat (d : Nat) (h : d < 10) : (digCh d).toNat = 48 + d := by
  interval_cases d <;> decide

theorem decVal_natDigsF : ∀ (fuel n : Nat), n ≤ fuel → decVal (natDigsF fuel n) = n := by
  intro fuel
  induction fuel with
  | zero =>
    intro n hn
    interval_cases n
    simp [natDigsF, decVal]
  | succ f ih =>
    intro n hn
    match n with
    | 0 => simp [natDigsF, decVal]
    | n + 1 =>
      rw [natDigsF, decVal_append]
      have h10 : (n + 1) / 10 < n + 1 := Nat.div_lt_self (Nat.succ_pos n) (by omega)
      have := ih ((n + 1) / 10) (by omega)
      simp only [List.foldl_cons, List.foldl_nil, this]
      rw [digCh_toNat ((n + 1) % 10) (Nat.mod_lt _ (by omega))]
      omega

theorem decVal_natDigs (n : Nat) : decVal (natDigs n) = n :=
  decVal_natDigsF n n le_rfl

theorem natDigs_injective : Function.Injective natDigs := by
  intro a b h
  have : decVal (natDigs a) = decVal (natDigs b) := by rw [h]
  simpa [decVal_natDigs] using this

theorem natDigs_ne_nil (n : Nat) (h : n ≠ 0) : natDigs n ≠ [] := by
  match n, h with
  | n + 1, _ =>
    rw [natDigs, natDigsF]
    simp

theorem natDec_eq_zero_str (n : Nat) (h : natDec n = "0") : n = 0 := by
  by_contra hn
  have hdef : natDec n = String.mk (natDigs n) := by simp [natDec, hn]
  rw [hdef] at h
  have hd : natDigs n = ['0'] := by
    have := congrArg String.data h
    simpa [String.mk] using this
  have : decVal (natDigs n) = decVal ['0'] := by rw [hd]
  rw [decVal_natDigs] at this
  simp [decVal] at this
  exact hn this

theorem natDec_injective : Function.Injective natDec := by
  intro a b h
  by_cases ha : a = 0
  · subst ha
    exact (natDec_eq_zero_str b h.symm).symm
  · by_cases hb : b = 0
    · subst hb
      exact natDec_eq_zero_str a h
    · have hda : natDec a = String.mk (natDigs a) := by simp [natDec, ha]
      have hdb : natDec b = String.mk (natDigs b) := by simp [natDec, hb]
      rw [hda, hdb] at h
      have : natDigs a = natDigs b := by
        have := congrArg String.data h
        simpa [String.mk] using this
      exact natDigs_injective this

/-! ## Backtracking matcher for the normalizer's regex fragment

Every pattern in `normalize_product_name` is a sequence of literal
strings, `\b` word boundaries, greedy single-character-class quantifiers,
and ordered alternations of such sequences.  The matcher implements
Python `re` leftmost / preference-order (greedy, first-alternative)
semantics for exactly this fragment; `re.IGNORECASE` is irrelevant
because the input is lower-cased before the patterns run. -/

/-- Character classes appearing in the patterns. -/
inductive RCls where
  | digit
  | wsp
  | lalpha
  | alnumdash
  | quote
  deriving DecidableEq, Repr

/-- Membership in a character class (`\d`, `\s`, `[a-z]`, `[a-z0-9\-]`,
`["\']`). -/
def clsHas : RCls → Char → Bool
  | .digit, c => c.isDigit
  | .wsp, c => isSpaceChar c
  | .lalpha, c => 'a' ≤ c && c ≤ 'z'
  | .alnumdash, c => ('a' ≤ c && c ≤ 'z') || c.isDigit || c = '-'
  | .quote, c => c = '"' || c = '\''

/-- Regex atoms: literal, word boundary, greedy quantified class
(`lo` to `hi` occurrences, `none` = unbounded), ordered alternation. -/
inductive Rex where
  | lit (s : List Char)
  | bnd
  | cls (cc : RCls) (lo : Nat) (hi : Option Nat)
  | alt (alts : List (List Rex))

mutual

/-- Structural size of one atom (for matcher termination). -/
def rexSize : Rex → Nat
  | .lit _ => 1
  | .bnd => 1
  | .cls _ _ _ => 1
  | .alt alts => 1 + altsSize alts

/-- Structural size of an alternation body. -/
def altsSize : List (List Rex) → Nat
  | [] => 0
  | a :: rest => seqSize a + altsSize rest

/-- Structural size of an atom sequence. -/
def seqSize : List Rex → Nat
  | [] => 0
  | r :: rest => rexSize r + seqSize rest

end

@[simp] theorem seqSize_nil : seqSize [] = 0 := rfl

@[simp] theorem seqSize_cons (r : Rex) (l : List Rex) :
    seqSize (r :: l) = rexSize r + seqSize l := rfl

@[simp] theorem seqSize_append (a b : List Rex) :
    seqSize (a ++ b) = seqSize a + seqSize b := by
  induction a with
  | nil => simp
  | cons r rest ih => simp [ih]; omega

/-- Is the optional character a word character? (absent = not a word
character, as at string edges). -/
def isWordO : Option Char → Bool
  | none => false
  | some c => isWordChar c

/-- Python `\b`: boundary between the previous and next character. -/
def atBoundary (prev next : Option Char) : Bool := (isWordO prev).xor (isWordO next)

/-- Length of the longest prefix of `cs` inside class `cc`. -/
def maxRun (cc : RCls) : List Char → Nat
  | [] => 0
  | c :: cs => if clsHas cc c then maxRun cc cs + 1 else 0

/-- Previous-character tracker after consuming literal `s`. -/
def lastOr (s : List Char) (prev : Option Char) : Option Char :=
  match s.getLast? with
  | some c => some c
  | none => prev

mutual

/-- Match an atom sequence at the head of `cs` (with `prev` the character
just before `cs` in the full subject); returns the number of characters
consumed by the preference-first match, or `none`.  Structurally
recursive on `fuel`; every mutual call strictly decreases the
lexicographic measure `(seqSize, stage, backoff)` of the original
well-founded recursion, so `mFuel` below (the size of that measure
space) always suffices and the `fuel = 0` fallback is never reached. -/
def mSeq : Nat → List Rex → Option Char → List Char → Option Nat
  | 0, _, _, _ => Option.none
  | _ + 1, [], _, _ => some 0
  | fuel + 1, .bnd :: rest, prev, cs =>
      if atBoundary prev cs.head? then mSeq fuel rest prev cs else Option.none
  | fuel + 1, .lit s :: rest, prev, cs =>
      if startsCL s cs then
        match mSeq fuel rest (lastOr s prev) (cs.drop s.length) with
        | some n => some (s.length + n)
        | Option.none => Option.none
      else Option.none
  | fuel + 1, .cls cc lo hi :: rest, prev, cs =>
      mCls fuel cc lo rest prev cs
        (match hi with
         | some h => min h (maxRun cc cs)
         | Option.none => maxRun cc cs)
  | fuel + 1, .alt as :: rest, prev, cs => mAlt fuel as rest prev cs

/-- Try the alternatives of an alternation in order, each followed by the
remaining atoms. -/
def mAlt : Nat → List (List Rex) → List Rex → Option Char → List Char → Option Nat
  | 0, _, _, _, _ => Option.none
  | _ + 1, [], _, _, _ => Option.none
  | fuel + 1, a :: as, rest, prev, cs =>
      match mSeq fuel (a ++ rest) prev cs with
      | some n => some n
      | Option.none => mAlt fuel as rest prev cs

/-- Greedy quantifier: try consuming `k` class characters, backing off one
at a time down to `lo`. -/
def mCls : Nat → RCls → Nat → List Rex → Option Char → List Char → Nat → Option Nat
  | 0, _, _, _, _, _, _ => Option.none
  | fuel + 1, cc, lo, rest, prev, cs, k =>
      if k < lo then Option.none
      else
        match mSeq fuel rest (if k = 0 then prev else (cs.take k).getLast?) (cs.drop k) with
        | some n => some (k + n)
        | Option.none =>
          match k with
          | 0 => Option.none
          | k' + 1 => mCls fuel cc lo rest prev cs k'

end

/-- Fuel bound covering the matcher's recursion depth: the measure
`(seqSize ≤ S, stage < 3, backoff ≤ S + |cs|)` decreases strictly in the
lexicographic order at every mutual call, so the depth is below the size
of the measure space. -/
def mFuel (pat : List Rex) (cs : List Char) : Nat :=
  3 * (seqSize pat + 1) * (seqSize pat + cs.length + 2) + 1

/-- `mSeq` at its adequate fuel. -/
def mSeqTop (pat : List Rex) (prev : Option Char) (cs : List Char) : Option Nat :=
  mSeq (mFuel pat cs) pat prev cs

/-- One step of `re.sub(pattern, '', text)`: scan for the leftmost match,
delete it, and continue after it (our patterns never match the empty
string, and a zero-length match is treated as no match to keep the
function total).  Structural on the scan fuel, which `reSub` seeds with
the subject length (an exact bound: every step drops at least one
character). -/
def reSubGo (pat : List Rex) : Nat → Option Char → List Char → List Char
  | _, _, [] => []
  | 0, _, cs => cs
  | fuel + 1, prev, c :: cs =>
      match mSeqTop pat prev (c :: cs) with
      | some (n + 1) =>
          reSubGo pat fuel (((c :: cs).take (n + 1)).getLast?) ((c :: cs).drop (n + 1))
      | _ => c :: reSubGo pat fuel (some c) cs

/-- Python `re.sub(pattern, '', text)` for our pattern fragment. -/
def reSub (pat : List Rex) (cs : List Char) : List Char := reSubGo pat cs.length Option.none cs

/-! ## The normalizer's patterns (`ProductGroupingEngine.__init__`) -/

/-- Alternation of plain literal words. -/
def altW (ss : List String) : Rex := Rex.alt (ss.map (fun s => [Rex.lit s.toList]))

/-- Optional literal (`x?` / `\.?`), expanded to a two-way alternation
(greedy: with the literal first). -/
def optLit (s : String) : Rex := Rex.alt [[Rex.lit s.toList], []]

/-- The `brand_model_patterns` list, in source order.  `inc\.?` and
friends are expanded to `inc.|inc` etc., which preserves preference
order. -/
def brand_model_patterns : List (List Rex) :=
  [ [Rex.bnd,
     altW ["apple", "samsung", "dell", "hp", "lenovo", "asus", "acer", "sony", "lg",
           "canon", "epson", "nike", "adidas", "microsoft", "google", "intel", "amd"],
     Rex.bnd],
    [Rex.bnd,
     altW ["inc.", "inc", "corp.", "corp", "ltd.", "ltd", "llc", "co.", "co", "company"],
     Rex.bnd],
    [Rex.bnd, Rex.lit "model".toList, Rex.cls .wsp 0 none, Rex.cls .alnumdash 1 none,
     Rex.bnd],
    [Rex.bnd, Rex.cls .lalpha 0 none, Rex.cls .digit 3 none, Rex.bnd],
    [Rex.bnd, Rex.lit "v".toList, Rex.cls .digit 1 none,
     Rex.alt [[Rex.lit ".".toList, Rex.cls .digit 1 none], []], Rex.bnd],
    [Rex.bnd, altW ["gen", "generation"], Rex.cls .wsp 0 none, Rex.cls .digit 1 none,
     Rex.bnd] ]

/-- The `color_patterns` list, in source order. -/
def color_patterns : List (List Rex) :=
  [ [Rex.bnd,
     altW ["red", "blue", "green", "yellow", "orange", "purple", "pink", "black",
           "white", "grey", "gray", "brown", "silver", "gold", "bronze"],
     Rex.bnd],
    [Rex.bnd, altW ["dark", "light", "bright"], Rex.cls .wsp 1 none,
     altW ["red", "blue", "green", "yellow", "orange", "purple", "pink", "black",
           "white", "grey", "gray", "brown"],
     Rex.bnd] ]

/-- The `size_weight_patterns` list, in source order. -/
def size_weight_patterns : List (List Rex) :=
  [ [Rex.bnd, Rex.cls .digit 1 none, optLit ".", Rex.cls .digit 0 none,
     Rex.cls .wsp 0 none,
     altW ["kg", "g", "lb", "oz", "pound", "gram", "kilogram", "ton"], Rex.bnd],
    [Rex.bnd, Rex.cls .digit 1 none, optLit ".", Rex.cls .digit 0 none,
     Rex.cls .wsp 0 none,
     Rex.alt [[Rex.lit "ml".toList], [Rex.lit "l".toList], [Rex.lit "liter".toList],
              [Rex.lit "litre".toList],
              [Rex.lit "fl".toList, Rex.cls .wsp 0 none, Rex.lit "oz".toList],
              [Rex.lit "gallon".toList], [Rex.lit "cup".toList], [Rex.lit "pint".toList],
              [Rex.lit "quart".toList]],
     Rex.bnd],
    [Rex.bnd, Rex.cls .digit 1 none, optLit ".", Rex.cls .digit 0 none,
     Rex.cls .wsp 0 none,
     altW ["mm", "cm", "m", "meter", "metre", "inch", "in", "ft", "foot", "feet",
           "yard"],
     Rex.bnd],
    [Rex.bnd, Rex.cls .digit 1 none, optLit ".", Rex.cls .digit 0 none,
     Rex.cls .wsp 0 none,
     altW ["pack", "pcs", "pieces", "count", "ct", "box", "bottle", "can", "bag"],
     Rex.bnd],
    [Rex.bnd,
     altW ["small", "medium", "large", "xl", "xxl", "xs", "mini", "micro", "mega",
           "super", "extra"],
     Rex.bnd],
    [Rex.bnd, Rex.cls .digit 1 none, Rex.cls .quote 0 (some 1), Rex.cls .wsp 0 none,
     Rex.lit "x".toList, Rex.cls .wsp 0 none, Rex.cls .digit 1 none,
     Rex.cls .quote 0 (some 1), Rex.cls .wsp 0 none, optLit "x",
     Rex.cls .wsp 0 none, Rex.cls .digit 0 none, Rex.cls .quote 0 (some 1), Rex.bnd],
    [Rex.bnd, Rex.cls .digit 1 none, Rex.cls .wsp 0 none,
     altW ["size", "count", "piece"], Rex.bnd] ]

/-- Apply a list of substitution patterns in order. -/
def applyPats (ps : List (List Rex)) (cs : List Char) : List Char :=
  ps.foldl (fun s p => reSub p s) cs

/-- Final cleanup step `re.sub(r'[^\w\s]', ' ', s)`. -/
def punctToSpace (cs : List Char) : List Char :=
  cs.map (fun c => if isWordChar c || isSpaceChar c then c else ' ')

/-- Body of `normalize_product_name` for string input, on character
lists. -/
def normalizeCL (cs : List Char) : List Char :=
  let n0 := stripCL (lowerCL cs)
  let n1 := applyPats brand_model_patterns n0
  let n2 := applyPats color_patterns n1
  let n3 := applyPats size_weight_patterns n2
  collapseWs (punctToSpace n3)

/-- `ProductGroupingEngine.normalize_product_name` on string input. -/
def normalize_product_name (s : String) : String := String.mk (normalizeCL s.toList)

/-! ## Python values (for the non-string input branch of the
normalizer) -/

/-- The Python values relevant to the normalizer's dynamic typing. -/
inductive PyVal where
  | str (s : String)
  | int (n : Int)
  | bool (b : Bool)
  | pynone
  deriving DecidableEq, Repr

/-- Python `str(i)` for an integer. -/
def intDec (i : Int) : String :=
  if i < 0 then "-" ++ natDec i.natAbs else natDec i.toNat

/-- Python `str(v)`. -/
def pyValStr : PyVal → String
  | .str s => s
  | .int n => intDec n
  | .bool true => "True"
  | .bool false => "False"
  | .pynone => "None"

/-- Is a `PyVal` a string (`isinstance(v, str)`)? -/
def PyVal.isStr : PyVal → Bool
  | .str _ => true
  | _ => false

/-- `normalize_product_name` on a dynamically typed argument: the source
returns `str(v).lower()` immediately for non-string input. -/
def normalize_product_name_py (v : PyVal) : String :=
  match v with
  | .str s => normalize_product_name s
  | v => pyLower (pyValStr v)

/-! ## Core-type classifier (`extract_core_product_type`) -/

/-- Python `a in b` (substring containment). -/
def pyIn (a b : String) : Bool := containsCL a.toList b.toList

/-- The `core_product_keywords` taxonomy: `(category, primary keywords,
secondary keywords)` in source (insertion) order. -/
def core_product_keywords : List (String × List String × List String) :=
  [ ("electronics",
     ["laptop", "computer", "phone", "tablet", "monitor", "screen", "display"],
     ["keyboard", "mouse", "speaker", "headphone", "earphone", "camera", "printer",
      "scanner", "router", "modem"]),
    ("furniture",
     ["chair", "desk", "table", "sofa", "couch", "bed", "mattress"],
     ["cabinet", "shelf", "bookshelf", "wardrobe", "drawer", "dresser", "nightstand"]),
    ("office_supplies",
     ["pen", "pencil", "paper", "notebook", "stapler", "clip"],
     ["folder", "binder", "marker", "eraser", "tape", "glue", "scissors"]),
    ("food_beverages",
     ["rice", "flour", "sugar", "salt", "oil", "pasta", "cereal", "bread"],
     ["milk", "cheese", "butter", "yogurt", "juice", "coffee", "tea", "water"]),
    ("clothing",
     ["shirt", "pants", "dress", "shoes", "jacket", "sweater"],
     ["jeans", "socks", "hat", "gloves", "belt", "tie", "scarf"]),
    ("tools_hardware",
     ["hammer", "screwdriver", "drill", "saw", "wrench", "pliers"],
     ["measuring", "level", "knife", "blade", "bit", "nail", "screw", "bolt"]),
    ("cleaning_hygiene",
     ["detergent", "soap", "cleaner", "disinfectant", "bleach"],
     ["sponge", "brush", "vacuum", "mop", "tissue", "towel", "shampoo", "toothpaste"]),
    ("automotive",
     ["tire", "battery", "oil", "filter", "brake"],
     ["light", "mirror", "seat", "engine", "wire", "fluid"]) ]

/-- Running best of the classifier scan.  Python floats are modelled as
exact rationals; the fractions compared here have denominators far apart
relative to double precision, so the comparisons agree. -/
structure ClsBest where
  cat : String
  sub : String
  score : ℚ
  deriving Repr, DecidableEq

/-- Primary-keyword scan (strictly-greater updates only). -/
def primaryScan (words : List String) (st : ClsBest) : ClsBest :=
  core_product_keywords.foldl
    (fun st entry =>
      entry.2.1.foldl
        (fun st kw =>
          words.foldl
            (fun st w =>
              if pyIn kw w || pyIn w kw then
                let sc : ℚ := (kw.length : ℚ) / (max w.length kw.length : ℚ)
                if sc > st.score then ⟨entry.1, "primary", sc⟩ else st
              else st)
            st)
        st)
    st

/-- Secondary-keyword scan with the 0.7 down-weight. -/
def secondaryScan (words : List String) (st : ClsBest) : ClsBest :=
  core_product_keywords.foldl
    (fun st entry =>
      entry.2.2.foldl
        (fun st kw =>
          words.foldl
            (fun st w =>
              if pyIn kw w || pyIn w kw then
                let sc : ℚ := (kw.length : ℚ) / (max w.length kw.length : ℚ) * (7 / 10)
                if sc > st.score then ⟨entry.1, "secondary", sc⟩ else st
              else st)
            st)
        st)
    st

/-- `ProductGroupingEngine.extract_core_product_type`. -/
def extract_core_product_type (s : String) : String × String × ℚ :=
  let words := pySplit (normalize_product_name s)
  let st1 := primaryScan words ⟨"other", "general", 0⟩
  let st2 := if st1.score < 4 / 5 then secondaryScan words st1 else st1
  let st3 :=
    if st2.score < 1 / 2 ∧ words ≠ [] then
      match words.filter (fun w => w.length > 2) with
      | [] => st2
      | w :: _ => { st2 with sub := w }
    else st2
  (st3.cat, st3.sub, st3.score)

/-! ## `difflib.SequenceMatcher` (no junk predicate, as used in the
source) -/

/-- Indices of `c` in `b`, with the `autojunk` popularity filter
(`isjunk=None` throughout the source, so only the popularity heuristic
remains, inert below 200 characters). -/
def b2j (b : List Char) (c : Char) : List Nat :=
  let idxs := (List.range b.length).filter (fun j => b.get? j = some c)
  if 200 ≤ b.length && b.length / 100 + 1 < idxs.length then [] else idxs

/-- Lookup in the previous DP row (`j2len.get(j-1, 0)`, where Python's
`j - 1 = -1` for `j = 0` is an absent key). -/
def j2get (l : List (Nat × Nat)) (j : Nat) : Nat :=
  if j = 0 then 0 else ((l.lookup (j - 1)).getD 0)

/-- DP state of `find_longest_match`. -/
structure FlmSt where
  besti : Nat
  bestj : Nat
  bestsize : Nat
  j2len : List (Nat × Nat)

/-- Inner loop of `find_longest_match` for one `i`: walk the ascending
index list of `a[i]` in `b` (`continue` below `blo` and `break` at `bhi`
amount to the range filter), building the new DP row. -/
def flmInner (blo bhi i : Nat) (js : List Nat) (st : FlmSt) : FlmSt :=
  let js := js.filter (fun j => blo ≤ j && j < bhi)
  let upd := js.foldl
    (fun (acc : List (Nat × Nat) × Nat × Nat × Nat) j =>
      let (row, bi, bj, bk) := acc
      let k := j2get st.j2len j + 1
      let row := (j, k) :: row
      if k > bk then (row, i + 1 - k, j + 1 - k, k) else (row, bi, bj, bk))
    ([], st.besti, st.bestj, st.bestsize)
  { besti := upd.2.1, bestj := upd.2.2.1, bestsize := upd.2.2.2, j2len := upd.1 }

/-- Are both optional characters present and equal? -/
def optCharEq (x y : Option Char) : Bool :=
  match x, y with
  | some a, some b => a = b
  | _, _ => false

/-- Non-junk left extension loop of `find_longest_match` (the junk set is
empty, so the two junk-adjacent loops of the source are no-ops and are
omitted).  The fuel tracks `besti` exactly: each step decrements both, and
at fuel 0 `besti = 0` fails the guard anyway. -/
def extLeftGo (a b : List Char) (alo blo : Nat) :
    Nat → Nat → Nat → Nat → Nat × Nat × Nat
  | 0, besti, bestj, bestsize => (besti, bestj, bestsize)
  | fuel + 1, besti, bestj, bestsize =>
    if alo < besti ∧ blo < bestj ∧
        optCharEq (a.get? (besti - 1)) (b.get? (bestj - 1)) then
      extLeftGo a b alo blo fuel (besti - 1) (bestj - 1) (bestsize + 1)
    else (besti, bestj, bestsize)

/-- The left extension loop at its exact fuel. -/
def extLeft (a b : List Char) (alo blo besti bestj bestsize : Nat) : Nat × Nat × Nat :=
  extLeftGo a b alo blo besti besti bestj bestsize

/-- Non-junk right extension loop of `find_longest_match`; the fuel
tracks `ahi - (besti + bestsize)` exactly. -/
def extRightGo (a b : List Char) (ahi bhi besti bestj : Nat) : Nat → Nat → Nat
  | 0, bestsize => bestsize
  | fuel + 1, bestsize =>
    if besti + bestsize < ahi ∧ bestj + bestsize < bhi ∧
        optCharEq (a.get? (besti + bestsize)) (b.get? (bestj + bestsize)) then
      extRightGo a b ahi bhi besti bestj fuel (bestsize + 1)
    else bestsize

/-- The right extension loop at its exact fuel. -/
def extRight (a b : List Char) (ahi bhi besti bestj bestsize : Nat) : Nat :=
  extRightGo a b ahi bhi besti bestj (ahi - (besti + bestsize)) bestsize

/-- `SequenceMatcher.find_longest_match` on `a[alo:ahi]` / `b[blo:bhi]`. -/
def find_longest_match (a b : List Char) (alo ahi blo bhi : Nat) : Nat × Nat × Nat :=
  let st := (List.range' alo (ahi - alo)).foldl
    (fun st i =>
      let js := match a.get? i with
        | some c => b2j b c
        | none => []
      let st' := flmInner blo bhi i js { st with j2len := st.j2len }
      { st' with j2len := st'.j2len })
    (⟨alo, blo, 0, []⟩ : FlmSt)
  let (bi, bj, bk) := extLeft a b alo blo st.besti st.bestj st.bestsize
  (bi, bj, extRight a b ahi bhi bi bj bk)

/-- Total size of the matching blocks (the queue recursion of
`get_matching_blocks`; only the sum of block sizes feeds `ratio`, and it
is independent of queue order).  The fuel is an upper bound on the
recursion depth, which shrinks the combined range at every step. -/
def matchSumGo (a b : List Char) : Nat → Nat → Nat → Nat → Nat → Nat
  | 0, _, _, _, _ => 0
  | fuel + 1, alo, ahi, blo, bhi =>
    let r := find_longest_match a b alo ahi blo bhi
    if r.2.2 = 0 then 0
    else
      r.2.2 + matchSumGo a b fuel alo r.1 blo r.2.1 +
        matchSumGo a b fuel (r.1 + r.2.2) ahi (r.2.1 + r.2.2) bhi

/-- Sum of all matching block sizes between `a` and `b`. -/
def matchSum (a b : List Char) : Nat :=
  matchSumGo a b (a.length + b.length + 1) 0 a.length 0 b.length

/-- `SequenceMatcher(None, a, b).ratio()` (`2.0 * M / T`, or `1.0` when
both strings are empty). -/
def seqRatio (a b : String) : ℚ :=
  if a.length + b.length = 0 then 1
  else 2 * (matchSum a.toList b.toList : ℚ) / ((a.length + b.length : Nat) : ℚ)

/-! ## Similarity scorer (`calculate_product_similarity`) -/

/-- The fields of an item dictionary read by the similarity scorer
(`item.get('name', '')`, `item.get('category', '')`). -/
structure SimItem where
  name : Option String := Option.none
  category : Option String := Option.none
  deriving Repr, DecidableEq

/-- `ProductGroupingEngine.calculate_product_similarity`.  The source has
a mis-indented `else:` at line 190; the intended reading (Jaccard overlap
when both token sets are non-empty, else 0.0) is embedded.  Weights 0.4 /
0.3 / 0.2 / 0.1 are the exact rationals 2/5, 3/10, 1/5, 1/10. -/
def calculate_product_similarity (item1 item2 : SimItem) : ℚ :=
  let name1 := normalize_product_name (item1.name.getD "")
  let name2 := normalize_product_name (item2.name.getD "")
  let t1 := extract_core_product_type (item1.name.getD "")
  let t2 := extract_core_product_type (item2.name.getD "")
  let type_similarity : ℚ := if t1.1 = t2.1 ∧ t1.1 ≠ "other" then 1 else 0
  let string_similarity := seqRatio name1 name2
  let words1 := (pySplit name1).dedup
  let words2 := (pySplit name2).dedup
  let word_overlap : ℚ :=
    if words1 ≠ [] ∧ words2 ≠ [] then
      ((words1.filter (fun w => w ∈ words2)).length : ℚ) /
        (((words1 ++ words2).dedup.length : Nat) : ℚ)
    else 0
  let cat1 := pyLower (item1.category.getD "")
  let cat2 := pyLower (item2.category.getD "")
  let category_similarity : ℚ := if cat1 = cat2 ∧ cat1 ≠ "unknown" then 1 else 0
  type_similarity * (2 / 5) + string_similarity * (3 / 10) +
    word_overlap * (1 / 5) + category_similarity * (1 / 10)

/-! ## Group-tree data model

Python dictionaries with possibly-absent keys are modelled as structures
with `Option` fields (a `none` field is an absent key). -/

/-- An item dictionary (union of the fields the embedded functions read
or write). -/
structure PItem where
  id : Option String := Option.none
  name : Option String := Option.none
  price : Option ℚ := Option.none
  category : Option String := Option.none
  quantity : Option Int := Option.none
  count : Option Int := Option.none
  row_data : List (String × String) := []
  original_index : Option Int := Option.none
  chunk_index : Option Nat := Option.none
  deriving Repr, DecidableEq

/-- A sub-group dictionary. -/
structure SubGroup where
  id : Option String := Option.none
  name : Option String := Option.none
  items : Option (List PItem) := Option.none
  count : Option Int := Option.none
  item_count : Option Int := Option.none
  is_ungrouped_subgroup : Option Bool := Option.none
  deriving Repr, DecidableEq

/-- A main-group dictionary (`'type'` is rendered `gtype`). -/
structure MainGroup where
  id : Option String := Option.none
  name : Option String := Option.none
  gtype : Option String := Option.none
  enabled : Option Bool := Option.none
  items : Option (List PItem) := Option.none
  sub_groups : Option (List SubGroup) := Option.none
  count : Option Int := Option.none
  item_count : Option Int := Option.none
  estimated_savings : Option String := Option.none
  deriving Repr, DecidableEq

/-- The `counts` dictionary of a validation report (integers, since
`ungrouped_records = total_rows - grouped_records` can be negative). -/
structure VCounts where
  total_rows : Int
  grouped_records : Int
  ungrouped_records : Int
  main_groups : Int
  total_sub_groups : Int
  ungrouped_subgroups : Int
  deriving Repr, DecidableEq

/-- A validation report. -/
structure VReport where
  is_valid : Bool
  errors : List String
  warnings : List String
  counts : VCounts
  deriving Repr, DecidableEq

/-! ## Estimated savings (`calculate_estimated_savings`) -/

/-- Round-half-even to an integer, which is what `f"{x:.0f}"` performs on
the exactly-representable `.0`/`.5` values produced by the savings
formula. -/
def roundHalfEvenQ (q : ℚ) : Int :=
  let f := ⌊q⌋
  let r := q - f
  if r < 1 / 2 then f else if r > 1 / 2 then f + 1 else if f % 2 = 0 then f else f + 1

/-- The piecewise savings percentage over the item count. -/
def savingsPct (item_count : Nat) : ℚ :=
  if item_count ≥ 10 then min 25 (10 + ((item_count - 10 : Nat) : ℚ) * (1 / 2))
  else if item_count ≥ 5 then min 15 (5 + ((item_count - 5 : Nat) : ℚ) * 1)
  else max 5 ((item_count : ℚ) * 2)

/-- `ProductGroupingEngine.calculate_estimated_savings` (the computed
`total_value` is dead in the source and kept dead here). -/
def calculate_estimated_savings (items : List PItem) : String :=
  let _total_value := (items.map (fun it => (it.price.getD 0) * ((it.quantity.getD 1 : Int) : ℚ))).sum
  intDec (roundHalfEvenQ (savingsPct items.length)) ++ "%"

/-! ## Validator / accountant (`validate_and_count_groups`)

The in-place count/name mutations are modelled by returning the updated
group list next to the report. -/

/-- Candidate deduplicated name `f"{orig} ({counter})"`. -/
def candName (orig : String) (k : Nat) : String := orig ++ " (" ++ natDec k ++ ")"

/-- The `while sub_group_name in sub_group_names` loop: find the first
counter whose candidate is fresh.  The fuel `names.length + 1` always
suffices (`freshName_not_mem` below). -/
def freshFrom (orig : String) (names : List String) : Nat → Nat → String
  | 0, c => candName orig c
  | fuel + 1, c => if candName orig c ∈ names then freshFrom orig names fuel (c + 1) else candName orig c

/-- Deduplicated name for a colliding sub-group name. -/
def freshName (orig : String) (names : List String) : String :=
  freshFrom orig names (names.length + 1) 1

theorem candName_injective (orig : String) : Function.Injective (candName orig) := by
  intro a b h
  unfold candName at h
  have hd := congrArg String.data h
  simp only [String.data_append, List.append_assoc] at hd
  have hd2 := List.append_cancel_left hd
  have hd3 := List.append_cancel_left hd2
  have hd4 := List.append_cancel_right hd3
  exact natDec_injective (String.ext hd4)

theorem freshFrom_mem (orig : String) (names : List String) :
    ∀ fuel c, freshFrom orig names fuel c ∈ names →
      ∀ i ≤ fuel, candName orig (c + i) ∈ names := by
  intro fuel
  induction fuel with
  | zero =>
    intro c h i hi
    interval_cases i
    simpa [freshFrom] using h
  | succ f ih =>
    intro c h i hi
    by_cases hc : candName orig c ∈ names
    · rcases i with _ | j
      · simpa using hc
      · rw [freshFrom, if_pos hc] at h
        have := ih (c + 1) h j (by omega)
        simpa [Nat.add_assoc, Nat.add_comm 1 j] using this
    · rw [freshFrom, if_neg hc] at h
      exact absurd h hc

theorem freshName_not_mem (orig : String) (names : List String) :
    freshName orig names ∉ names := by
  intro h
  have hall := freshFrom_mem orig names (names.length + 1) 1 h
  set L := names.length + 2 with hL
  have hsub : ∀ x ∈ (List.range L).map (fun i => candName orig (1 + i)), x ∈ names := by
    intro x hx
    simp only [List.mem_map, List.mem_range] at hx
    obtain ⟨i, hi, rfl⟩ := hx
    exact hall i (by omega)
  have hnodup : ((List.range L).map (fun i => candName orig (1 + i))).Nodup := by
    refine List.Nodup.map ?_ (List.nodup_range L)
    intro a b hab
    have := candName_injective orig hab
    omega
  have hcard : L ≤ names.toFinset.card := by
    have h1 : ((List.range L).map (fun i => candName orig (1 + i))).toFinset.card = L := by
      rw [List.toFinset_card_of_nodup hnodup]
      simp
    have h2 : ((List.range L).map (fun i => candName orig (1 + i))).toFinset ⊆
        names.toFinset := by
      intro x hx
      rw [List.mem_toFinset] at hx ⊢
      exact hsub x hx
    calc L = _ := h1.symm
      _ ≤ names.toFinset.card := Finset.card_le_card h2
  have := names.toFinset_card_le
  omega

/-- Count/quantity annotation written onto every item of a (non-empty)
item list. -/
def annotateItems (items : List PItem) : List PItem :=
  items.map (fun it =>
    { it with count := some (it.quantity.getD 1), quantity := some (it.quantity.getD 1) })

/-- State of the sub-group loop inside one main group. -/
structure SubAcc where
  names : List String
  subs : List SubGroup
  errors : List String
  valid : Bool
  total : Int

/-- One iteration of the sub-group loop of `validate_and_count_groups`. -/
def vSubStep (groupName : String) (acc : SubAcc) (idxSg : Nat × SubGroup) : SubAcc :=
  let name0 := idxSg.2.name.getD ("SubGroup_" ++ natDec idxSg.1)
  let collide := name0 ∈ acc.names
  let name1 := if collide then freshName name0 acc.names else name0
  let errors1 := if collide then
      acc.errors ++
        ["Duplicate sub-group name '" ++ name0 ++ "' in main group '" ++ groupName ++ "'"]
    else acc.errors
  let valid1 := if collide then false else acc.valid
  let c : Int := (idxSg.2.items.getD []).length
  let items1 := idxSg.2.items.map (fun l => if l.isEmpty then l else annotateItems l)
  let sg1 : SubGroup :=
    { idxSg.2 with
        name := if collide then some name1 else idxSg.2.name
        items := items1
        count := some c
        item_count := some c }
  { names := name1 :: acc.names, subs := acc.subs ++ [sg1],
    errors := errors1, valid := valid1, total := acc.total + c }

/-- State of the main-group loop of `validate_and_count_groups`. -/
structure MainAcc where
  groups : List MainGroup
  errors : List String
  valid : Bool
  grouped : Int
  subGroups : Int

/-- One iteration of the main-group loop. -/
def vMainStep (acc : MainAcc) (idxG : Nat × MainGroup) : MainAcc :=
  let g := idxG.2
  let directCount : Int := (g.items.getD []).length
  let items1 := g.items.map (fun l => if l.isEmpty then l else annotateItems l)
  let groupName := g.name.getD ("Group_" ++ natDec idxG.1)
  let hasSubs := match g.sub_groups with
    | some (_ :: _) => true
    | _ => false
  let subRes :=
    if hasSubs then
      (g.sub_groups.getD []).enum.foldl (vSubStep groupName)
        ⟨[], [], acc.errors, acc.valid, 0⟩
    else ⟨[], [], acc.errors, acc.valid, 0⟩
  let subs1 := if hasSubs then some subRes.subs else g.sub_groups
  let mainCount := directCount + subRes.total
  let g1 : MainGroup :=
    { g with
        items := items1
        sub_groups := subs1
        count := some mainCount
        item_count := some mainCount }
  { groups := acc.groups ++ [g1],
    errors := subRes.errors, valid := subRes.valid,
    grouped := acc.grouped + mainCount,
    subGroups := acc.subGroups + (if hasSubs then (g.sub_groups.getD []).length else 0) }

/-- `ProductGroupingEngine.validate_and_count_groups`: returns the
updated (count-annotated, name-deduplicated) groups and the report. -/
def validate_and_count_groups (groups : List MainGroup) (total_rows : Int) :
    List MainGroup × VReport :=
  let res := groups.enum.foldl vMainStep (⟨[], [], true, 0, 0⟩ : MainAcc)
  let grouped := res.grouped
  let ungrouped := total_rows - grouped
  let mismatch := grouped + ungrouped ≠ total_rows
  let errors1 := if mismatch then
      res.errors ++ ["Count mismatch: Sum(Grouped: " ++ toString grouped ++ ") + " ++
        "Ungrouped: " ++ toString ungrouped ++ ") = " ++ toString (grouped + ungrouped) ++
        "  Total Rows: " ++ toString total_rows]
    else res.errors
  let valid1 := if mismatch then false else res.valid
  let ungroupedSubs : Int :=
    (res.groups.map (fun g =>
      ((g.sub_groups.getD []).filter (fun sg => sg.is_ungrouped_subgroup.getD false)).length)).sum
  (res.groups,
   { is_valid := valid1, errors := errors1, warnings := [],
     counts :=
       { total_rows := total_rows, grouped_records := grouped,
         ungrouped_records := ungrouped, main_groups := groups.length,
         total_sub_groups := res.subGroups, ungrouped_subgroups := ungroupedSubs } })

/-! ## DataFrame model

Cells are `Option String`: `none` is NaN (pandas missing value).  Numeric
pandas dtypes are outside the model; every grouping decision in the
embedded functions goes through `str(value)`, for which string cells are
faithful.  A row is an ordered mapping column-name → cell. -/

/-- A cell (`none` = NaN). -/
abbrev Cell := Option String

/-- Python `str(cell)` (`str(float('nan')) = 'nan'`). -/
def cellStr : Cell → String
  | some s => s
  | Option.none => "nan"

/-- A row (`Series.to_dict()` view). -/
abbrev Row := List (String × Cell)

/-- `row.get(c)` distinguishing an absent label (`none`) from a NaN cell
(`some none`). -/
def rowGet (r : Row) (c : String) : Option Cell := r.lookup c

/-- The cell of column `c` (absent label behaves as NaN). -/
def rowCell (r : Row) (c : String) : Cell := (rowGet r c).join

/-- `pd.isna` of the value `row.get(c)` yields. -/
def rowIsNa (r : Row) (c : String) : Bool := (rowCell r c).isNone

/-- A DataFrame: column names plus rows (the positional index is the
list position, as for a freshly read / `ignore_index` frame). -/
structure DataFrame where
  cols : List String
  rows : List Row
  deriving Repr, DecidableEq

/-- Fuel-structural first-occurrence deduplication (the list's length is
always enough fuel: filtering never lengthens the tail). -/
def firstDedupF {α : Type} [DecidableEq α] : Nat → List α → List α
  | _, [] => []
  | 0, l => l
  | fuel + 1, x :: xs => x :: firstDedupF fuel (xs.filter (fun y => y ≠ x))

/-- Keep the first occurrence of each element (Python `dict`/`Counter`
insertion order, `pandas.unique` order). -/
def firstDedup {α : Type} [DecidableEq α] (l : List α) : List α :=
  firstDedupF l.length l

/-- Stable descending insertion by count (Python `sorted(...,
reverse=True)` / `Counter.most_common` tie behaviour: first-seen first).
-/
def insDesc {α : Type} (x : α × Nat) : List (α × Nat) → List (α × Nat)
  | [] => [x]
  | y :: ys => if x.2 > y.2 then x :: y :: ys else y :: insDesc x ys

/-- Stable sort, descending by count. -/
def sortDescBy {α : Type} (l : List (α × Nat)) : List (α × Nat) :=
  l.foldl (fun acc x => insDesc x acc) []

/-- `Series.value_counts()`: distinct non-NaN values with their
occurrence counts, most frequent first (ties in first-appearance
order). -/
def value_counts (cells : List Cell) : List (String × Nat) :=
  sortDescBy ((firstDedup cells).filterMap
    (fun c => c.map (fun s => (s, cells.count (some s)))))

/-- `Series.unique()` (first-appearance order, NaN kept). -/
def uniqueCells (cells : List Cell) : List Cell := firstDedup cells

/-- Ascending insertion by a strict order. -/
def insAscStr (x : String) : List String → List String
  | [] => [x]
  | y :: ys => if x < y then x :: y :: ys else y :: insAscStr x ys

/-- `DataFrame.groupby(col)` key order: distinct non-NaN values sorted
ascending. -/
def groupbyKeys (cells : List Cell) : List String :=
  (firstDedup (cells.filterMap id)).foldl (fun acc x => insAscStr x acc) []

/-- Cells of one column across the frame. -/
def dfColCells (df : DataFrame) (col : String) : List Cell :=
  df.rows.map (fun r => rowCell r col)

/-! ## `safe_float` / `safe_int` / `safe_str` / `clean_group_name` -/

/-- Remove every occurrence of a character (`str.replace(c, '')`). -/
def removeChar (c : Char) (s : String) : String :=
  String.mk (s.toList.filter (fun x => x ≠ c))

/-- Python `float(s)` on plain decimal forms (the exponent/inf forms
never arise from the numeric strings these CSV paths feed in). -/
def parseFloat? (s : String) : Option ℚ :=
  let cs := stripCL s.toList
  let (sign, cs) : ℚ × List Char :=
    match cs with
    | '-' :: rest => (-1, rest)
    | '+' :: rest => (1, rest)
    | rest => (1, rest)
  let intPart := cs.takeWhile Char.isDigit
  let rest := cs.drop intPart.length
  match rest with
  | [] => if intPart.isEmpty then Option.none else some (sign * decVal intPart)
  | '.' :: frac =>
      if frac.all Char.isDigit ∧ ¬(intPart.isEmpty ∧ frac.isEmpty) then
        some (sign * ((decVal intPart : ℚ) + (decVal frac : ℚ) / ((10 : ℚ) ^ frac.length)))
      else Option.none
  | _ => Option.none

/-- Truncation toward zero (Python `int(float)`). -/
def truncQ (q : ℚ) : Int := if 0 ≤ q then ⌊q⌋ else ⌈q⌉

/-- `ProductGroupingEngine.safe_float` on a cell. -/
def safe_float (v : Cell) (default : ℚ := 0) : ℚ :=
  if v.isNone || v = some "" then default
  else
    match parseFloat? (pyStrip (removeChar '$' (removeChar ',' (cellStr v)))) with
    | some q => q
    | Option.none => default

/-- `ProductGroupingEngine.safe_int` on a cell (only `,` is removed in
the source). -/
def safe_int (v : Cell) (default : Int := 1) : Int :=
  if v.isNone || v = some "" then default
  else
    match parseFloat? (pyStrip (removeChar ',' (cellStr v))) with
    | some q => truncQ q
    | Option.none => default

/-- `ProductGroupingEngine.safe_str` on a cell. -/
def safe_str (v : Cell) (default : String := "Unknown") : String :=
  if v.isNone || v = some "" then default else pyStrip (cellStr v)

/-- Python `str.title()` (ASCII fragment): uppercase a letter after a
non-letter, lowercase the rest. -/
def pyTitle (s : String) : String :=
  String.mk ((s.toList.foldl
    (fun (acc : List Char × Bool) c =>
      if c.isAlpha then
        ((if acc.2 then c.toLower else c.toUpper) :: acc.1, true)
      else (c :: acc.1, false))
    ([], false)).1.reverse)

/-- `ProductGroupingEngine.clean_group_name` (called on strings;
`pd.isna` of a string is false). -/
def clean_group_name (name : String) : String :=
  if name = "" then "Ungrouped"
  else
    let c := pyStrip name
    let c := String.intercalate " " (pySplit c)
    let c := pyTitle c
    if c = "" then "Ungrouped" else c

/-- Fresh-id supply standing in for `uuid.uuid4()` (`generate_group_id`
truncates it to 8 characters; only freshness is observable). -/
def genId (n : Nat) : String := "id-" ++ natDec n

/-- `ProductGroupingEngine.create_item_from_row`. -/
def create_item_from_row (row : Row) (index : Nat) (main_value sub_value : String) :
    PItem :=
  { id := some (natDec index)
    name := some (if sub_value ≠ "" then sub_value else main_value)
    price := some (match rowGet row "price" with
      | some c => safe_float c
      | Option.none =>
          match rowGet row "Price" with
          | some c => safe_float c
          | Option.none => 0)
    category := some main_value
    quantity := some (match rowGet row "quantity" with
      | some c => safe_int c
      | Option.none =>
          match rowGet row "Quantity" with
          | some c => safe_int c
          | Option.none => 1)
    count := some 1
    row_data := row.map (fun kv => (kv.1, cellStr kv.2))
    original_index := some (index : Int) }

/-- Can `calculate_estimated_savings(df.to_dict('records'))` run without
a `TypeError`?  With string cells, any non-NaN value under a literal
`price` or `quantity` column makes the dead `total_value` sum raise in
Python (string arithmetic); the callers then swallow the exception and
return `None`. -/
def records_savings_ok (df : DataFrame) : Bool :=
  df.rows.all (fun r => (rowCell r "price").isNone && (rowCell r "quantity").isNone)

/-- `calculate_estimated_savings(df.to_dict('records'))`: `none` is the
`TypeError` path described at `records_savings_ok`. -/
def savings_records (df : DataFrame) : Option String :=
  if records_savings_ok df then
    some (intDec (roundHalfEvenQ (savingsPct df.rows.length)) ++ "%")
  else Option.none

/-! ## Unique-value main groups
(`generate_main_groups_from_unique_values`) -/

/-- The result dictionary of `generate_main_groups_from_unique_values`. -/
structure ResultUV where
  groups : List MainGroup
  ungrouped_items : List PItem
  validation : VReport
  total_items : Int
  grouped_items : Int
  ungrouped_count : Int
  total_groups : Int
  total_sub_groups : Int
  estimated_time_saved : String
  is_valid : Bool
  processing_method : String
  source_column : String
  deriving Repr, DecidableEq

/-- Build the main group for one distinct column value (two fresh ids:
group and its single sub-group). -/
def uvGroupFor (df : DataFrame) (column_name : String) (nid : Nat) (v : String) :
    MainGroup :=
  let items := (df.rows.enum.filter (fun p => rowCell p.2 column_name = some v)).map
    (fun p => create_item_from_row p.2 p.1 v v)
  { id := some (genId nid)
    name := some v
    enabled := some true
    gtype := some "main"
    items := some []
    sub_groups := some
      [{ id := some (genId (nid + 1))
         name := some (v ++ " Items")
         items := some items
         count := some (items.length : Int)
         item_count := some (items.length : Int) }]
    count := some (items.length : Int)
    item_count := some (items.length : Int)
    estimated_savings := some (natDec (min 30 (items.length * 2)) ++ "%") }

/-- `ProductGroupingEngine.generate_main_groups_from_unique_values`
(`none` = the exception path: missing column, or the savings
`TypeError`). -/
def generate_main_groups_from_unique_values (df : DataFrame) (column_name : String) :
    Option ResultUV :=
  if column_name ∉ df.cols then Option.none
  else
    let uv := value_counts (dfColCells df column_name)
    let kept := (uv.map Prod.fst).filter (fun v => pyStrip v ≠ "")
    let groups := kept.enum.map (fun p => uvGroupFor df column_name (2 * p.1) p.2)
    let total_grouped : Int := (groups.map (fun g => (g.count.getD 0))).sum
    let ungrouped_items := (df.rows.enum.filter
      (fun p => (rowCell p.2 column_name).isNone ||
        pyStrip (cellStr (rowCell p.2 column_name)) = "")).map
      (fun p => create_item_from_row p.2 p.1 "Ungrouped" "No Value")
    let vres := validate_and_count_groups groups (df.rows.length : Int)
    match savings_records df with
    | Option.none => Option.none
    | some saved =>
        some
          { groups := vres.1
            ungrouped_items := ungrouped_items
            validation := vres.2
            total_items := (df.rows.length : Int)
            grouped_items := total_grouped
            ungrouped_count := (ungrouped_items.length : Int)
            total_groups := (groups.length : Int)
            total_sub_groups := (groups.length : Int)
            estimated_time_saved := saved
            is_valid := vres.2.is_valid
            processing_method := "unique_values_main_groups"
            source_column := column_name }

/-! ## AI-plan-driven grouping

The single OpenAI request plus response cleaning / JSON parsing is
modelled as an injected `Except` outcome: `error` covers every failure
mode up to JSON parsing (network, authentication, rate limit, malformed
JSON), and a parsed object may still miss required keys (`Option`
fields), which the plan validation turns into the fallback as well. -/

/-- One mapping entry of a grouping plan. -/
structure PlanMapping where
  core_type : String := ""
  original_values : List String := []
  total_count : Int := 0
  reasoning : String := ""
  deriving Repr, DecidableEq

/-- The `grouping_strategy` block. -/
structure GroupingStrategy where
  approach : String := ""
  total_main_groups : Int := 0
  total_sub_groups : Int := 0
  coverage_percentage : Int := 0
  deriving Repr, DecidableEq

/-- A validated grouping plan (all three required keys present). -/
structure GroupingPlan where
  main_group_mappings : List (String × PlanMapping)
  sub_group_mappings : List (String × PlanMapping)
  grouping_strategy : GroupingStrategy
  deriving Repr, DecidableEq

/-- A parsed-but-unvalidated oracle response (absent required keys are
`none`). -/
structure RawPlan where
  main_group_mappings : Option (List (String × PlanMapping)) := Option.none
  sub_group_mappings : Option (List (String × PlanMapping)) := Option.none
  grouping_strategy : Option GroupingStrategy := Option.none
  deriving Repr, DecidableEq

/-- Outcome of the one oracle attempt. -/
abbrev OracleOutcome := Except String RawPlan

/-- Python dict assignment `d[k] = v`: update in place, else append. -/
def upsert {β : Type} (l : List (String × β)) (k : String) (v : β) : List (String × β) :=
  if l.any (fun kv => kv.1 = k) then
    l.map (fun kv => if kv.1 = k then (k, v) else kv)
  else l ++ [(k, v)]

/-- Python `s.replace(' ', '_')`. -/
def spacesToUnderscores (s : String) : String :=
  String.mk (s.toList.map (fun c => if c = ' ' then '_' else c))

/-- `ProductGroupingEngine.create_fallback_grouping_plan`. -/
def create_fallback_grouping_plan (main_unique_values : List String)
    (main_value_counts : List Int) (sub_unique_values : List String)
    (sub_value_counts : List Int) : GroupingPlan :=
  let mkSide (vals : List String) (counts : List Int) :=
    vals.enum.foldl
      (fun acc p =>
        let count := if p.1 < counts.length then counts.getD p.1 0 else 0
        let clean_name := clean_group_name p.2
        upsert acc clean_name
          { core_type := spacesToUnderscores (pyLower clean_name)
            original_values := [p.2]
            total_count := count
            reasoning := "Direct mapping (fallback)" })
      []
  { main_group_mappings := mkSide main_unique_values main_value_counts
    sub_group_mappings := mkSide sub_unique_values sub_value_counts
    grouping_strategy :=
      { approach := "fallback_direct_mapping"
        total_main_groups := (main_unique_values.length : Int)
        total_sub_groups := (sub_unique_values.length : Int)
        coverage_percentage := 100 } }

/-- `ProductGroupingEngine.create_ai_grouping_plan`: everything up to and
including the required-key validation happens inside one `try`; any
failure falls back.  (The prompt text built from the first 50/100 value
entries does not influence the modelled outcome.) -/
def create_ai_grouping_plan (oracle : OracleOutcome) (main_unique_values : List String)
    (main_value_counts : List Int) (sub_unique_values : List String)
    (sub_value_counts : List Int) : GroupingPlan :=
  match oracle with
  | .error _ =>
      create_fallback_grouping_plan main_unique_values main_value_counts
        sub_unique_values sub_value_counts
  | .ok raw =>
      match raw.main_group_mappings, raw.sub_group_mappings, raw.grouping_strategy with
      | some m, some s, some g =>
          { main_group_mappings := m, sub_group_mappings := s, grouping_strategy := g }
      | _, _, _ =>
          create_fallback_grouping_plan main_unique_values main_value_counts
            sub_unique_values sub_value_counts

/-- `ProductGroupingEngine.find_best_group_match`. -/
def find_best_group_match (value : String) (mappings : List (String × PlanMapping))
    (threshold : ℚ := 3 / 5) : Option String :=
  let value_lower := pyLower value
  let best := mappings.foldl
    (fun (best : Option String × ℚ) entry =>
      entry.2.original_values.foldl
        (fun best ov =>
          let ovl := pyLower ov
          let score : ℚ :=
            if pyIn value_lower ovl || pyIn ovl value_lower then 4 / 5
            else seqRatio value_lower ovl
          if score > best.2 ∧ score ≥ threshold then (some entry.1, score) else best)
        best)
    (Option.none, 0)
  best.1

/-- Sub-group accumulator inside `apply_ai_grouping_plan` (a value of the
name-keyed `sub_groups` dict). -/
structure SAccum where
  saId : String
  saItems : List PItem
  saCount : Int
  deriving Repr, DecidableEq

/-- Main-group accumulator (a value of the name-keyed
`main_groups_data` dict). -/
structure GAccum where
  gaId : String
  gaName : String
  gaSubs : List (String × SAccum)
  gaCount : Int
  deriving Repr, DecidableEq

/-- The `main_value` string of a row in `apply_ai_grouping_plan`
(`str(row.get(col, '')).strip()`; an absent label gives `''`, a NaN cell
gives `'nan'`). -/
def applyMainValue (row : Row) (col : String) : String :=
  match rowGet row col with
  | Option.none => ""
  | some c => pyStrip (cellStr c)

/-- Group-name resolution: direct reverse lookup, else fuzzy match, else
the cleaned value itself (Python falsiness of `''` and `None` collapse
here). -/
def resolveGroupName (v : String) (revMap : List (String × String))
    (mappings : List (String × PlanMapping)) : String :=
  let gA := (revMap.lookup v).getD ""
  let gB := if gA = "" then (find_best_group_match v mappings).getD "" else gA
  if gB = "" then clean_group_name v else gB

/-- Process one row of `apply_ai_grouping_plan`; state is the name-keyed
group dict plus the fresh-id counter. -/
def applyRowStep (mainCol : String) (subCol : Option String)
    (revMain revSub : List (String × String))
    (mainMappings subMappings : List (String × PlanMapping))
    (st : List (String × GAccum) × Nat) (p : Nat × Row) :
    List (String × GAccum) × Nat :=
  let (idx, row) := p
  let mv := applyMainValue row mainCol
  if mv = "" ∨ rowIsNa row mainCol then st
  else
    let sv := match subCol with
      | some sc => if sc ≠ "" then applyMainValue row sc else ""
      | Option.none => ""
    let gname := resolveGroupName mv revMain mainMappings
    let (data, nid) := st
    let (data, nid) :=
      if data.any (fun kv => kv.1 = gname) then (data, nid)
      else (data ++ [(gname, ⟨genId nid, gname, [], 0⟩)], nid + 1)
    let subActive := (match subCol with | some sc => sc ≠ "" | Option.none => Bool.false) && sv ≠ ""
    let sgname := if subActive then resolveGroupName sv revSub subMappings else "All Items"
    let item := create_item_from_row row idx mv sv
    let updGroup (g : GAccum) (nid : Nat) : GAccum × Nat :=
      let (subs, nid) :=
        if g.gaSubs.any (fun kv => kv.1 = sgname) then (g.gaSubs, nid)
        else (g.gaSubs ++ [(sgname, ⟨genId nid, [], 0⟩)], nid + 1)
      let subs := subs.map (fun kv =>
        if kv.1 = sgname then
          (kv.1, { kv.2 with saItems := kv.2.saItems ++ [item], saCount := kv.2.saCount + 1 })
        else kv)
      ({ g with gaSubs := subs, gaCount := g.gaCount + 1 }, nid)
    let (data, nid) :=
      match data.lookup gname with
      | some g =>
          let (g', nid') := updGroup g nid
          (data.map (fun kv => if kv.1 = gname then (gname, g') else kv), nid')
      | Option.none => (data, nid)
    (data, nid)

/-- Convert one accumulated group to the output dictionary shape. -/
def gaccumToGroup (g : GAccum) : MainGroup :=
  let subsArr := g.gaSubs.map (fun kv =>
    ({ id := some kv.2.saId
       name := some kv.1
       items := some kv.2.saItems
       count := some (kv.2.saItems.length : Int) } : SubGroup))
  { id := some g.gaId
    name := some g.gaName
    gtype := some "main"
    enabled := some true
    sub_groups := some subsArr
    count := some g.gaCount
    item_count := some g.gaCount
    estimated_savings := some
      (calculate_estimated_savings (subsArr.map (fun sg => sg.items.getD [])).flatten) }

/-- `ProductGroupingEngine.apply_ai_grouping_plan`. -/
def apply_ai_grouping_plan (df : DataFrame) (plan : GroupingPlan)
    (main_column sub_column : Option String) : List MainGroup :=
  let revOf (mappings : List (String × PlanMapping)) : List (String × String) :=
    mappings.foldl
      (fun acc entry =>
        entry.2.original_values.foldl (fun acc ov => upsert acc ov entry.1) acc)
      []
  let revMain := revOf plan.main_group_mappings
  let revSub := revOf plan.sub_group_mappings
  match main_column with
  | some mc =>
      if mc ≠ "" ∧ mc ∈ df.cols then
        let final := df.rows.enum.foldl
          (applyRowStep mc sub_column revMain revSub plan.main_group_mappings
            plan.sub_group_mappings)
          ([], 0)
        final.1.map (fun kv => gaccumToGroup kv.2)
      else []
  | Option.none => []

/-- The result dictionary of `generate_ai_powered_groups_from_columns`. -/
structure ResultAI where
  groups : List MainGroup
  ungrouped_items : List PItem
  validation : VReport
  total_items : Int
  grouped_items : Int
  ungrouped_count : Int
  total_groups : Int
  total_sub_groups : Int
  estimated_time_saved : String
  is_valid : Bool
  processing_method : String
  ai_grouping_plan : GroupingPlan
  deriving Repr, DecidableEq

/-- The `(clean values, raw counts)` extraction step shared by both
columns of `generate_ai_powered_groups_from_columns`. -/
def uniqueWithCounts (cells : List Cell) : List String × List Int :=
  let pairs := (uniqueCells cells).filterMap
    (fun c =>
      match c with
      | some s => if pyStrip s ≠ "" then some (pyStrip s, (cells.count (some s) : Int))
                  else Option.none
      | Option.none => Option.none)
  (pairs.map Prod.fst, pairs.map Prod.snd)

/-- `ProductGroupingEngine.generate_ai_powered_groups_from_columns`
(`none` = the swallowed-exception path, reachable only through the
savings `TypeError` described at `records_savings_ok`). -/
def generate_ai_powered_groups_from_columns (oracle : OracleOutcome) (df : DataFrame)
    (main_group_column sub_group_column : Option String) : Option ResultAI :=
  let colActive (c : Option String) : Bool :=
    match c with
    | some s => s ≠ "" && s ∈ df.cols
    | Option.none => false
  let (mainVals, mainCounts) :=
    if colActive main_group_column then
      uniqueWithCounts (dfColCells df (main_group_column.getD ""))
    else ([], [])
  let (subVals, subCounts) :=
    if colActive sub_group_column then
      uniqueWithCounts (dfColCells df (sub_group_column.getD ""))
    else ([], [])
  let plan := create_ai_grouping_plan oracle mainVals mainCounts subVals subCounts
  let groups := apply_ai_grouping_plan df plan main_group_column sub_group_column
  let vres := validate_and_count_groups groups (df.rows.length : Int)
  let ungrouped_items :=
    if vres.2.counts.ungrouped_records > 0 then
      let gidx := (vres.1.map (fun g =>
        ((g.sub_groups.getD []).map (fun sg =>
          (sg.items.getD []).filterMap (fun it => it.original_index))).flatten)).flatten
      ((df.rows.enum.filter (fun p => !(gidx.contains (p.1 : Int)))).take 100).map
        (fun p => create_item_from_row p.2 p.1 "Ungrouped" "Ungrouped Item")
    else []
  match savings_records df with
  | Option.none => Option.none
  | some saved =>
      some
        { groups := vres.1
          ungrouped_items := ungrouped_items
          validation := vres.2
          total_items := vres.2.counts.total_rows
          grouped_items := vres.2.counts.grouped_records
          ungrouped_count := vres.2.counts.ungrouped_records
          total_groups := vres.2.counts.main_groups
          total_sub_groups := vres.2.counts.total_sub_groups
          estimated_time_saved := saved
          is_valid := vres.2.is_valid
          processing_method := "ai_powered_column_analysis"
          ai_grouping_plan := plan }

/-! ## Chunked frequency analysis (`generate_intelligent_groups`)

`chunk_df.sample(n, random_state=42)` is modelled as an injected sampler
`sampler n chunk`; the theorems assume only what pandas guarantees: the
sample is a permutation of a sublist (`List.Subperm`) of the chunk with
`min n (chunk.length)` rows. -/

/-- An indexed row (`iterrows` index is the positional index of the
frame). -/
abbrev IRow := Nat × Row

/-- A sampler standing in for `DataFrame.sample(n, random_state=42)`. -/
abbrev Sampler := Nat → List IRow → List IRow

/-- Positional cell access `row.iloc[i]` (`None` when past the end,
which `safe_*` treat as NaN like the source's `if len(row) > i` guards).
-/
def ilocCell (r : Row) (i : Nat) : Cell := ((r.get? i).map Prod.snd).join

/-- Fuel-structural chunking (the list's length is always enough fuel:
each chunk drops at least one element). -/
def chunkifyF {α : Type} (size : Nat) : Nat → List α → List (List α)
  | _, [] => []
  | 0, _ => []
  | fuel + 1, x :: xs =>
      if size = 0 then []
      else (x :: xs).take size :: chunkifyF size fuel ((x :: xs).drop size)

/-- Split a list into chunks of `size` (`df.iloc[i:i+size]`). -/
def chunkify {α : Type} (size : Nat) (l : List α) : List (List α) :=
  chunkifyF size l.length l

/-- A classified item of a chunk's `type_analysis`. -/
structure TypedItem where
  item : PItem
  confidence : ℚ
  sub_type : String
  deriving Repr, DecidableEq

/-- Append values under a key of a `defaultdict(list)` (key order =
first insertion). -/
def assocExtend {β : Type} (l : List (String × List β)) (k : String) (vs : List β) :
    List (String × List β) :=
  if l.any (fun kv => kv.1 = k) then
    l.map (fun kv => if kv.1 = k then (kv.1, kv.2 ++ vs) else kv)
  else l ++ [(k, vs)]

/-- `Counter(ws).most_common(n)` (`none` = no limit). -/
def counterMostCommon (ws : List String) (n : Option Nat) : List (String × Nat) :=
  let sorted := sortDescBy ((firstDedup ws).map (fun w => (w, ws.count w)))
  match n with
  | some k => sorted.take k
  | Option.none => sorted

/-- The dictionary returned by `process_chunk_data`. -/
structure ChunkResult where
  chunk_index : Nat
  items : List PItem
  type_analysis : List (String × List TypedItem)
  common_patterns : List String
  total_items : Nat
  chunk_size : Nat
  deriving Repr, DecidableEq

/-- Item construction of `process_chunk_data` (positional columns 0-3;
the per-row `except` arm is unreachable for total cell accesses). -/
def chunkRowItem (chunk_index : Nat) (p : IRow) : PItem :=
  { id := some (natDec p.1)
    name := some (safe_str (ilocCell p.2 0) ("Item_" ++ natDec p.1))
    price := some (safe_float (ilocCell p.2 1))
    category := some (safe_str (ilocCell p.2 2) "Unknown")
    quantity := some (safe_int (ilocCell p.2 3))
    count := Option.none
    row_data := p.2.map (fun kv => (kv.1, cellStr kv.2))
    original_index := Option.none
    chunk_index := some chunk_index }

/-- `ProductGroupingEngine.process_chunk_data`. -/
def process_chunk_data (sampler : Sampler) (chunk : List IRow) (chunk_index : Nat) :
    ChunkResult :=
  let sample := if chunk.length > 100 then sampler 100 chunk else chunk
  let items := sample.map (chunkRowItem chunk_index)
  let type_analysis := items.foldl
    (fun acc it =>
      let r := extract_core_product_type (it.name.getD "")
      if r.2.2 > 3 / 10 then
        assocExtend acc r.1 [⟨it, r.2.2, r.2.1⟩]
      else acc)
    []
  let all_words := (items.map (fun it =>
    pySplit (normalize_product_name (it.name.getD "")))).flatten
  let common_patterns := ((counterMostCommon all_words (some 20)).map Prod.fst).filter
    (fun w => w.length > 2)
  { chunk_index := chunk_index
    items := items
    type_analysis := type_analysis
    common_patterns := common_patterns
    total_items := items.length
    chunk_size := chunk.length }

/-- A promoted main-group candidate of `merge_chunk_analyses`. -/
structure Candidate where
  citems : List TypedItem
  ccount : Nat
  avg_confidence : ℚ
  deriving Repr, DecidableEq

/-- The dictionary returned by `merge_chunk_analyses`. -/
structure MergedAnalysis where
  all_items : List PItem
  main_groups : List (String × Candidate)
  global_patterns : List String
  total_items_processed : Nat
  total_chunks : Nat
  deriving Repr, DecidableEq

/-- Stable descending insertion by the `(count, avg_confidence)` key of
`sorted(..., reverse=True)`. -/
def insDescCand (x : String × Candidate) :
    List (String × Candidate) → List (String × Candidate)
  | [] => [x]
  | y :: ys =>
      if x.2.ccount > y.2.ccount ∨
          (x.2.ccount = y.2.ccount ∧ x.2.avg_confidence > y.2.avg_confidence) then
        x :: y :: ys
      else y :: insDescCand x ys

/-- `ProductGroupingEngine.merge_chunk_analyses`. -/
def merge_chunk_analyses (chunk_results : List ChunkResult) : MergedAnalysis :=
  let all_items := (chunk_results.map (fun c => c.items)).flatten
  let combined := chunk_results.foldl
    (fun acc c => c.type_analysis.foldl (fun acc kv => assocExtend acc kv.1 kv.2) acc)
    []
  let all_patterns := (chunk_results.map (fun c => c.common_patterns)).flatten
  let global_patterns := ((counterMostCommon all_patterns (some 30)).filter
    (fun p => p.2 ≥ 2)).map Prod.fst
  let candidates := combined.filterMap
    (fun kv =>
      if kv.2.length ≥ 3 then
        some (kv.1,
          ({ citems := kv.2, ccount := kv.2.length,
             avg_confidence := ((kv.2.map (fun t => t.confidence)).sum) / (kv.2.length : ℚ) }
            : Candidate))
      else Option.none)
  let sorted := candidates.foldl (fun acc x => insDescCand x acc) []
  { all_items := all_items
    main_groups := sorted
    global_patterns := global_patterns
    total_items_processed := all_items.length
    total_chunks := chunk_results.length }

/-- `ProductGroupingEngine.generate_sub_group_name`.  The source has a
mis-indented `else:` at line 463; the intended reading (fall back to the
first item's key word when no common word repeats) is embedded. -/
def generate_sub_group_name (items : List PItem) : String :=
  match items with
  | [] => "Empty Group"
  | [it] => clean_group_name (it.name.getD "")
  | _ =>
    let names := items.map (fun it => normalize_product_name (it.name.getD ""))
    let all_words := (names.map pySplit).flatten
    let common_words := ((counterMostCommon all_words (some 3)).filter
      (fun p => p.1.length > 2 ∧ p.2 > 1)).map Prod.fst
    if common_words ≠ [] then
      pyTitle (String.intercalate " " (common_words.take 2))
    else
      let first_name := names.headD ""
      match (pySplit first_name).filter (fun w => w.length > 2) with
      | w :: _ => pyTitle w
      | [] => "Group " ++ natDec items.length ++ " items"

/-- A sub-group dictionary of the chunked pipeline (`{id, name,
items}`). -/
structure FSubGroup where
  fsId : String
  fsName : String
  fsItems : List PItem
  deriving Repr, DecidableEq

/-- Remove the first occurrence (Python `list.remove`, guarded by
`if item in remaining_items`). -/
def removeFirst {α : Type} [DecidableEq α] (l : List α) (x : α) : List α :=
  match l with
  | [] => []
  | y :: ys => if y = x then ys else y :: removeFirst ys x

theorem removeFirst_length_le {α : Type} [DecidableEq α] (l : List α) (x : α) :
    (removeFirst l x).length ≤ l.length := by
  induction l with
  | nil => simp [removeFirst]
  | cons y ys ih =>
    by_cases h : y = x
    · simp [removeFirst, h]
    · simp only [removeFirst, if_neg h, List.length_cons]
      omega

theorem foldl_removeFirst_length_le {α : Type} [DecidableEq α] (xs : List α)
    (l : List α) : (xs.foldl removeFirst l).length ≤ l.length := by
  induction xs generalizing l with
  | nil => simp
  | cons x xs ih =>
    calc ((x :: xs).foldl removeFirst l).length = (xs.foldl removeFirst (removeFirst l x)).length := rfl
      _ ≤ (removeFirst l x).length := ih _
      _ ≤ l.length := removeFirst_length_le l x

/-- Scan the remaining items for candidates similar to the seed (the
inner `for item in remaining_items` loop). -/
def absorbScan (τ : ℚ) (seed : PItem) (rest : List PItem) (assigned0 : List String) :
    List PItem × List String :=
  rest.foldl
    (fun (st : List PItem × List String) it =>
      if (it.id.getD "") ∈ st.2 then st
      else if calculate_product_similarity ⟨seed.name, seed.category⟩ ⟨it.name, it.category⟩ ≥ τ
      then (st.1 ++ [it], st.2 ++ [it.id.getD ""])
      else st)
    ([], assigned0)

/-- The `while remaining_items` clustering loop of
`create_sub_groups_from_items`, fuel-structural: every step removes at
least the seed from the remaining list, so the list's length is always
enough fuel. -/
def clusterGoF (τ : ℚ) : Nat → List PItem → List String → List (String × FSubGroup) → Nat →
    List (String × FSubGroup) × Nat
  | _, [], _, acc, nid => (acc, nid)
  | 0, _, _, acc, nid => (acc, nid)
  | fuel + 1, seed :: rest, assigned, acc, nid =>
    if (seed.id.getD "") ∈ assigned then clusterGoF τ fuel rest assigned acc nid
    else
      let assigned1 := assigned ++ [seed.id.getD ""]
      let (absorbed, assigned2) := absorbScan τ seed rest assigned1
      let remaining2 := absorbed.foldl removeFirst rest
      let sub_group_items := seed :: absorbed
      let sid := genId nid
      clusterGoF τ fuel remaining2 assigned2
        (acc ++ [(sid, ⟨sid, generate_sub_group_name sub_group_items, sub_group_items⟩)])
        (nid + 1)

/-- The clustering loop at its adequate fuel. -/
def clusterGo (τ : ℚ) (l : List PItem) (assigned : List String)
    (acc : List (String × FSubGroup)) (nid : Nat) : List (String × FSubGroup) × Nat :=
  clusterGoF τ l.length l assigned acc nid

/-- `ProductGroupingEngine.create_sub_groups_from_items` (the
`sub_groups` dict is uuid-keyed, hence append-only; the small-list branch
uses the literal key `"default"`). -/
def create_sub_groups_from_items (items : List PItem) (nid : Nat)
    (similarity_threshold : ℚ := 7 / 10) : List (String × FSubGroup) × Nat :=
  if items.length ≤ 3 then
    ([("default", ⟨genId nid, "Default", items⟩)], nid + 1)
  else
    let r := clusterGo similarity_threshold items [] [] nid
    match r.1 with
    | [] => ([("default", ⟨genId r.2, "Default", items⟩)], r.2 + 1)
    | _ => r

/-- A main-group dictionary of the chunked pipeline. -/
structure FMainGroup where
  fmId : String
  fmName : String
  fmEnabled : Bool
  fmSubGroups : List (String × FSubGroup)
  fmTotalItems : Nat
  fmEstimatedSavings : String
  deriving Repr, DecidableEq

/-- The metadata block of `create_final_groups_from_analysis`
(`created_at` is a wall-clock timestamp and is not modelled). -/
structure FinalMeta where
  total_items : Nat
  total_groups : Nat
  total_chunks_processed : Nat
  grouping_method : String
  deriving Repr, DecidableEq

/-- The dictionary returned by `create_final_groups_from_analysis` (and
by `generate_intelligent_groups`). -/
structure FinalGroups where
  main_groups : List (String × FMainGroup)
  ungrouped_items : List PItem
  metadata : FinalMeta
  deriving Repr, DecidableEq

/-- Python `s.replace('_', ' ')`. -/
def underscoresToSpaces (s : String) : String :=
  String.mk (s.toList.map (fun c => if c = '_' then ' ' else c))

/-- `ProductGroupingEngine.create_final_groups_from_analysis`. -/
def create_final_groups_from_analysis (merged : MergedAnalysis) : FinalGroups :=
  let built := merged.main_groups.foldl
    (fun (st : List (String × FMainGroup) × Nat) kv =>
      let group_id := genId st.2
      let display_name := pyTitle (underscoresToSpaces kv.1)
      let group_items := kv.2.citems.map (fun t => t.item)
      let (subs, nid) := create_sub_groups_from_items group_items (st.2 + 1)
      (st.1 ++ [(group_id,
        { fmId := group_id
          fmName := display_name
          fmEnabled := true
          fmSubGroups := subs
          fmTotalItems := group_items.length
          fmEstimatedSavings := calculate_estimated_savings group_items })], nid))
    ([], 0)
  let grouped_item_ids := (merged.main_groups.map
    (fun kv => kv.2.citems.map (fun t => t.item.id.getD ""))).flatten
  let ungrouped_items := merged.all_items.filter
    (fun it => !(grouped_item_ids.contains (it.id.getD "")))
  { main_groups := built.1
    ungrouped_items := ungrouped_items
    metadata :=
      { total_items := merged.total_items_processed
        total_groups := built.1.length
        total_chunks_processed := merged.total_chunks
        grouping_method := "chunked_intelligent_analysis" } }

/-- `ProductGroupingEngine.generate_intelligent_groups` (the column-type
detection results are printed and never used; the per-chunk `except` arm
is unreachable for the total chunk processing). -/
def generate_intelligent_groups (sampler : Sampler) (df : DataFrame) :
    Except String FinalGroups :=
  if df.rows.isEmpty || df.cols.isEmpty then Except.error "DataFrame is empty or None"
  else if df.cols.length = 0 then Except.error "DataFrame has no columns"
  else
    let chunks := chunkify 1000 df.rows.enum
    let chunk_results := chunks.enum.map
      (fun p => process_chunk_data sampler p.2 p.1)
    if chunk_results.isEmpty then Except.error "No chunks were processed successfully"
    else Except.ok (create_final_groups_from_analysis (merge_chunk_analyses chunk_results))

/-! ## User-configured column grouping and its chunked variant
(`create_groups_from_columns`, `create_groups_from_single_column`,
`assign_item_to_intelligent_group`,
`generate_groups_chunked_with_config`) -/

/-- `self.safe_float(row.get('price', row.get('Price', 0)))`. -/
def rowPrice (row : Row) : ℚ :=
  match rowGet row "price" with
  | some c => safe_float c
  | Option.none =>
      match rowGet row "Price" with
      | some c => safe_float c
      | Option.none => 0

/-- `self.safe_int(row.get('quantity', row.get('Quantity', 1)))`. -/
def rowQuantity (row : Row) : Int :=
  match rowGet row "quantity" with
  | some c => safe_int c
  | Option.none =>
      match rowGet row "Quantity" with
      | some c => safe_int c
      | Option.none => 1

/-- Item of a named sub-group in `create_groups_from_columns`. -/
def cfgSubItem (sub_column main_value : String) (p : IRow) : PItem :=
  { id := some (natDec p.1)
    name := some (match rowGet p.2 sub_column with
      | some c => cellStr c
      | Option.none => "Item_" ++ natDec p.1)
    price := some (rowPrice p.2)
    category := some main_value
    quantity := some (rowQuantity p.2)
    count := some 1
    row_data := p.2.map (fun kv => (kv.1, cellStr kv.2))
    original_index := some (p.1 : Int) }

/-- Item of the synthetic "Ungrouped Items" sub-group (built from a raw
`to_dict('records')` row; the source writes `row_dict.get('index',
f"ungrouped_{k}")` — a string — into `original_index`, which nothing
downstream reads as a number, so it is left `none` here). -/
def cfgUngroupedItem (sub_column main_value : String) (k : Nat) (row : Row) : PItem :=
  { id := some (match rowGet row "index" with
      | some c => cellStr c
      | Option.none => "ungrouped_" ++ natDec k)
    name := some (match rowGet row sub_column with
      | some c => cellStr c
      | Option.none => "Ungrouped_Item_" ++ natDec k)
    price := some (rowPrice row)
    category := some main_value
    quantity := some (rowQuantity row)
    count := some 1
    row_data := row.map (fun kv => (kv.1, cellStr kv.2))
    original_index := Option.none }

/-- Item of the "All Items" default sub-group (name from `row.iloc[0]`).
-/
def cfgMainItem (main_value : String) (p : IRow) : PItem :=
  { id := some (natDec p.1)
    name := some (match ilocCell p.2 0 with
      | some s => s
      | Option.none => if p.2.isEmpty then "Item_" ++ natDec p.1 else "nan")
    price := some (rowPrice p.2)
    category := some main_value
    quantity := some (rowQuantity p.2)
    count := some 1
    row_data := p.2.map (fun kv => (kv.1, cellStr kv.2))
    original_index := some (p.1 : Int) }

/-- Build the sub-groups of one main group of
`create_groups_from_columns` when a sub-group column is active. -/
def cfgSubGroupsFor (sc main_value : String) (rowsMV : List IRow) (nid0 : Nat) :
    List SubGroup × Nat :=
  let subKeys := groupbyKeys (rowsMV.map (fun p => rowCell p.2 sc))
  let named := (subKeys.filter (fun sv => pyStrip sv ≠ "")).foldl
    (fun (st : List SubGroup × Nat) sv =>
      let subRows := rowsMV.filter (fun p => rowCell p.2 sc = some sv)
      let items := subRows.map (cfgSubItem sc main_value)
      (st.1 ++
        [{ id := some (genId st.2)
           name := some (clean_group_name sv)
           items := some items
           count := some (items.length : Int)
           is_ungrouped_subgroup := some false }], st.2 + 1))
    ([], nid0)
  let ungroupedRows := ((subKeys.filter (fun sv => pyStrip sv = "")).map
    (fun sv => (rowsMV.filter (fun p => rowCell p.2 sc = some sv)).map Prod.snd)).flatten
  if ungroupedRows ≠ [] then
    let uitems := ungroupedRows.enum.map (fun p => cfgUngroupedItem sc main_value p.1 p.2)
    (named.1 ++
      [{ id := some (genId named.2)
         name := some "Ungrouped Items"
         items := some uitems
         count := some (uitems.length : Int)
         is_ungrouped_subgroup := some true }], named.2 + 1)
  else named

/-- `ProductGroupingEngine.create_groups_from_columns` (the rows a
`groupby` on the sub-column silently drops — NaN sub-values — end up in
no sub-group, exactly as in the source). -/
def create_groups_from_columns (df : DataFrame) (main_column sub_column : Option String)
    (nid0 : Nat) : List MainGroup × Nat :=
  match main_column with
  | Option.none => ([], nid0)
  | some mc =>
    if mc ≠ "" ∧ mc ∈ df.cols then
      (groupbyKeys (dfColCells df mc)).foldl
        (fun (st : List MainGroup × Nat) mv =>
          if pyStrip mv = "" then st
          else
            let rowsMV := df.rows.enum.filter (fun p => rowCell p.2 mc = some mv)
            let gid := genId st.2
            let (subs, nid) :=
              match sub_column with
              | some sc =>
                  if sc ≠ "" ∧ sc ∈ df.cols then cfgSubGroupsFor sc mv rowsMV (st.2 + 1)
                  else
                    ([({ id := some (genId (st.2 + 1))
                         name := some "All Items"
                         items := some (rowsMV.map (cfgMainItem mv))
                         count := some (rowsMV.length : Int)
                         is_ungrouped_subgroup := some false } : SubGroup)], st.2 + 2)
              | Option.none =>
                  ([({ id := some (genId (st.2 + 1))
                       name := some "All Items"
                       items := some (rowsMV.map (cfgMainItem mv))
                       count := some (rowsMV.length : Int)
                       is_ungrouped_subgroup := some false } : SubGroup)], st.2 + 2)
            let total : Int := (subs.map (fun sg => sg.count.getD 0)).sum
            let g : MainGroup :=
              { id := some gid
                name := some (clean_group_name mv)
                gtype := some "main"
                enabled := some true
                sub_groups := some subs
                items := some []
                count := some total
                item_count := some total
                estimated_savings := some (calculate_estimated_savings
                  ((subs.map (fun sg => sg.items.getD [])).flatten)) }
            (st.1 ++ [g], nid))
        ([], nid0)
    else ([], nid0)

/-- `ProductGroupingEngine.create_groups_from_single_column` (note the
sub-group id is generated before the group id in the source). -/
def create_groups_from_single_column (df : DataFrame) (column : Option String)
    (nid0 : Nat) : List MainGroup × Nat :=
  match column with
  | Option.none => ([], nid0)
  | some col =>
    if col ∈ df.cols then
      (groupbyKeys (dfColCells df col)).foldl
        (fun (st : List MainGroup × Nat) v =>
          if pyStrip v = "" then st
          else
            let rowsV := df.rows.enum.filter (fun p => rowCell p.2 col = some v)
            let items := rowsV.map (cfgSubItem col v)
            let sub : SubGroup :=
              { id := some (genId st.2)
                name := some "All Items"
                items := some items
                count := some (items.length : Int)
                is_ungrouped_subgroup := some false }
            let g : MainGroup :=
              { id := some (genId (st.2 + 1))
                name := some (clean_group_name v)
                gtype := some "main"
                enabled := some true
                sub_groups := some [sub]
                items := some []
                count := some (items.length : Int)
                item_count := some (items.length : Int)
                estimated_savings := some (calculate_estimated_savings items) }
            (st.1 ++ [g], st.2 + 2))
        ([], nid0)
    else ([], nid0)

/-- `ProductGroupingEngine.calculate_average_similarity_to_group`. -/
def calculate_average_similarity_to_group (item : SimItem) (group_items : List PItem) :
    ℚ :=
  if group_items.isEmpty then 0
  else
    let sims := (group_items.take 5).map
      (fun gi => calculate_product_similarity item ⟨gi.name, gi.category⟩)
    sims.sum / (sims.length : ℚ)

/-- The raw row dictionary that `assign_item_to_intelligent_group`
appends into a group: later code only reads `get('name', '')` /
`get('category', '')` for similarity, checks `row_data` / `id` (both
absent on a raw row, so the index scan skips it) and counts lengths;
this projection carries exactly those observations.  (The count the
validator would write onto a raw row that has a literal `quantity`
column is not modelled; such frames return `None` through the savings
`TypeError` anyway.) -/
def rowAsItem (r : Row) : PItem :=
  { name := (rowGet r "name").map cellStr
    category := (rowGet r "category").map cellStr }

/-- Outcome of the best-match search of
`assign_item_to_intelligent_group`. -/
inductive AssignTarget where
  | toSub (gi si : Nat)
  | toMain (gi : Nat)
  | noMatch
  deriving Repr, DecidableEq

/-- Best-match search in main-groups mode: first group whose (cleaned)
main value equals its name wins; inside it the best sub-group with
average similarity above 0.5, else the main group itself. -/
def assignFindMain (product : SimItem) (mval : String) (groups : List MainGroup) :
    AssignTarget :=
  match groups.findIdx? (fun g => g.name.getD "" = mval) with
  | Option.none => .noMatch
  | some gi =>
      let g := groups.getD gi {}
      let subs := g.sub_groups.getD []
      if subs ≠ [] then
        let best := subs.enum.foldl
          (fun (best : ℚ × Option Nat) p =>
            if (p.2.items.getD []) ≠ [] then
              let avg := calculate_average_similarity_to_group product (p.2.items.getD [])
              if avg > best.1 ∧ avg > 1 / 2 then (avg, some p.1) else best
            else best)
          (0, Option.none)
        match best.2 with
        | some si => .toSub gi si
        | Option.none => .toMain gi
      else .toMain gi

/-- Best-match search in single-column mode (average similarity over the
groups' direct items, threshold 0.4). -/
def assignFindSingle (product : SimItem) (groups : List MainGroup) : AssignTarget :=
  let best := groups.enum.foldl
    (fun (best : ℚ × AssignTarget) p =>
      if (p.2.items.getD []) ≠ [] then
        let avg := calculate_average_similarity_to_group product (p.2.items.getD [])
        if avg > best.1 ∧ avg > 2 / 5 then (avg, .toMain p.1) else best
      else best)
    (0, .noMatch)
  best.2

/-- `ProductGroupingEngine.assign_item_to_intelligent_group` (mutation of
the matched group modelled by rebuilding the list). -/
def assign_item_to_intelligent_group (main_column sub_column : Option String)
    (groups : List MainGroup) (item : Row) : List MainGroup :=
  let getStr (c : Option String) : String :=
    match c with
    | some cc => (match rowGet item cc with
      | some cell => cellStr cell
      | Option.none => "")
    | Option.none => ""
  let subKeyPresent := match sub_column with
    | some sc => sc ≠ "" && (rowGet item sc).isSome
    | Option.none => false
  let product_name := if subKeyPresent then getStr sub_column else getStr main_column
  if pyStrip product_name = "" then groups
  else
    let product : SimItem :=
      ⟨some product_name,
       some (match rowGet item "category" with
         | some c => cellStr c
         | Option.none => "Unknown")⟩
    let mainMode := match main_column with
      | some m => m ≠ "" && (rowGet item m).isSome
      | Option.none => false
    let target :=
      if mainMode then
        assignFindMain product (clean_group_name (getStr main_column)) groups
      else assignFindSingle product groups
    match target with
    | .noMatch => groups
    | .toMain gi =>
        groups.enum.map (fun p =>
          if p.1 = gi then { p.2 with items := some ((p.2.items.getD []) ++ [rowAsItem item]) }
          else p.2)
    | .toSub gi si =>
        groups.enum.map (fun p =>
          if p.1 = gi then
            { p.2 with sub_groups := some ((p.2.sub_groups.getD []).enum.map (fun q =>
                if q.1 = si then
                  { q.2 with items := some ((q.2.items.getD []) ++ [rowAsItem item]) }
                else q.2)) }
          else p.2)

/-- The `count`/`quantity` value written onto an ungrouped raw-row entry
(`row_dict.get('quantity', 1)`: the cell when a `quantity` column
exists, else the integer 1). -/
inductive CountVal where
  | ofCell (c : Cell)
  | ofInt (n : Int)
  deriving Repr, DecidableEq

/-- An entry of `ungrouped_items` in
`generate_groups_chunked_with_config`: a raw row dictionary with
`count`, `quantity` and `index` keys added. -/
structure UEntry where
  data : Row
  count : CountVal
  quantity : CountVal
  index : Nat
  deriving Repr, DecidableEq

/-- The result dictionary of `generate_groups_chunked_with_config`. -/
structure ResultCfg where
  groups : List MainGroup
  ungrouped_items : List UEntry
  validation : VReport
  total_items : Int
  grouped_items : Int
  ungrouped_count : Int
  total_groups : Int
  total_sub_groups : Int
  estimated_time_saved : String
  is_valid : Bool
  deriving Repr, DecidableEq

/-- The string the chunked-config index scan records for one grouped
item: `str(item['row_data'].get('index', item.get('id')))`, skipped when
the result is `None`. -/
def itemIdxTag (it : PItem) : Option String :=
  match it.row_data.lookup "index" with
  | some s => some s
  | Option.none => it.id

/-- `ProductGroupingEngine.generate_groups_chunked_with_config`.
`pd.concat(all_samples, ignore_index=True)` resets the combined sample
index to `0..ns-1`, so `df[~df.index.isin(combined_samples.index)]`
keeps exactly the rows with positional index `≥ ns` — independent of
which rows were sampled. -/
def generate_groups_chunked_with_config (sampler : Sampler) (df : DataFrame)
    (use_main_groups : Bool) (main_group_column sub_group_column : Option String) :
    Option ResultCfg :=
  let chunks := chunkify 1000 df.rows.enum
  let samples := chunks.map (fun c => sampler (min 100 c.length) c)
  let ns := (samples.map List.length).sum
  let combined : DataFrame := ⟨df.cols, (samples.flatten.map Prod.snd)⟩
  let mainActive := match main_group_column with
    | some m => m ≠ ""
    | Option.none => false
  let built :=
    if use_main_groups && mainActive then
      create_groups_from_columns combined main_group_column sub_group_column 0
    else create_groups_from_single_column combined sub_group_column 0
  let remaining := df.rows.enum.filter (fun p => decide (ns ≤ p.1))
  let sample_groups := remaining.foldl
    (fun gs p => assign_item_to_intelligent_group main_group_column sub_group_column gs p.2)
    built.1
  let vres := validate_and_count_groups sample_groups (df.rows.length : Int)
  let ungrouped_items :=
    if vres.2.counts.ungrouped_records > 0 then
      let gidx : List String := (vres.1.map (fun g =>
        ((g.items.getD []).filterMap itemIdxTag) ++
          ((g.sub_groups.getD []).map (fun sg =>
            (sg.items.getD []).filterMap itemIdxTag)).flatten)).flatten
      ((df.rows.enum.filter (fun p => !(gidx.contains (natDec p.1)))).map
        (fun p =>
          let cv := match rowGet p.2 "quantity" with
            | some c => CountVal.ofCell c
            | Option.none => CountVal.ofInt 1
          ({ data := p.2, count := cv, quantity := cv, index := p.1 } : UEntry))).take 100
    else []
  match savings_records df with
  | Option.none => Option.none
  | some saved =>
      some
        { groups := vres.1
          ungrouped_items := ungrouped_items
          validation := vres.2
          total_items := vres.2.counts.total_rows
          grouped_items := vres.2.counts.grouped_records
          ungrouped_count := vres.2.counts.ungrouped_records
          total_groups := vres.2.counts.main_groups
          total_sub_groups := vres.2.counts.total_sub_groups
          estimated_time_saved := saved
          is_valid := vres.2.is_valid }

/-! ## Validator decomposition

`validate_and_count_groups` is a fold; the helpers below compute each
group's contribution as a pure function, and the lemmas identify the
fold with them. -/

/-- The duplicate-name error message. -/
def dupMsg (name0 groupName : String) : String :=
  "Duplicate sub-group name '" ++ name0 ++ "' in main group '" ++ groupName ++ "'"

/-- Result of running the sub-group loop from a given name set. -/
structure SubRun where
  subs : List SubGroup
  errs : List String
  dup : Bool
  total : Int
  namesOut : List String

/-- Pure recursion computing the sub-group loop's effect. -/
def vSubRun (gname : String) (names : List String) :
    List (Nat × SubGroup) → SubRun
  | [] => ⟨[], [], false, 0, names⟩
  | p :: rest =>
      let name0 := p.2.name.getD ("SubGroup_" ++ natDec p.1)
      let collide := name0 ∈ names
      let name1 := if collide then freshName name0 names else name0
      let c : Int := (p.2.items.getD []).length
      let sg1 : SubGroup :=
        { p.2 with
            name := if collide then some name1 else p.2.name
            items := p.2.items.map (fun l => if l.isEmpty then l else annotateItems l)
            count := some c
            item_count := some c }
      let r := vSubRun gname (name1 :: names) rest
      ⟨sg1 :: r.subs, (if collide then [dupMsg name0 gname] else []) ++ r.errs,
       collide || r.dup, c + r.total, r.namesOut⟩

theorem foldl_vSubStep_eq (gname : String) (l : List (Nat × SubGroup)) :
    ∀ (ns : List String) (ss : List SubGroup) (es : List String) (v : Bool) (t : Int),
      l.foldl (vSubStep gname) ⟨ns, ss, es, v, t⟩ =
        ⟨(vSubRun gname ns l).namesOut, ss ++ (vSubRun gname ns l).subs,
         es ++ (vSubRun gname ns l).errs, v && !(vSubRun gname ns l).dup,
         t + (vSubRun gname ns l).total⟩ := by
  induction l with
  | nil => intro ns ss es v t; simp [vSubRun]
  | cons p rest ih =>
    intro ns ss es v t
    rw [List.foldl_cons, vSubStep]
    by_cases hc : (p.2.name.getD ("SubGroup_" ++ natDec p.1)) ∈ ns
    · simp only [vSubRun, hc, if_true, ite_true, if_pos]
      rw [ih]
      simp [dupMsg, List.append_assoc, Int.add_assoc, Bool.and_assoc]
    · simp only [vSubRun, hc, if_false, ite_false, if_neg]
      rw [ih]
      simp [List.append_assoc, Int.add_assoc, Bool.and_assoc]

/-- Result of processing one main group. -/
structure GroupRun where
  out : MainGroup
  errs : List String
  dup : Bool
  mainCount : Int
  subCount : Int

/-- Pure function computing one main-group iteration's effect. -/
def vGroupRun (p : Nat × MainGroup) : GroupRun :=
  let g := p.2
  let directCount : Int := (g.items.getD []).length
  let items1 := g.items.map (fun l => if l.isEmpty then l else annotateItems l)
  let groupName := g.name.getD ("Group_" ++ natDec p.1)
  let hasSubs := match g.sub_groups with
    | some (_ :: _) => true
    | _ => false
  let run := if hasSubs then vSubRun groupName [] ((g.sub_groups.getD []).enum)
    else ⟨[], [], false, 0, []⟩
  let subs1 := if hasSubs then some run.subs else g.sub_groups
  let mainCount := directCount + run.total
  { out :=
      { g with
          items := items1
          sub_groups := subs1
          count := some mainCount
          item_count := some mainCount }
    errs := run.errs
    dup := run.dup
    mainCount := mainCount
    subCount := if hasSubs then (g.sub_groups.getD []).length else 0 }

theorem vMainStep_eq (acc : MainAcc) (p : Nat × MainGroup) :
    vMainStep acc p =
      ⟨acc.groups ++ [(vGroupRun p).out], acc.errors ++ (vGroupRun p).errs,
       acc.valid && !(vGroupRun p).dup, acc.grouped + (vGroupRun p).mainCount,
       acc.subGroups + (vGroupRun p).subCount⟩ := by
  rw [vMainStep, vGroupRun]
  by_cases hs : (match p.2.sub_groups with
    | some (_ :: _) => true
    | _ => false) = true
  · simp only [hs, if_true, ite_true]
    rw [foldl_vSubStep_eq]
    simp
  · simp only [Bool.not_eq_true] at hs
    simp only [hs, if_false, ite_false, Bool.false_eq_true]
    have h0 : (vSubRun (p.2.name.getD ("Group_" ++ natDec p.1)) [] []) =
        ⟨[], [], false, 0, []⟩ := rfl
    simp [vSubRun]

theorem foldl_vMainStep_eq (l : List (Nat × MainGroup)) :
    ∀ (acc : MainAcc),
      l.foldl vMainStep acc =
        ⟨acc.groups ++ l.map (fun p => (vGroupRun p).out),
         acc.errors ++ (l.map (fun p => (vGroupRun p).errs)).flatten,
         acc.valid && l.all (fun p => !(vGroupRun p).dup),
         acc.grouped + (l.map (fun p => (vGroupRun p).mainCount)).sum,
         acc.subGroups + (l.map (fun p => (vGroupRun p).subCount)).sum⟩ := by
  induction l with
  | nil => intro acc; simp
  | cons p rest ih =>
    intro acc
    rw [List.foldl_cons, vMainStep_eq, ih]
    simp [List.append_assoc, Int.add_assoc, Bool.and_assoc]

/-- Closed form of the validator in terms of the per-group runs. -/
theorem validate_eq (groups : List MainGroup) (total_rows : Int) :
    validate_and_count_groups groups total_rows =
      (groups.enum.map (fun p => (vGroupRun p).out),
       { is_valid := groups.enum.all (fun p => !(vGroupRun p).dup)
         errors := (groups.enum.map (fun p => (vGroupRun p).errs)).flatten
         warnings := []
         counts :=
           { total_rows := total_rows
             grouped_records := (groups.enum.map (fun p => (vGroupRun p).mainCount)).sum
             ungrouped_records := total_rows -
               (groups.enum.map (fun p => (vGroupRun p).mainCount)).sum
             main_groups := (groups.length : Int)
             total_sub_groups := (groups.enum.map (fun p => (vGroupRun p).subCount)).sum
             ungrouped_subgroups :=
               (((groups.enum.map (fun p => (vGroupRun p).out)).map (fun g =>
                 (((g.sub_groups.getD []).filter
                   (fun sg => sg.is_ungrouped_subgroup.getD false)).length : Int))).sum) } }) := by
  rw [validate_and_count_groups, foldl_vMainStep_eq]
  have hm : ((groups.enum.map (fun p => (vGroupRun p).mainCount)).sum +
      (total_rows - (groups.enum.map (fun p => (vGroupRun p).mainCount)).sum)) = total_rows := by
    omega
  simp [hm]

theorem natDec_one : natDec 1 = "1" := by
  simp [natDec, natDigs]
  decide

theorem candName_one (t : String) : candName t 1 = t ++ " (1)" := by
  rw [candName, natDec_one, String.append_assoc, String.append_assoc]
  rfl

theorem freshName_single (s : String) : freshName s [s] = s ++ " (1)" := by
  rw [freshName]
  show freshFrom s [s] 2 1 = s ++ " (1)"
  rw [freshFrom]
  rw [if_neg, candName_one]
  intro hmem
  rw [candName_one] at hmem
  have : s ++ " (1)" = s := by simpa using hmem
  have hlen := congrArg String.length this
  rw [String.length_append] at hlen
  have h4 : (" (1)" : String).length = 4 := rfl
  omega

/-- The sub-group loop on two identically named sub-groups: first kept,
second renamed with the " (1)" suffix and one error recorded. -/
theorem vSubRun_dup_pair (gname s : String) (sg1 sg2 : SubGroup)
    (h1 : sg1.name = some s) (h2 : sg2.name = some s) :
    vSubRun gname [] [(0, sg1), (1, sg2)] =
      ⟨[{ sg1 with
            items := sg1.items.map (fun l => if l.isEmpty then l else annotateItems l)
            count := some ((sg1.items.getD []).length : Int)
            item_count := some ((sg1.items.getD []).length : Int) },
        { sg2 with
            name := some (s ++ " (1)")
            items := sg2.items.map (fun l => if l.isEmpty then l else annotateItems l)
            count := some ((sg2.items.getD []).length : Int)
            item_count := some ((sg2.items.getD []).length : Int) }],
       [dupMsg s gname], true,
       ((sg1.items.getD []).length : Int) + (((sg2.items.getD []).length : Int) + 0),
       [freshName s [s], s]⟩ := by
  rw [vSubRun]
  simp only [h1, Option.getD_some, List.not_mem_nil, if_neg, ite_false, not_false_iff]
  rw [vSubRun]
  simp only [h2, Option.getD_some, List.mem_singleton, if_pos rfl, ite_true]
  rw [vSubRun, freshName_single]
  rfl

/-- C3: if one main group holds two sub-groups with the same name `s`,
`validate_and_count_groups` keeps the first occurrence's name, renames
the second to `s ++ " (1)"`, sets `is_valid` to `false` and appends a
descriptive duplicate-name error to `errors`. -/
theorem claim_C3 (pre post : List MainGroup) (g : MainGroup) (total : Int)
    (s : String) (sg1 sg2 : SubGroup)
    (hsub : g.sub_groups = some [sg1, sg2])
    (h1 : sg1.name = some s) (h2 : sg2.name = some s) :
    (validate_and_count_groups (pre ++ g :: post) total).2.is_valid = false ∧
    dupMsg s (g.name.getD ("Group_" ++ natDec pre.length)) ∈
      (validate_and_count_groups (pre ++ g :: post) total).2.errors ∧
    ∃ g' ∈ (validate_and_count_groups (pre ++ g :: post) total).1,
      ∃ sg1' sg2', g'.sub_groups = some [sg1', sg2'] ∧
        sg1'.name = some s ∧ sg2'.name = some (s ++ " (1)") := by
  set sg1' : SubGroup :=
    { sg1 with
        items := sg1.items.map (fun l => if l.isEmpty then l else annotateItems l)
        count := some ((sg1.items.getD []).length : Int)
        item_count := some ((sg1.items.getD []).length : Int) } with hsg1'
  set sg2' : SubGroup :=
    { sg2 with
        name := some (s ++ " (1)")
        items := sg2.items.map (fun l => if l.isEmpty then l else annotateItems l)
        count := some ((sg2.items.getD []).length : Int)
        item_count := some ((sg2.items.getD []).length : Int) } with hsg2'
  have hrun := vSubRun_dup_pair (g.name.getD ("Group_" ++ natDec pre.length)) s sg1 sg2 h1 h2
  have hn1 : sg1'.name = some s := by rw [hsg1']; exact h1
  have hn2 : sg2'.name = some (s ++ " (1)") := by rw [hsg2']
  have hmem : (pre.length, g) ∈ (pre ++ g :: post).enum := by
    rw [List.enum_append]
    refine List.mem_append_right _ ?_
    simp [List.enumFrom]
  have hgr : vGroupRun (pre.length, g) =
      { out := { g with
            items := g.items.map (fun l => if l.isEmpty then l else annotateItems l)
            sub_groups := some [sg1', sg2']
            count := some (((g.items.getD []).length : Int) +
              (((sg1.items.getD []).length : Int) + (((sg2.items.getD []).length : Int) + 0)))
            item_count := some (((g.items.getD []).length : Int) +
              (((sg1.items.getD []).length : Int) + (((sg2.items.getD []).length : Int) + 0))) }
        errs := [dupMsg s (g.name.getD ("Group_" ++ natDec pre.length))]
        dup := true
        mainCount := ((g.items.getD []).length : Int) +
          (((sg1.items.getD []).length : Int) + (((sg2.items.getD []).length : Int) + 0))
        subCount := 2 } := by
    rw [vGroupRun]
    simp only [hsub, Option.getD_some]
    rw [show ([sg1, sg2].enum) = [(0, sg1), (1, sg2)] from rfl, hrun]
    simp [hsg1', hsg2']
  rw [validate_eq]
  refine ⟨?_, ?_, ?_⟩
  · simp only [Bool.eq_false_iff]
    intro hall
    rw [List.all_eq_true] at hall
    have := hall _ hmem
    rw [hgr] at this
    simp at this
  · rw [List.mem_flatten]
    refine ⟨[dupMsg s (g.name.getD ("Group_" ++ natDec pre.length))], ?_, ?_⟩
    · rw [List.mem_map]
      exact ⟨(pre.length, g), hmem, by rw [hgr]⟩
    · simp
  · refine ⟨(vGroupRun (pre.length, g)).out, ?_, sg1', sg2', ?_, hn1, hn2⟩
    · exact List.mem_map.mpr ⟨(pre.length, g), hmem, rfl⟩
    · rw [hgr]

theorem claim_C3_witness :
    (validate_and_count_groups
        [{ name := some "Office",
           sub_groups := some [{ name := some "Pens" }, { name := some "Pens" }] }] 5).2.is_valid
      = false ∧
    dupMsg "Pens" (((some "Office" : Option String)).getD ("Group_" ++ natDec 0)) ∈
      (validate_and_count_groups
        [{ name := some "Office",
           sub_groups := some [{ name := some "Pens" }, { name := some "Pens" }] }] 5).2.errors ∧
    ∃ g' ∈ (validate_and_count_groups
        [{ name := some "Office",
           sub_groups := some [{ name := some "Pens" }, { name := some "Pens" }] }] 5).1,
      ∃ sg1' sg2', g'.sub_groups = some [sg1', sg2'] ∧
        sg1'.name = some "Pens" ∧ sg2'.name = some ("Pens" ++ " (1)") :=
  claim_C3 [] []
    { name := some "Office",
      sub_groups := some [{ name := some "Pens" }, { name := some "Pens" }] }
    5 "Pens" { name := some "Pens" } { name := some "Pens" } rfl rfl rfl

/-- Every error the sub-group loop emits is a duplicate-name message. -/
theorem vSubRun_errs_shape (gname : String) (l : List (Nat × SubGroup)) :
    ∀ (ns : List String), ∀ e ∈ (vSubRun gname ns l).errs, ∃ n, e = dupMsg n gname := by
  induction l with
  | nil => intro ns e he; simp [vSubRun] at he
  | cons p rest ih =>
    intro ns e he
    rw [vSubRun] at he
    simp only [List.mem_append] at he
    rcases he with he | he
    · by_cases hc : (p.2.name.getD ("SubGroup_" ++ natDec p.1)) ∈ ns
      · rw [if_pos hc] at he
        exact ⟨_, (List.mem_singleton.mp he)⟩
      · rw [if_neg hc] at he
        simp at he
    · exact ih _ e he

/-- The duplicate flag is set exactly when an error was emitted. -/
theorem vSubRun_dup_iff (gname : String) (l : List (Nat × SubGroup)) :
    ∀ (ns : List String), (vSubRun gname ns l).dup = false ↔ (vSubRun gname ns l).errs = [] := by
  induction l with
  | nil => intro ns; simp [vSubRun]
  | cons p rest ih =>
    intro ns
    rw [vSubRun]
    simp only [Bool.or_eq_false_iff, List.append_eq_nil]
    by_cases hc : (p.2.name.getD ("SubGroup_" ++ natDec p.1)) ∈ ns
    · simp [hc, ih]
    · simp [hc, ih]

theorem vGroupRun_errs_shape (p : Nat × MainGroup) :
    ∀ e ∈ (vGroupRun p).errs, ∃ n g, e = dupMsg n g := by
  intro e he
  rw [vGroupRun] at he
  by_cases hs : (match p.2.sub_groups with
    | some (_ :: _) => true
    | _ => false) = true
  · simp only [hs, ite_true, if_true] at he
    obtain ⟨n, hn⟩ := vSubRun_errs_shape _ _ _ e he
    exact ⟨n, _, hn⟩
  · simp only [Bool.not_eq_true] at hs
    simp [hs] at he

theorem vGroupRun_dup_iff (p : Nat × MainGroup) :
    (vGroupRun p).dup = false ↔ (vGroupRun p).errs = [] := by
  rw [vGroupRun]
  by_cases hs : (match p.2.sub_groups with
    | some (_ :: _) => true
    | _ => false) = true
  · simp only [hs, ite_true, if_true]
    exact vSubRun_dup_iff _ _ _
  · simp only [Bool.not_eq_true] at hs
    simp [hs]

/-- C9: in `validate_and_count_groups`, `ungrouped_records` is defined as
`total_rows - grouped_records`, so the count-mismatch branch is
unreachable: the counts always sum back to `total_rows`, every recorded
error is a duplicate-sub-group-name error (so `is_valid` can only become
`false` through a duplicate name: it is `true` iff `errors` is empty),
and when the groups hold more items than `total_rows` the
`ungrouped_records` count is returned negative rather than flagged. -/
theorem claim_C9 (groups : List MainGroup) (total : Int) :
    (validate_and_count_groups groups total).2.counts.ungrouped_records =
      total - (validate_and_count_groups groups total).2.counts.grouped_records ∧
    (validate_and_count_groups groups total).2.counts.grouped_records +
      (validate_and_count_groups groups total).2.counts.ungrouped_records = total ∧
    (∀ e ∈ (validate_and_count_groups groups total).2.errors, ∃ n g, e = dupMsg n g) ∧
    ((validate_and_count_groups groups total).2.is_valid = true ↔
      (validate_and_count_groups groups total).2.errors = []) ∧
    ((validate_and_count_groups groups total).2.counts.grouped_records > total →
      (validate_and_count_groups groups total).2.counts.ungrouped_records < 0) := by
  rw [validate_eq]
  dsimp only
  refine ⟨rfl, by omega, ?_, ?_, by omega⟩
  · intro e he
    simp only [List.mem_flatten, List.mem_map] at he
    obtain ⟨l, ⟨p, hp, rfl⟩, hel⟩ := he
    exact vGroupRun_errs_shape p e hel
  · constructor
    · intro hv
      rw [List.all_eq_true] at hv
      rw [List.flatten_eq_nil_iff]
      intro l hl
      rw [List.mem_map] at hl
      obtain ⟨p, hp, rfl⟩ := hl
      have := hv p hp
      rw [Bool.not_eq_eq_eq_not, Bool.not_true] at this
      exact (vGroupRun_dup_iff p).mp this
    · intro he
      rw [List.flatten_eq_nil_iff] at he
      rw [List.all_eq_true]
      intro p hp
      rw [Bool.not_eq_eq_eq_not, Bool.not_true]
      refine (vGroupRun_dup_iff p).mpr ?_
      exact he _ (List.mem_map.mpr ⟨p, hp, rfl⟩)

theorem claim_C9_witness :
    (validate_and_count_groups [{ name := some "G" }] 7).2.counts.ungrouped_records =
      7 - (validate_and_count_groups [{ name := some "G" }] 7).2.counts.grouped_records ∧
    (validate_and_count_groups [{ name := some "G" }] 7).2.counts.grouped_records +
      (validate_and_count_groups [{ name := some "G" }] 7).2.counts.ungrouped_records = 7 ∧
    (∀ e ∈ (validate_and_count_groups [{ name := some "G" }] 7).2.errors,
      ∃ n g, e = dupMsg n g) ∧
    ((validate_and_count_groups [{ name := some "G" }] 7).2.is_valid = true ↔
      (validate_and_count_groups [{ name := some "G" }] 7).2.errors = []) ∧
    ((validate_and_count_groups [{ name := some "G" }] 7).2.counts.grouped_records > 7 →
      (validate_and_count_groups [{ name := some "G" }] 7).2.counts.ungrouped_records < 0) :=
  claim_C9 [{ name := some "G" }] 7

theorem annotateItems_idem (l : List PItem) :
    annotateItems (annotateItems l) = annotateItems l := by
  unfold annotateItems
  rw [List.map_map]
  congr 1

theorem annotateItems_isEmpty (l : List PItem) :
    (annotateItems l).isEmpty = l.isEmpty := by
  cases l <;> simp [annotateItems]

theorem annotateItems_length (l : List PItem) :
    (annotateItems l).length = l.length := by
  simp [annotateItems]

theorem annList_idem (l : List PItem) :
    (if (if l.isEmpty then l else annotateItems l).isEmpty then
        (if l.isEmpty then l else annotateItems l)
      else annotateItems (if l.isEmpty then l else annotateItems l)) =
      (if l.isEmpty then l else annotateItems l) := by
  by_cases h : l.isEmpty
  · simp [h]
  · simp [h, annotateItems_isEmpty, annotateItems_idem]

theorem annOpt_idem (o : Option (List PItem)) :
    ((o.map (fun l => if l.isEmpty then l else annotateItems l)).map
      (fun l => if l.isEmpty then l else annotateItems l)) =
    o.map (fun l => if l.isEmpty then l else annotateItems l) := by
  cases o with
  | none => rfl
  | some l => simpa using annList_idem l

theorem annOpt_len (o : Option (List PItem)) :
    (((o.map (fun l => if l.isEmpty then l else annotateItems l)).getD []).length : Int) =
      ((o.getD []).length : Int) := by
  cases o with
  | none => rfl
  | some l =>
    cases l with
    | nil => rfl
    | cons a t => simp [annotateItems_length]

/-- Running the sub-group loop a second time on its own output (same
indices, any smaller starting name set) changes nothing and reports no
duplicate. -/
theorem vSubRun_again (gname : String) (l : List (Nat × SubGroup)) :
    ∀ (ns ns2 : List String), (∀ x ∈ ns2, x ∈ ns) →
      (vSubRun gname ns2 ((l.map Prod.fst).zip (vSubRun gname ns l).subs)).subs =
          (vSubRun gname ns l).subs ∧
      (vSubRun gname ns2 ((l.map Prod.fst).zip (vSubRun gname ns l).subs)).errs = [] ∧
      (vSubRun gname ns2 ((l.map Prod.fst).zip (vSubRun gname ns l).subs)).dup = false ∧
      (vSubRun gname ns2 ((l.map Prod.fst).zip (vSubRun gname ns l).subs)).total =
          (vSubRun gname ns l).total := by
  induction l with
  | nil => intro ns ns2 _; simp [vSubRun]
  | cons p rest ih =>
    intro ns ns2 hsub
    set name0 := p.2.name.getD ("SubGroup_" ++ natDec p.1) with hname0
    set name1 := (if name0 ∈ ns then freshName name0 ns else name0) with hname1
    have hfresh : name1 ∉ ns2 := by
      intro hmem
      have hmem' := hsub _ hmem
      rw [hname1] at hmem'
      by_cases hc : name0 ∈ ns
      · rw [if_pos hc] at hmem'
        exact freshName_not_mem name0 ns hmem'
      · rw [if_neg hc] at hmem'
        exact hc hmem'
    set c : Int := ((p.2.items.getD []).length : Int) with hc0
    set sg1 : SubGroup :=
      { p.2 with
          name := if name0 ∈ ns then some name1 else p.2.name
          items := p.2.items.map (fun ll => if ll.isEmpty then ll else annotateItems ll)
          count := some c
          item_count := some c } with hsg1
    have hFR : vSubRun gname ns (p :: rest) =
        ⟨sg1 :: (vSubRun gname (name1 :: ns) rest).subs,
         (if name0 ∈ ns then [dupMsg name0 gname] else []) ++
           (vSubRun gname (name1 :: ns) rest).errs,
         (decide (name0 ∈ ns)) || (vSubRun gname (name1 :: ns) rest).dup,
         c + (vSubRun gname (name1 :: ns) rest).total,
         (vSubRun gname (name1 :: ns) rest).namesOut⟩ := by
      rw [vSubRun]
    have hn1 : sg1.name.getD ("SubGroup_" ++ natDec p.1) = name1 := by
      by_cases hc : name0 ∈ ns
      · rw [hsg1]
        simp only [hc, if_pos, ite_true]
        rfl
      · rw [hsg1]
        simp only [hc, if_neg, ite_false, not_false_iff]
        rw [hname1, if_neg hc]
    have hc2 : ((sg1.items.getD []).length : Int) = c := by
      rw [hsg1, hc0]
      exact annOpt_len p.2.items
    have hsg2 : ({ sg1 with
        name := sg1.name
        items := sg1.items.map (fun ll => if ll.isEmpty then ll else annotateItems ll)
        count := some ((sg1.items.getD []).length : Int)
        item_count := some ((sg1.items.getD []).length : Int) } : SubGroup) = sg1 := by
      rw [hc2]
      rw [hsg1]
      simp only [annOpt_idem]
    obtain ⟨ih1, ih2, ih3, ih4⟩ := ih (name1 :: ns) (name1 :: ns2) (by
      intro x hx
      rcases List.mem_cons.mp hx with h | h
      · exact List.mem_cons.mpr (Or.inl h)
      · exact List.mem_cons.mpr (Or.inr (hsub x h)))
    rw [hFR]
    have hzip : ((p :: rest).map Prod.fst).zip
        (sg1 :: (vSubRun gname (name1 :: ns) rest).subs) =
        (p.1, sg1) :: ((rest.map Prod.fst).zip (vSubRun gname (name1 :: ns) rest).subs) := by
      simp
    rw [hzip, vSubRun]
    simp only [hn1, hfresh, if_neg, ite_false, not_false_iff]
    refine ⟨?_, ?_, ?_, ?_⟩
    · simp only [List.cons.injEq]
      exact ⟨hsg2, ih1⟩
    · simpa using ih2
    · simpa using ih3
    · rw [hc2]
      simpa using congrArg (fun t => c + t) ih4

theorem vSubRun_len (gname : String) (l : List (Nat × SubGroup)) :
    ∀ ns, (vSubRun gname ns l).subs.length = l.length := by
  induction l with
  | nil => intro ns; rfl
  | cons p rest ih =>
    intro ns
    rw [vSubRun]
    simp [ih]

theorem vGroupRun_some (i : Nat) (g : MainGroup) (sg : SubGroup) (sgs : List SubGroup)
    (hsg : g.sub_groups = some (sg :: sgs)) :
    vGroupRun (i, g) =
      { out := { g with
            items := g.items.map (fun l => if l.isEmpty then l else annotateItems l)
            sub_groups := some
              (vSubRun (g.name.getD ("Group_" ++ natDec i)) [] ((sg :: sgs).enum)).subs
            count := some (((g.items.getD []).length : Int) +
              (vSubRun (g.name.getD ("Group_" ++ natDec i)) [] ((sg :: sgs).enum)).total)
            item_count := some (((g.items.getD []).length : Int) +
              (vSubRun (g.name.getD ("Group_" ++ natDec i)) [] ((sg :: sgs).enum)).total) }
        errs := (vSubRun (g.name.getD ("Group_" ++ natDec i)) [] ((sg :: sgs).enum)).errs
        dup := (vSubRun (g.name.getD ("Group_" ++ natDec i)) [] ((sg :: sgs).enum)).dup
        mainCount := ((g.items.getD []).length : Int) +
          (vSubRun (g.name.getD ("Group_" ++ natDec i)) [] ((sg :: sgs).enum)).total
        subCount := ((sg :: sgs).length : Int) } := by
  rw [vGroupRun]
  simp only [hsg, Option.getD_some]
  simp

theorem vGroupRun_nosub (i : Nat) (g : MainGroup)
    (hsg : g.sub_groups = Option.none ∨ g.sub_groups = some []) :
    vGroupRun (i, g) =
      { out := { g with
            items := g.items.map (fun l => if l.isEmpty then l else annotateItems l)
            sub_groups := g.sub_groups
            count := some (((g.items.getD []).length : Int) + 0)
            item_count := some (((g.items.getD []).length : Int) + 0) }
        errs := []
        dup := false
        mainCount := ((g.items.getD []).length : Int) + 0
        subCount := 0 } := by
  rcases hsg with h | h <;>
  · rw [vGroupRun]
    simp only [h]
    simp

/-- One main-group iteration is idempotent: running it again on its own
output yields the same group, no errors, no duplicate flag and the same
counts. -/
theorem vGroupRun_idem (p : Nat × MainGroup) :
    vGroupRun (p.1, (vGroupRun p).out) =
      ⟨(vGroupRun p).out, [], false, (vGroupRun p).mainCount, (vGroupRun p).subCount⟩ := by
  rcases p with ⟨i, g⟩
  rcases hsg : g.sub_groups with _ | sgl
  case none =>
    rw [vGroupRun_nosub i g (Or.inl hsg)]
    dsimp only
    rw [vGroupRun_nosub i
      { g with
          items := g.items.map (fun l => if l.isEmpty then l else annotateItems l)
          sub_groups := g.sub_groups
          count := some (((g.items.getD []).length : Int) + 0)
          item_count := some (((g.items.getD []).length : Int) + 0) }
      (Or.inl hsg)]
    simp only [annOpt_idem, annOpt_len]
  case some =>
    rcases sgl with _ | ⟨sg, sgs⟩
    case nil =>
      rw [vGroupRun_nosub i g (Or.inr hsg)]
      dsimp only
      rw [vGroupRun_nosub i
        { g with
            items := g.items.map (fun l => if l.isEmpty then l else annotateItems l)
            sub_groups := g.sub_groups
            count := some (((g.items.getD []).length : Int) + 0)
            item_count := some (((g.items.getD []).length : Int) + 0) }
        (Or.inr hsg)]
      simp only [annOpt_idem, annOpt_len]
    case cons =>
      rw [vGroupRun_some i g sg sgs hsg]
      dsimp only
      have hlen : (vSubRun (g.name.getD ("Group_" ++ natDec i)) []
          ((sg :: sgs).enum)).subs.length = (sg :: sgs).length := by
        rw [vSubRun_len]
        simp
      obtain ⟨x, xs, hxs⟩ : ∃ x xs, (vSubRun (g.name.getD ("Group_" ++ natDec i)) []
          ((sg :: sgs).enum)).subs = x :: xs := by
        rcases h : (vSubRun (g.name.getD ("Group_" ++ natDec i)) [] ((sg :: sgs).enum)).subs with
          _ | ⟨x, xs⟩
        · rw [h] at hlen
          simp at hlen
        · exact ⟨x, xs, rfl⟩
      rw [vGroupRun_some i _ x xs (by rw [← hxs])]
      obtain ⟨ha1, ha2, ha3, ha4⟩ := vSubRun_again (g.name.getD ("Group_" ++ natDec i))
        ((sg :: sgs).enum) [] [] (by intro x hx; exact hx)
      have hlen2 : (x :: xs).length = (sg :: sgs).length := by
        rw [← hxs]
        exact hlen
      have hzip : ((x :: xs).enum) =
          (((sg :: sgs).enum.map Prod.fst).zip
            (vSubRun (g.name.getD ("Group_" ++ natDec i)) [] ((sg :: sgs).enum)).subs) := by
        rw [hxs, List.enum_map_fst, List.enum_eq_zip_range, hlen2]
      simp only [annOpt_idem, annOpt_len]
      rw [hlen2, hzip, ha1, ha2, ha3, ha4]

theorem enumFrom_enumFrom {α : Type _} : ∀ (n : Nat) (l : List α),
    List.enumFrom n (List.enumFrom n l) = (List.enumFrom n l).map (fun p => (p.1, p)) := by
  intro n l
  induction l generalizing n with
  | nil => rfl
  | cons a t ih =>
    rw [List.enumFrom_cons, List.enumFrom_cons, List.map_cons, ih (n + 1)]

theorem enum_enum {α : Type _} (l : List α) :
    l.enum.enum = l.enum.map (fun p => (p.1, p)) :=
  enumFrom_enumFrom 0 l

/-- C4: `validate_and_count_groups` is idempotent: a second call on the
first call's output groups returns the same groups unchanged (in
particular every written `count`/`item_count` value), the identical
`counts` record, and a clean report. -/
theorem claim_C4 (groups : List MainGroup) (total : Int) :
    validate_and_count_groups (validate_and_count_groups groups total).1 total =
      ((validate_and_count_groups groups total).1,
       { is_valid := true
         errors := []
         warnings := []
         counts := (validate_and_count_groups groups total).2.counts }) := by
  rw [validate_eq groups total]
  dsimp only
  rw [validate_eq]
  have hl : (groups.enum.map (fun p => (vGroupRun p).out)).enum =
      groups.enum.map (fun p => (p.1, (vGroupRun p).out)) := by
    rw [List.enum_map, enum_enum, List.map_map]
    rfl
  rw [hl]
  simp only [List.map_map, List.all_map, Function.comp_def]
  have hOut : groups.enum.map (fun p => (vGroupRun (p.1, (vGroupRun p).out)).out) =
      groups.enum.map (fun p => (vGroupRun p).out) :=
    List.map_congr_left (fun p _ => by rw [vGroupRun_idem])
  have hMC : groups.enum.map (fun p => (vGroupRun (p.1, (vGroupRun p).out)).mainCount) =
      groups.enum.map (fun p => (vGroupRun p).mainCount) :=
    List.map_congr_left (fun p _ => by rw [vGroupRun_idem])
  have hSC : groups.enum.map (fun p => (vGroupRun (p.1, (vGroupRun p).out)).subCount) =
      groups.enum.map (fun p => (vGroupRun p).subCount) :=
    List.map_congr_left (fun p _ => by rw [vGroupRun_idem])
  have hErrs : groups.enum.map (fun p => (vGroupRun (p.1, (vGroupRun p).out)).errs) =
      groups.enum.map (fun _ => ([] : List String)) :=
    List.map_congr_left (fun p _ => by rw [vGroupRun_idem])
  have hUS : groups.enum.map (fun p =>
        (((((vGroupRun (p.1, (vGroupRun p).out)).out).sub_groups.getD []).filter
          (fun sg => sg.is_ungrouped_subgroup.getD false)).length : Int)) =
      groups.enum.map (fun p =>
        (((((vGroupRun p).out).sub_groups.getD []).filter
          (fun sg => sg.is_ungrouped_subgroup.getD false)).length : Int)) :=
    List.map_congr_left (fun p _ => by rw [vGroupRun_idem])
  have hVal : (groups.enum.all fun p => !(vGroupRun (p.1, (vGroupRun p).out)).dup) = true := by
    rw [List.all_eq_true]
    intro p _
    rw [vGroupRun_idem]
    rfl
  rw [hOut, hMC, hSC, hErrs, hUS, hVal]
  simp

/-- C8 (amended): for every non-string input the normalizer returns
`str(v).lower()` directly — the early-return at the top of
`normalize_product_name` skips the brand/colour/size stripping,
punctuation replacement and whitespace collapsing entirely, rather than
running the converted string through the same steps. -/
theorem claim_C8 (v : PyVal) (h : v.isStr = false) :
    normalize_product_name_py v = pyLower (pyValStr v) := by
  cases v with
  | str s => simp [PyVal.isStr] at h
  | int n => rfl
  | bool b => rfl
  | pynone => rfl

/-- C8 counterexample: the integer `123456` is lowered to `"123456"`,
while the claimed route through the string normalizer would strip the
standalone number and return `""`. -/
theorem claim_C8_counterexample :
    (PyVal.int 123456).isStr = false ∧
    normalize_product_name_py (PyVal.int 123456) = "123456" ∧
    normalize_product_name_py (PyVal.str (pyValStr (PyVal.int 123456))) = "" ∧
    normalize_product_name_py (PyVal.int 123456) ≠
      normalize_product_name_py (PyVal.str (pyValStr (PyVal.int 123456))) := by
  refine ⟨rfl, by decide, by decide, by decide⟩

theorem claim_C8_witness :
    normalize_product_name_py (PyVal.int 123456) = pyLower (pyValStr (PyVal.int 123456)) :=
  claim_C8 (PyVal.int 123456) rfl

/-! ## Normalizer stability (C5) -/

theorem toLower_toLower (c : Char) : c.toLower.toLower = c.toLower := by
  unfold Char.toLower
  by_cases h : c.toNat ≥ 65 ∧ c.toNat ≤ 90
  · rw [if_pos h]
    have hv : (Char.ofNat (c.toNat + 32)).toNat = c.toNat + 32 := by
      rw [Char.ofNat, dif_pos]
      · rfl
      · exact Or.inl (by omega)
    rw [if_neg]
    rw [hv]
    omega
  · rw [if_neg h, if_neg h]

theorem lowerCL_fix (cs : List Char) (h : ∀ c ∈ cs, c.toLower = c) : lowerCL cs = cs := by
  unfold lowerCL
  induction cs with
  | nil => rfl
  | cons c cs ih =>
    rw [List.map_cons, h c (List.mem_cons_self c cs),
      ih (fun d hd => h d (List.mem_cons_of_mem c hd))]

theorem stripCL_subset (cs : List Char) : ∀ c ∈ stripCL cs, c ∈ cs := by
  intro c hc
  unfold stripCL at hc
  rw [List.mem_reverse] at hc
  have h1 := (List.dropWhile_sublist (l := (cs.dropWhile isSpaceChar).reverse)
    (p := isSpaceChar)).subset hc
  rw [List.mem_reverse] at h1
  exact (List.dropWhile_sublist (l := cs) (p := isSpaceChar)).subset h1

theorem reSubGo_subset (pat : List Rex) :
    ∀ (fuel : Nat) (prev : Option Char) (cs : List Char),
      ∀ c ∈ reSubGo pat fuel prev cs, c ∈ cs := by
  intro fuel
  induction fuel with
  | zero =>
    intro prev cs c hc
    cases cs with
    | nil => simp [reSubGo] at hc
    | cons a l => simpa [reSubGo] using hc
  | succ f ih =>
    intro prev cs c hc
    cases cs with
    | nil => simp [reSubGo] at hc
    | cons a l =>
      rw [reSubGo] at hc
      split at hc
      · exact List.drop_subset _ _ (ih _ _ c hc)
      · rcases List.mem_cons.mp hc with rfl | hc'
        · exact List.mem_cons_self _ _
        · exact List.mem_cons_of_mem _ (ih _ _ c hc')

theorem reSub_subset (pat : List Rex) (cs : List Char) : ∀ c ∈ reSub pat cs, c ∈ cs :=
  reSubGo_subset pat cs.length Option.none cs

theorem applyPats_subset (ps : List (List Rex)) :
    ∀ (cs : List Char), ∀ c ∈ applyPats ps cs, c ∈ cs := by
  induction ps with
  | nil => intro cs c hc; simpa [applyPats] using hc
  | cons p ps ih =>
    intro cs c hc
    rw [applyPats, List.foldl_cons] at hc
    exact reSub_subset p cs c (ih (reSub p cs) c hc)

theorem punctToSpace_mem (cs : List Char) :
    ∀ c ∈ punctToSpace cs,
      c = ' ' ∨ (c ∈ cs ∧ (isWordChar c || isSpaceChar c) = true) := by
  intro c hc
  unfold punctToSpace at hc
  rw [List.mem_map] at hc
  obtain ⟨d, hd, hdc⟩ := hc
  by_cases h : (isWordChar d || isSpaceChar d) = true
  · rw [if_pos h] at hdc
    exact Or.inr ⟨hdc ▸ hd, hdc ▸ h⟩
  · rw [if_neg h] at hdc
    exact Or.inl hdc.symm

theorem wordsGo_mem : ∀ (cs acc : List Char), ∀ w ∈ wordsGo cs acc, ∀ c ∈ w,
    (c ∈ cs ∧ isSpaceChar c = false) ∨ c ∈ acc := by
  intro cs
  induction cs with
  | nil =>
    intro acc w hw c hcw
    rw [wordsGo] at hw
    by_cases h : acc.isEmpty
    · rw [if_pos h] at hw
      simp at hw
    · rw [if_neg h] at hw
      rcases List.mem_singleton.mp hw with rfl
      exact Or.inr (List.mem_reverse.mp hcw)
  | cons a l ih =>
    intro acc w hw c hcw
    rw [wordsGo] at hw
    by_cases ha : isSpaceChar a
    · rw [if_pos ha] at hw
      by_cases he : acc.isEmpty
      · rw [if_pos he] at hw
        rcases ih [] w hw c hcw with ⟨h1, h2⟩ | h
        · exact Or.inl ⟨List.mem_cons_of_mem a h1, h2⟩
        · simp at h
      · rw [if_neg he] at hw
        rcases List.mem_cons.mp hw with rfl | hw'
        · exact Or.inr (List.mem_reverse.mp hcw)
        · rcases ih [] w hw' c hcw with ⟨h1, h2⟩ | h
          · exact Or.inl ⟨List.mem_cons_of_mem a h1, h2⟩
          · simp at h
    · rw [if_neg ha] at hw
      rcases ih (a :: acc) w hw c hcw with ⟨h1, h2⟩ | h
      · exact Or.inl ⟨List.mem_cons_of_mem a h1, h2⟩
      · rcases List.mem_cons.mp h with rfl | h'
        · exact Or.inl ⟨List.mem_cons_self _ _, Bool.eq_false_iff.mpr ha⟩
        · exact Or.inr h'

theorem wordsGo_ok : ∀ (cs acc : List Char), (∀ c ∈ acc, isSpaceChar c = false) →
    ∀ w ∈ wordsGo cs acc, w ≠ [] ∧ ∀ c ∈ w, isSpaceChar c = false := by
  intro cs
  induction cs with
  | nil =>
    intro acc hacc w hw
    rw [wordsGo] at hw
    by_cases h : acc.isEmpty
    · rw [if_pos h] at hw
      simp at hw
    · rw [if_neg h] at hw
      rcases List.mem_singleton.mp hw with rfl
      refine ⟨fun he => ?_, fun c hc => hacc c (List.mem_reverse.mp hc)⟩
      rw [List.reverse_eq_nil_iff] at he
      rw [he] at h
      simp at h
  | cons a l ih =>
    intro acc hacc w hw
    rw [wordsGo] at hw
    by_cases ha : isSpaceChar a
    · rw [if_pos ha] at hw
      by_cases he : acc.isEmpty
      · rw [if_pos he] at hw
        exact ih [] (by simp) w hw
      · rw [if_neg he] at hw
        rcases List.mem_cons.mp hw with rfl | hw'
        · refine ⟨fun hn => ?_, fun c hc => hacc c (List.mem_reverse.mp hc)⟩
          rw [List.reverse_eq_nil_iff] at hn
          rw [hn] at he
          simp at he
        · exact ih [] (by simp) w hw'
    · rw [if_neg ha] at hw
      refine ih (a :: acc) ?_ w hw
      intro d hd
      rcases List.mem_cons.mp hd with rfl | hd'
      · exact Bool.eq_false_iff.mpr ha
      · exact hacc d hd'

theorem joinSpace_nil : joinSpace [] = [] := rfl

theorem joinSpace_single (w : List Char) : joinSpace [w] = w := by
  simp [joinSpace]

theorem joinSpace_cons_cons (w w2 : List Char) (ws : List (List Char)) :
    joinSpace (w :: w2 :: ws) = w ++ ' ' :: joinSpace (w2 :: ws) := by
  simp [joinSpace, List.intersperse_cons_cons]

theorem joinSpace_mem : ∀ (ws : List (List Char)), ∀ c ∈ joinSpace ws,
    c = ' ' ∨ ∃ w ∈ ws, c ∈ w := by
  intro ws
  induction ws with
  | nil => intro c hc; simp [joinSpace_nil] at hc
  | cons w ws ih =>
    intro c hc
    cases ws with
    | nil =>
      rw [joinSpace_single] at hc
      exact Or.inr ⟨w, List.mem_singleton.mpr rfl, hc⟩
    | cons w2 ws2 =>
      rw [joinSpace_cons_cons] at hc
      rcases List.mem_append.mp hc with h | h
      · exact Or.inr ⟨w, List.mem_cons_self _ _, h⟩
      · rcases List.mem_cons.mp h with rfl | h'
        · exact Or.inl rfl
        · rcases ih c h' with h1 | ⟨w', hw', hcw'⟩
          · exact Or.inl h1
          · exact Or.inr ⟨w', List.mem_cons_of_mem _ hw', hcw'⟩

theorem collapseWs_mem (cs : List Char) :
    ∀ c ∈ collapseWs cs, c = ' ' ∨ (c ∈ cs ∧ isSpaceChar c = false) := by
  intro c hc
  unfold collapseWs at hc
  rcases joinSpace_mem _ c hc with h | ⟨w, hw, hcw⟩
  · exact Or.inl h
  · rcases wordsGo_mem cs [] w hw c hcw with h | h
    · exact Or.inr h
    · simp at h

theorem wordsGo_word_app (w : List Char) :
    ∀ (cs acc : List Char), (∀ c ∈ w, isSpaceChar c = false) →
      wordsGo (w ++ cs) acc = wordsGo cs (w.reverse ++ acc) := by
  induction w with
  | nil => intro cs acc _; simp
  | cons a w ih =>
    intro cs acc hok
    rw [List.cons_append, wordsGo,
      if_neg (by rw [hok a (List.mem_cons_self _ _)]; simp),
      ih cs (a :: acc) (fun c hc => hok c (List.mem_cons_of_mem a hc))]
    simp

theorem wordsCL_joinSpace : ∀ (ws : List (List Char)),
    (∀ w ∈ ws, w ≠ [] ∧ ∀ c ∈ w, isSpaceChar c = false) →
    wordsCL (joinSpace ws) = ws := by
  intro ws
  induction ws with
  | nil => intro _; rfl
  | cons w ws ih =>
    intro hok
    obtain ⟨hw, hwc⟩ := hok w (List.mem_cons_self _ _)
    cases ws with
    | nil =>
      rw [joinSpace_single, wordsCL, ← List.append_nil w, wordsGo_word_app w [] [] hwc,
        wordsGo]
      rw [if_neg]
      · simp
      · simp [List.isEmpty_iff, hw]
    | cons w2 ws2 =>
      rw [joinSpace_cons_cons, wordsCL, wordsGo_word_app w _ [] hwc, wordsGo,
        if_pos (by decide)]
      rw [if_neg (by simp [List.isEmpty_iff, hw])]
      have := ih (fun v hv => hok v (List.mem_cons_of_mem w hv))
      rw [wordsCL] at this
      rw [this]
      simp

theorem stripCL_fix (cs : List Char)
    (h1 : ∀ c, cs.head? = some c → isSpaceChar c = false)
    (h2 : ∀ c, cs.getLast? = some c → isSpaceChar c = false) :
    stripCL cs = cs := by
  unfold stripCL
  have hd : cs.dropWhile isSpaceChar = cs := by
    cases cs with
    | nil => rfl
    | cons a l =>
      rw [List.dropWhile_cons, if_neg]
      rw [h1 a rfl]
      simp
  rw [hd]
  have hd2 : cs.reverse.dropWhile isSpaceChar = cs.reverse := by
    cases hrev : cs.reverse with
    | nil => rfl
    | cons a l =>
      rw [List.dropWhile_cons, if_neg]
      have : cs.getLast? = some a := by
        rw [← List.head?_reverse, hrev]
        rfl
      rw [h2 a this]
      simp
  rw [hd2, List.reverse_reverse]

theorem joinSpace_head (ws : List (List Char))
    (hok : ∀ w ∈ ws, w ≠ [] ∧ ∀ c ∈ w, isSpaceChar c = false) :
    ∀ c, (joinSpace ws).head? = some c → isSpaceChar c = false := by
  intro c hc
  cases ws with
  | nil => simp [joinSpace_nil] at hc
  | cons w ws =>
    obtain ⟨hw, hwc⟩ := hok w (List.mem_cons_self _ _)
    have happ : ∃ t, joinSpace (w :: ws) = w ++ t := by
      cases ws with
      | nil => exact ⟨[], by rw [joinSpace_single, List.append_nil]⟩
      | cons w2 ws2 => exact ⟨' ' :: joinSpace (w2 :: ws2), joinSpace_cons_cons _ _ _⟩
    obtain ⟨t, ht⟩ := happ
    rw [ht] at hc
    cases w with
    | nil => exact absurd rfl hw
    | cons a l =>
      rw [List.cons_append] at hc
      simp only [List.head?_cons, Option.some.injEq] at hc
      exact hc ▸ hwc a (List.mem_cons_self _ _)

theorem joinSpace_getLast : ∀ (ws : List (List Char)),
    (∀ w ∈ ws, w ≠ [] ∧ ∀ c ∈ w, isSpaceChar c = false) →
    ∀ c, (joinSpace ws).getLast? = some c → isSpaceChar c = false := by
  intro ws
  induction ws with
  | nil => intro _ c hc; simp [joinSpace_nil] at hc
  | cons w ws ih =>
    intro hok c hc
    obtain ⟨hw, hwc⟩ := hok w (List.mem_cons_self _ _)
    cases ws with
    | nil =>
      rw [joinSpace_single] at hc
      have hcm : c ∈ w.getLast? := by
        rw [hc]
        rfl
      obtain ⟨hne', hceq⟩ := List.mem_getLast?_eq_getLast hcm
      rw [hceq]
      exact hwc _ (List.getLast_mem hne')
    | cons w2 ws2 =>
      rw [joinSpace_cons_cons, List.getLast?_append_cons] at hc
      have hJne : joinSpace (w2 :: ws2) ≠ [] := by
        obtain ⟨hw2, _⟩ := hok w2 (List.mem_cons_of_mem _ (List.mem_cons_self _ _))
        cases ws2 with
        | nil =>
          rw [joinSpace_single]
          exact hw2
        | cons w3 ws3 =>
          rw [joinSpace_cons_cons]
          intro hemp
          rcases List.append_eq_nil.mp hemp with ⟨_, h'⟩
          simp at h'
      obtain ⟨j, J', hJ⟩ : ∃ j J', joinSpace (w2 :: ws2) = j :: J' := by
        cases hJJ : joinSpace (w2 :: ws2) with
        | nil => exact absurd hJJ hJne
        | cons j J' => exact ⟨j, J', rfl⟩
      rw [hJ, List.getLast?_cons_cons] at hc
      refine ih (fun v hv => hok v (List.mem_cons_of_mem w hv)) c ?_
      rw [hJ]
      exact hc

/-- Character classification of the normalizer's output: every character
is a space or a lower-case-stable word character. -/
theorem normalizeCL_chars (cs : List Char) :
    ∀ c ∈ normalizeCL cs, c = ' ' ∨ (isWordChar c = true ∧ c.toLower = c ∧
      isSpaceChar c = false) := by
  intro c hc
  unfold normalizeCL at hc
  rcases collapseWs_mem _ c hc with h | ⟨hmem, hsp⟩
  · exact Or.inl h
  · rcases punctToSpace_mem _ c hmem with h | ⟨hmem2, hws⟩
    · exact Or.inl h
    · have hword : isWordChar c = true := by
        rcases Bool.or_eq_true_iff.mp hws with h | h
        · exact h
        · rw [hsp] at h
          exact absurd h (by simp)
      have hlow : c.toLower = c := by
        have hm0 := applyPats_subset brand_model_patterns _ c
          (applyPats_subset color_patterns _ c
            (applyPats_subset size_weight_patterns _ c hmem2))
        have hm1 := stripCL_subset _ c hm0
        rw [lowerCL, List.mem_map] at hm1
        obtain ⟨d, _, hd⟩ := hm1
        rw [← hd]
        exact toLower_toLower d
      exact Or.inr ⟨hword, hlow, hsp⟩

/-- The cleanup stages (lower-case, strip, punctuation, whitespace
collapse) all fix the normalizer's output. -/
theorem normalizeCL_cleanup_fix (cs : List Char) :
    lowerCL (normalizeCL cs) = normalizeCL cs ∧
    stripCL (normalizeCL cs) = normalizeCL cs ∧
    punctToSpace (normalizeCL cs) = normalizeCL cs ∧
    collapseWs (normalizeCL cs) = normalizeCL cs := by
  have hok : ∀ w ∈ wordsCL (punctToSpace (applyPats size_weight_patterns
      (applyPats color_patterns (applyPats brand_model_patterns (stripCL (lowerCL cs)))))),
      w ≠ [] ∧ ∀ c ∈ w, isSpaceChar c = false :=
    fun w hw => wordsGo_ok _ [] (by simp) w hw
  have hform : normalizeCL cs = joinSpace (wordsCL (punctToSpace
      (applyPats size_weight_patterns (applyPats color_patterns
        (applyPats brand_model_patterns (stripCL (lowerCL cs))))))) := rfl
  refine ⟨?_, ?_, ?_, ?_⟩
  · refine lowerCL_fix _ (fun c hc => ?_)
    rcases normalizeCL_chars cs c hc with rfl | ⟨_, h, _⟩
    · decide
    · exact h
  · rw [hform]
    exact stripCL_fix _ (joinSpace_head _ hok) (joinSpace_getLast _ hok)
  · have hpt : ∀ c ∈ normalizeCL cs,
        (if isWordChar c || isSpaceChar c then c else ' ') = c := by
      intro c hc
      rcases normalizeCL_chars cs c hc with rfl | ⟨hw, _, _⟩
      · decide
      · rw [if_pos (by simp [hw])]
    unfold punctToSpace
    rw [List.map_congr_left hpt, List.map_id']
  · rw [hform, collapseWs, wordsCL_joinSpace _ hok]

/-- C5 (amended): the normalizer is idempotent on every string whose
normalized form the three stripping stages (brand/model, colour,
size/weight) leave unchanged — the cleanup stages (lower-casing,
stripping, punctuation replacement, whitespace collapsing) always fix
the output, so only renewed pattern stripping can change a second
application.  (In general the claim fails: see the counterexample.) -/
theorem claim_C5 (x : String)
    (h : applyPats size_weight_patterns (applyPats color_patterns
        (applyPats brand_model_patterns (normalize_product_name x).toList)) =
      (normalize_product_name x).toList) :
    normalize_product_name (normalize_product_name x) = normalize_product_name x := by
  obtain ⟨hl, hs, hp, hc⟩ := normalizeCL_cleanup_fix x.toList
  have htl : ∀ (l : List Char), (String.mk l).toList = l := fun l => rfl
  have h1 : normalize_product_name x = String.mk (normalizeCL x.toList) := rfl
  have hx : (normalize_product_name x).toList = normalizeCL x.toList := by
    rw [h1, htl]
  rw [hx] at h
  rw [h1]
  have h2 : normalize_product_name (String.mk (normalizeCL x.toList)) =
      String.mk (normalizeCL (normalizeCL x.toList)) := by
    rw [normalize_product_name, htl]
  rw [h2]
  refine congrArg String.mk ?_
  have hstep : normalizeCL (normalizeCL x.toList) =
      collapseWs (punctToSpace (applyPats size_weight_patterns (applyPats color_patterns
        (applyPats brand_model_patterns (stripCL (lowerCL (normalizeCL x.toList))))))) := rfl
  rw [hstep, hl, hs, h, hp, hc]

/-- C5 counterexample: `"gen red 5"` normalizes to `"gen 5"` (the colour
is stripped, and `"gen 5"` survives because `\bgen\b` only matched before
the stripping created this form), but a second application strips
`"gen 5"` to `""`: the normalizer is not a projection. -/
theorem claim_C5_counterexample :
    normalize_product_name "gen red 5" = "gen 5" ∧
    normalize_product_name (normalize_product_name "gen red 5") = "" ∧
    normalize_product_name (normalize_product_name "gen red 5") ≠
      normalize_product_name "gen red 5" :=
  ⟨by decide, by decide, by decide⟩

theorem claim_C5_witness :
    normalize_product_name (normalize_product_name "hello world") =
      normalize_product_name "hello world" :=
  claim_C5 "hello world" (by decide)

theorem enumFrom_snd_mem {α : Type _} : ∀ (n : Nat) (l : List α) (p : Nat × α),
    p ∈ List.enumFrom n l → p.2 ∈ l := by
  intro n l
  induction l generalizing n with
  | nil => intro p hp; simp [List.enumFrom] at hp
  | cons a t ih =>
    intro p hp
    rw [List.enumFrom_cons] at hp
    rcases List.mem_cons.mp hp with rfl | hp'
    · exact List.mem_cons_self _ _
    · exact List.mem_cons_of_mem _ (ih (n + 1) p hp')

/-- A main-group iteration on the unique-values shape (no direct items,
a single sub-group): the written count is that sub-group's item count
and the estimated-savings string is untouched. -/
theorem vGroupRun_uv_shape (i : Nat) (g : MainGroup) (sg : SubGroup) (l : List PItem)
    (hitems : g.items = some [])
    (hsub : g.sub_groups = some [sg]) (hsg : sg.items = some l) :
    (vGroupRun (i, g)).out.count = some ((l.length : Int)) ∧
    (vGroupRun (i, g)).out.estimated_savings = g.estimated_savings := by
  rw [vGroupRun]
  simp only [hsub, hitems, Option.getD_some]
  have hrun : vSubRun (g.name.getD ("Group_" ++ natDec i)) [] ([sg].enum) =
      vSubRun (g.name.getD ("Group_" ++ natDec i)) [] [(0, sg)] := rfl
  rw [hrun, vSubRun, vSubRun]
  simp [hsg]

/-- C7 (amended): `calculate_estimated_savings` (used for the groups of
the chunked, column and AI strategies) renders exactly the piecewise
formula `savingsPct` rounded to an integer percent; the unique-values
strategy instead writes `min(30, 2·n)%` onto its groups, where `n` is
the group's (validated) item count — so the piecewise formula does not
govern every partitioner's groups. -/
theorem claim_C7 :
    (∀ (items : List PItem), calculate_estimated_savings items =
      intDec (roundHalfEvenQ (savingsPct items.length)) ++ "%") ∧
    (∀ (df : DataFrame) (col : String) (r : ResultUV),
      generate_main_groups_from_unique_values df col = some r →
      ∀ g ∈ r.groups, ∃ n : Nat, g.count = some ((n : Nat) : Int) ∧
        g.estimated_savings = some (natDec (min 30 (n * 2)) ++ "%")) := by
  constructor
  · intro items
    rfl
  · intro df col r hr g hg
    rw [generate_main_groups_from_unique_values] at hr
    by_cases hcol : col ∉ df.cols
    · rw [if_pos hcol] at hr
      exact absurd hr (by simp)
    · rw [if_neg hcol] at hr
      rcases hsav : savings_records df with _ | saved
      · rw [hsav] at hr
        simp at hr
      · rw [hsav] at hr
        have hrec := Option.some.inj hr
        have hgroups : r.groups =
            (validate_and_count_groups
              ((((value_counts (dfColCells df col)).map Prod.fst).filter
                (fun v => pyStrip v ≠ "")).enum.map
                  (fun p => uvGroupFor df col (2 * p.1) p.2))
              (df.rows.length : Int)).1 := by
          rw [← hrec]
        rw [hgroups, validate_eq] at hg
        dsimp only at hg
        rw [List.mem_map] at hg
        obtain ⟨p, hp, hgout⟩ := hg
        have hpsnd : p.2 ∈ (((value_counts (dfColCells df col)).map Prod.fst).filter
            (fun v => pyStrip v ≠ "")).enum.map
              (fun p => uvGroupFor df col (2 * p.1) p.2) :=
          enumFrom_snd_mem 0 _ p hp
        obtain ⟨q, _, hq⟩ := List.mem_map.mp hpsnd
        have hshape := vGroupRun_uv_shape p.1 p.2
          ({ id := some (genId (2 * q.1 + 1))
             name := some (q.2 ++ " Items")
             items := some ((df.rows.enum.filter
               (fun pr => rowCell pr.2 col = some q.2)).map
                 (fun pr => create_item_from_row pr.2 pr.1 q.2 q.2))
             count := some (((df.rows.enum.filter
               (fun pr => rowCell pr.2 col = some q.2)).map
                 (fun pr => create_item_from_row pr.2 pr.1 q.2 q.2)).length : Int)
             item_count := some (((df.rows.enum.filter
               (fun pr => rowCell pr.2 col = some q.2)).map
                 (fun pr => create_item_from_row pr.2 pr.1 q.2 q.2)).length : Int) })
          ((df.rows.enum.filter (fun pr => rowCell pr.2 col = some q.2)).map
            (fun pr => create_item_from_row pr.2 pr.1 q.2 q.2))
          (by rw [← hq]; rfl) (by rw [← hq]; rfl) rfl
        refine ⟨((df.rows.enum.filter (fun pr => rowCell pr.2 col = some q.2)).map
          (fun pr => create_item_from_row pr.2 pr.1 q.2 q.2)).length, ?_, ?_⟩
        · rw [← hgout]
          exact hshape.1
        · rw [← hgout, hshape.2, ← hq]
          rfl

/-- C7 counterexample: a one-row single-column frame yields a
unique-values group with one item whose `estimated_savings` is `"2%"`
(`min(30, 2·1)`), while the claimed piecewise formula gives `"5%"`
(`max(5, 1·2)` rounded). -/
theorem claim_C7_counterexample :
    (generate_main_groups_from_unique_values (⟨["c"], [[("c", some "x")]]⟩ : DataFrame)
        "c").map (fun r => r.groups.map (fun g => (g.count, g.estimated_savings))) =
      some [(some 1, some "2%")] ∧
    intDec (roundHalfEvenQ (savingsPct 1)) ++ "%" = "5%" ∧
    ("2%" : String) ≠ "5%" :=
  ⟨by decide, by decide, by decide⟩

theorem claim_C7_witness :
    calculate_estimated_savings [] = intDec (roundHalfEvenQ (savingsPct 0)) ++ "%" ∧
    (∀ g ∈ ((generate_main_groups_from_unique_values
        (⟨["c"], [[("c", some "x")]]⟩ : DataFrame) "c").getD
          { groups := [], ungrouped_items := [],
            validation := ⟨true, [], [], ⟨0, 0, 0, 0, 0, 0⟩⟩,
            total_items := 0, grouped_items := 0, ungrouped_count := 0,
            total_groups := 0, total_sub_groups := 0, estimated_time_saved := "",
            is_valid := true, processing_method := "", source_column := "" }).groups,
      ∃ n : Nat, g.count = some ((n : Nat) : Int) ∧
        g.estimated_savings = some (natDec (min 30 (n * 2)) ++ "%")) :=
  ⟨claim_C7.1 [],
   claim_C7.2 (⟨["c"], [[("c", some "x")]]⟩ : DataFrame) "c" _ (by decide)⟩

theorem filter_mem_length_comm (a b : List String) (ha : a.Nodup) (hb : b.Nodup) :
    (a.filter (fun w => w ∈ b)).length = (b.filter (fun w => w ∈ a)).length := by
  have h1 : (a.filter (fun w => w ∈ b)).toFinset = a.toFinset ∩ b.toFinset := by
    ext x
    simp [List.mem_filter]
  have h2 : (b.filter (fun w => w ∈ a)).toFinset = b.toFinset ∩ a.toFinset := by
    ext x
    simp [List.mem_filter, and_comm]
  rw [← List.toFinset_card_of_nodup (ha.filter _),
    ← List.toFinset_card_of_nodup (hb.filter _), h1, h2, Finset.inter_comm]

theorem dedup_append_length_comm (a b : List String) :
    (a ++ b).dedup.length = (b ++ a).dedup.length := by
  have hfs : ((a ++ b).dedup).toFinset = ((b ++ a).dedup).toFinset := by
    apply List.toFinset.ext
    intro x
    simp [List.mem_dedup, List.mem_append, or_comm]
  rw [← List.toFinset_card_of_nodup (List.nodup_dedup (a ++ b)),
    ← List.toFinset_card_of_nodup (List.nodup_dedup (b ++ a)), hfs]

/-- C6 (amended): three of the four component scores (type match, word
overlap, category match) are symmetric, so the weighted similarity is
symmetric in every pair whose `SequenceMatcher.ratio` happens to be
symmetric; `ratio` itself is not symmetric, so neither is the score in
general (see the counterexample). -/
theorem claim_C6 (a b : SimItem)
    (h : seqRatio (normalize_product_name (a.name.getD ""))
        (normalize_product_name (b.name.getD "")) =
      seqRatio (normalize_product_name (b.name.getD ""))
        (normalize_product_name (a.name.getD ""))) :
    calculate_product_similarity a b = calculate_product_similarity b a := by
  simp only [calculate_product_similarity]
  have ht : (if (extract_core_product_type (a.name.getD "")).1 =
        (extract_core_product_type (b.name.getD "")).1 ∧
        (extract_core_product_type (a.name.getD "")).1 ≠ "other" then (1 : ℚ) else 0) =
      (if (extract_core_product_type (b.name.getD "")).1 =
        (extract_core_product_type (a.name.getD "")).1 ∧
        (extract_core_product_type (b.name.getD "")).1 ≠ "other" then (1 : ℚ) else 0) := by
    refine if_congr ⟨fun hx => ⟨hx.1.symm, hx.1 ▸ hx.2⟩, fun hx => ⟨hx.1.symm, hx.1 ▸ hx.2⟩⟩
      rfl rfl
  have hcat : (if pyLower (a.category.getD "") = pyLower (b.category.getD "") ∧
        pyLower (a.category.getD "") ≠ "unknown" then (1 : ℚ) else 0) =
      (if pyLower (b.category.getD "") = pyLower (a.category.getD "") ∧
        pyLower (b.category.getD "") ≠ "unknown" then (1 : ℚ) else 0) := by
    refine if_congr ⟨fun hx => ⟨hx.1.symm, hx.1 ▸ hx.2⟩, fun hx => ⟨hx.1.symm, hx.1 ▸ hx.2⟩⟩
      rfl rfl
  have hov : (if (pySplit (normalize_product_name (a.name.getD ""))).dedup ≠ [] ∧
        (pySplit (normalize_product_name (b.name.getD ""))).dedup ≠ [] then
        (((((pySplit (normalize_product_name (a.name.getD ""))).dedup).filter
          (fun w => w ∈ (pySplit (normalize_product_name (b.name.getD ""))).dedup)).length : ℚ) /
          ((((pySplit (normalize_product_name (a.name.getD ""))).dedup ++
            (pySplit (normalize_product_name (b.name.getD ""))).dedup).dedup.length : Nat) : ℚ))
      else 0) =
      (if (pySplit (normalize_product_name (b.name.getD ""))).dedup ≠ [] ∧
        (pySplit (normalize_product_name (a.name.getD ""))).dedup ≠ [] then
        (((((pySplit (normalize_product_name (b.name.getD ""))).dedup).filter
          (fun w => w ∈ (pySplit (normalize_product_name (a.name.getD ""))).dedup)).length : ℚ) /
          ((((pySplit (normalize_product_name (b.name.getD ""))).dedup ++
            (pySplit (normalize_product_name (a.name.getD ""))).dedup).dedup.length : Nat) : ℚ))
      else 0) := by
    refine if_congr and_comm ?_ rfl
    rw [filter_mem_length_comm _ _ (List.nodup_dedup _) (List.nodup_dedup _),
      dedup_append_length_comm]
  rw [ht, hcat, hov, h]

/-- C6 counterexample: with names `"ab"` and `"bacb"` (equal categories,
equal types) the `SequenceMatcher.ratio` component depends on the
argument order — `difflib` builds its index over the second sequence —
so the similarity is 1/5 one way and 1/10 the other. -/
theorem claim_C6_counterexample :
    calculate_product_similarity ⟨some "ab", some "Unknown"⟩ ⟨some "bacb", some "Unknown"⟩
      = 1 / 5 ∧
    calculate_product_similarity ⟨some "bacb", some "Unknown"⟩ ⟨some "ab", some "Unknown"⟩
      = 1 / 10 ∧
    calculate_product_similarity ⟨some "ab", some "Unknown"⟩ ⟨some "bacb", some "Unknown"⟩ ≠
      calculate_product_similarity ⟨some "bacb", some "Unknown"⟩ ⟨some "ab", some "Unknown"⟩ :=
  ⟨by decide, by decide, by decide⟩

theorem claim_C6_witness :
    calculate_product_similarity ⟨some "pen", some "Office"⟩ ⟨some "pen", some "Office"⟩ =
      calculate_product_similarity ⟨some "pen", some "Office"⟩ ⟨some "pen", some "Office"⟩ :=
  claim_C6 ⟨some "pen", some "Office"⟩ ⟨some "pen", some "Office"⟩ rfl

/-- C10: both result builders truncate `ungrouped_items` to at most 100
entries, while `ungrouped_count` reports the full validation count — so
the list can be strictly shorter than the count (at 150 all-blank rows
the count is 150 and the list has 100 entries). -/
theorem ite_take_map_length_le {α β : Type _} (c : Prop) [Decidable c] (l : List α)
    (f : α → β) : (if c then (l.take 100).map f else []).length ≤ 100 := by
  by_cases h : c
  · rw [if_pos h, List.length_map]
    exact List.length_take_le _ _
  · simp [h]

theorem ite_map_take_length_le {α β : Type _} (c : Prop) [Decidable c] (l : List α)
    (f : α → β) : (if c then (l.map f).take 100 else []).length ≤ 100 := by
  by_cases h : c
  · rw [if_pos h]
    exact List.length_take_le _ _
  · simp [h]

theorem claim_C10 :
    (∀ (oracle : OracleOutcome) (df : DataFrame) (mc sc : Option String) (r : ResultAI),
      generate_ai_powered_groups_from_columns oracle df mc sc = some r →
      r.ungrouped_items.length ≤ 100) ∧
    (∀ (sampler : Sampler) (df : DataFrame) (useMain : Bool) (mc sc : Option String)
      (r : ResultCfg),
      generate_groups_chunked_with_config sampler df useMain mc sc = some r →
      r.ungrouped_items.length ≤ 100) ∧
    ((generate_ai_powered_groups_from_columns (Except.error "e")
        (⟨["c"], List.replicate 150 [("c", some "")]⟩ : DataFrame) (some "c")
        Option.none).map
      (fun r => (r.ungrouped_count, (r.ungrouped_items.length : Int))) =
        some (150, 100)) := by
  refine ⟨?_, ?_, by decide⟩
  · intro oracle df mc sc r hr
    simp only [generate_ai_powered_groups_from_columns] at hr
    split at hr
    · simp at hr
    · have hrec := Option.some.inj hr
      rw [← hrec]
      dsimp only
      exact ite_take_map_length_le _ _ _
  · intro sampler df useMain mc sc r hr
    simp only [generate_groups_chunked_with_config] at hr
    split at hr
    · simp at hr
    · have hrec := Option.some.inj hr
      rw [← hrec]
      dsimp only
      exact ite_map_take_length_le _ _ _

theorem claim_C10_witness :
    ((generate_ai_powered_groups_from_columns (Except.error "e")
        (⟨["c"], List.replicate 150 [("c", some "")]⟩ : DataFrame) (some "c")
        Option.none).getD
      { groups := [], ungrouped_items := [],
        validation := ⟨true, [], [], ⟨0, 0, 0, 0, 0, 0⟩⟩,
        total_items := 0, grouped_items := 0, ungrouped_count := 0,
        total_groups := 0, total_sub_groups := 0, estimated_time_saved := "",
        is_valid := true, processing_method := "",
        ai_grouping_plan := ⟨[], [], ⟨"", 0, 0, 0⟩⟩ }).ungrouped_items.length ≤ 100 :=
  claim_C10.1 (Except.error "e")
    (⟨["c"], List.replicate 150 [("c", some "")]⟩ : DataFrame) (some "c") Option.none _
    (by decide)

/-! ## Fallback-plan and plan-application lemmas (C2) -/

theorem lookup_isSome_of_key_mem {β : Type} (l : List (String × β)) (k : String)
    (h : k ∈ l.map Prod.fst) : (l.lookup k).isSome := by
  induction l with
  | nil => simp at h
  | cons kv rest ih =>
    rw [List.lookup]
    by_cases hk : k = kv.1
    · rw [beq_iff_eq.mpr hk]
      rfl
    · rw [beq_eq_false_iff_ne.mpr hk]
      simp only [List.map_cons, List.mem_cons] at h
      rcases h with h' | h'
      · exact absurd h' hk
      · exact ih h'

theorem upsert_key_mem {β : Type} (l : List (String × β)) (k k' : String) (v : β)
    (h : k ∈ l.map Prod.fst ∨ k = k') : k ∈ (upsert l k' v).map Prod.fst := by
  rw [upsert]
  by_cases ha : l.any (fun kv => kv.1 = k')
  · rw [if_pos ha]
    rcases h with h | rfl
    · rw [List.mem_map] at h
      obtain ⟨kv, hkv, rfl⟩ := h
      rw [List.map_map, List.mem_map]
      refine ⟨kv, hkv, ?_⟩
      by_cases he : kv.1 = k'
      · simp [he]
      · simp [he]
    · rw [List.any_eq_true] at ha
      obtain ⟨kv, hkv, he⟩ := ha
      rw [List.map_map, List.mem_map]
      refine ⟨kv, hkv, ?_⟩
      simp only [decide_eq_true_eq] at he
      simp [he]
  · rw [if_neg ha, List.map_append]
    rcases h with h | rfl
    · exact List.mem_append_left _ h
    · exact List.mem_append_right _ (by simp)

/-- Folding `upsert` keeps every key that is already present or is
inserted along the way. -/
theorem foldl_upsert_key {α β : Type} (keyf : α → String) (valf : α → β) :
    ∀ (vals : List α) (acc : List (String × β)) (K : String),
      (K ∈ acc.map Prod.fst ∨ ∃ p ∈ vals, keyf p = K) →
      K ∈ ((vals.foldl (fun acc p => upsert acc (keyf p) (valf p)) acc).map Prod.fst) := by
  intro vals
  induction vals with
  | nil =>
    intro acc K h
    rcases h with h | ⟨p, hp, _⟩
    · exact h
    · simp at hp
  | cons p rest ih =>
    intro acc K h
    rw [List.foldl_cons]
    apply ih
    rcases h with h | ⟨q, hq, hkq⟩
    · exact Or.inl (upsert_key_mem _ _ _ _ (Or.inl h))
    · rcases List.mem_cons.mp hq with rfl | hq'
      · exact Or.inl (upsert_key_mem _ _ _ _ (Or.inr hkq.symm))
      · exact Or.inr ⟨q, hq', hkq⟩

theorem mem_enumFrom_of_mem {α : Type _} (v : α) :
    ∀ (n : Nat) (l : List α), v ∈ l → ∃ i, (i, v) ∈ List.enumFrom n l := by
  intro n l
  induction l generalizing n with
  | nil => intro h; simp at h
  | cons a t ih =>
    intro h
    rw [List.enumFrom_cons]
    rcases List.mem_cons.mp h with rfl | h'
    · exact ⟨n, List.mem_cons_self _ _⟩
    · obtain ⟨i, hi⟩ := ih (n + 1) h'
      exact ⟨i, List.mem_cons_of_mem _ hi⟩

/-- The sub-group loop flags no duplicate when the effective names are
distinct and fresh. -/
theorem vSubRun_nodup_dup_false (gname : String) :
    ∀ (l : List (Nat × SubGroup)) (ns : List String),
      ((l.map (fun p => p.2.name.getD ("SubGroup_" ++ natDec p.1))).Nodup) →
      (∀ p ∈ l, p.2.name.getD ("SubGroup_" ++ natDec p.1) ∉ ns) →
      (vSubRun gname ns l).dup = false := by
  intro l
  induction l with
  | nil => intro ns _ _; rfl
  | cons p rest ih =>
    intro ns hnd hfresh
    rw [vSubRun]
    have hni : p.2.name.getD ("SubGroup_" ++ natDec p.1) ∉ ns :=
      hfresh p (List.mem_cons_self _ _)
    simp only [hni, if_neg, ite_false, not_false_iff]
    rw [List.map_cons, List.nodup_cons] at hnd
    have hrec := ih (p.2.name.getD ("SubGroup_" ++ natDec p.1) :: ns) hnd.2 ?_
    · rw [hrec]
      simp [hni]
    · intro q hq hmem
      rcases List.mem_cons.mp hmem with he | hmem'
      · exact hnd.1 (he ▸ List.mem_map_of_mem _ hq)
      · exact hfresh q (List.mem_cons_of_mem _ hq) hmem'

/-- The effective validator names of an accumulated group's sub-array
are exactly the dict keys. -/
theorem gaccum_sub_names (subs : List (String × SAccum)) :
    ∀ (n : Nat),
      (((subs.map (fun kv =>
        ({ id := some kv.2.saId
           name := some kv.1
           items := some kv.2.saItems
           count := some (kv.2.saItems.length : Int) } : SubGroup))).enumFrom n).map
        (fun p => p.2.name.getD ("SubGroup_" ++ natDec p.1))) = subs.map Prod.fst := by
  induction subs with
  | nil => intro n; rfl
  | cons kv rest ih =>
    intro n
    rw [List.map_cons, List.enumFrom_cons, List.map_cons, List.map_cons, ih (n + 1)]
    rfl

/-- A main-group iteration over a key-distinct accumulated group flags
no duplicate. -/
theorem vGroupRun_gaccum_dup (i : Nat) (ga : GAccum)
    (h : (ga.gaSubs.map Prod.fst).Nodup) :
    (vGroupRun (i, gaccumToGroup ga)).dup = false := by
  rw [vGroupRun, gaccumToGroup]
  cases hsubs : ga.gaSubs with
  | nil => simp
  | cons kv rest =>
    simp only [Option.getD_some, List.map_cons]
    have hnames := gaccum_sub_names (kv :: rest) 0
    rw [hsubs] at h
    refine vSubRun_nodup_dup_false _ _ [] ?_ (by simp)
    simp only [List.map_cons, List.enumFrom_cons] at hnames
    simp only [List.enum, List.enumFrom_cons, List.map_cons]
    rw [hnames]
    exact h

/-- Key-distinctness of every accumulated group's sub-dict. -/
def gaccOk (data : List (String × GAccum)) : Prop :=
  ∀ kv ∈ data, ((kv.2.gaSubs.map Prod.fst).Nodup)

theorem lookup_mem {β : Type} (l : List (String × β)) (k : String) (v : β)
    (h : l.lookup k = some v) : (k, v) ∈ l := by
  induction l with
  | nil => simp [List.lookup] at h
  | cons kv rest ih =>
    rw [List.lookup] at h
    by_cases hk : k = kv.1
    · rw [beq_iff_eq.mpr hk] at h
      have hv := Option.some.inj h
      rw [hk, ← hv]
      exact List.mem_cons_self _ _
    · rw [beq_eq_false_iff_ne.mpr hk] at h
      exact List.mem_cons_of_mem _ (ih h)

/-- The in-place sub-group update keeps the key list. -/
theorem keys_map_update (subs : List (String × SAccum)) (sgname : String) (item : PItem) :
    ((subs.map (fun kv => if kv.1 = sgname then
        (kv.1, { kv.2 with saItems := kv.2.saItems ++ [item], saCount := kv.2.saCount + 1 })
      else kv)).map Prod.fst) = subs.map Prod.fst := by
  rw [List.map_map]
  apply List.map_congr_left
  intro kv _
  by_cases hk : kv.1 = sgname <;> simp [hk]

theorem keys_append_nodup (subs : List (String × SAccum)) (sgname : String) (x : SAccum)
    (hn : (subs.map Prod.fst).Nodup) (hna : ¬(subs.any (fun kv => kv.1 = sgname) = true)) :
    (((subs ++ [(sgname, x)]).map Prod.fst)).Nodup := by
  rw [List.map_append]
  refine List.Nodup.append hn (by simp) ?_
  intro a ha hb
  simp only [List.map_cons, List.map_nil, List.mem_singleton] at hb
  subst hb
  apply hna
  rw [List.any_eq_true]
  rw [List.mem_map] at ha
  obtain ⟨kv, hkv, hfst⟩ := ha
  exact ⟨kv, hkv, by simp [hfst]⟩

/-- Key-distinctness of the per-row sub-dict update, abstracted over the
membership test. -/
theorem pair_if_subs_nodup (C : Prop) [Decidable C] (subs : List (String × SAccum))
    (sg : String) (x : SAccum) (n1 n2 : Nat) (item : PItem)
    (h : (subs.map Prod.fst).Nodup)
    (himp : ¬C → ¬((subs.any fun kv => kv.1 = sg) = true)) :
    ((((if C then (subs, n1) else (subs ++ [(sg, x)], n2)).1).map (fun kv =>
      if kv.1 = sg then
        (kv.1, { kv.2 with saItems := kv.2.saItems ++ [item], saCount := kv.2.saCount + 1 })
      else kv)).map Prod.fst).Nodup := by
  split
  · rw [keys_map_update]
    exact h
  · next hc =>
    rw [keys_map_update]
    exact keys_append_nodup _ _ _ h (himp hc)

theorem applyRowStep_ok (mainCol : String) (subCol : Option String)
    (revMain revSub : List (String × String))
    (mainMappings subMappings : List (String × PlanMapping))
    (st : List (String × GAccum) × Nat) (p : Nat × Row) (h : gaccOk st.1) :
    gaccOk (applyRowStep mainCol subCol revMain revSub mainMappings subMappings st p).1 := by
  obtain ⟨idx, row⟩ := p
  obtain ⟨data, nid⟩ := st
  dsimp only at h
  simp only [applyRowStep]
  split
  · exact h
  · split
    case h_1 x g heq =>
      split at heq
      case isTrue hcond =>
        dsimp only at heq
        have hgood : (g.gaSubs.map Prod.fst).Nodup := h _ (lookup_mem _ _ _ heq)
        rw [if_pos hcond]
        dsimp only
        intro kv hkv
        rw [List.mem_map] at hkv
        obtain ⟨kv0, hkv0, rfl⟩ := hkv
        split
        · dsimp only
          exact pair_if_subs_nodup _ _ _ _ _ _ _ hgood (fun hc => hc)
        · exact h _ hkv0
      case isFalse hcond =>
        dsimp only at heq
        have hmem := lookup_mem _ _ _ heq
        have hgood : (g.gaSubs.map Prod.fst).Nodup := by
          rcases List.mem_append.mp hmem with hm | hm
          · exact h _ hm
          · have hg2 := congrArg Prod.snd (List.mem_singleton.mp hm)
            dsimp only at hg2
            rw [hg2]
            simp
        rw [if_neg hcond]
        dsimp only
        intro kv hkv
        rw [List.mem_map] at hkv
        obtain ⟨kv0, hkv0, rfl⟩ := hkv
        split
        · dsimp only
          exact pair_if_subs_nodup _ _ _ _ _ _ _ hgood (fun hc => hc)
        · rcases List.mem_append.mp hkv0 with hm | hm
          · exact h _ hm
          · rcases List.mem_singleton.mp hm with rfl
            simp
    case h_2 x heq =>
      split
      case isTrue hcond => exact h
      case isFalse hcond =>
        intro kv hkv
        rcases List.mem_append.mp hkv with hm | hm
        · exact h _ hm
        · rcases List.mem_singleton.mp hm with rfl
          simp

/-- Key-distinctness of every group's sub-dict is preserved by the whole
row fold of `apply_ai_grouping_plan`. -/
theorem foldl_applyRowStep_ok (mainCol : String) (subCol : Option String)
    (revMain revSub : List (String × String))
    (mainMappings subMappings : List (String × PlanMapping)) :
    ∀ (l : List (Nat × Row)) (st : List (String × GAccum) × Nat), gaccOk st.1 →
      gaccOk ((l.foldl
        (applyRowStep mainCol subCol revMain revSub mainMappings subMappings) st).1) := by
  intro l
  induction l with
  | nil => intro st h; exact h
  | cons p rest ih =>
    intro st h
    rw [List.foldl_cons]
    exact ih _ (applyRowStep_ok _ _ _ _ _ _ _ _ h)

/-- No group produced by `apply_ai_grouping_plan` triggers the validator's
duplicate-sub-group-name flag. -/
theorem apply_plan_dup_false (df : DataFrame) (plan : GroupingPlan) (mc sc : Option String) :
    ∀ p ∈ (apply_ai_grouping_plan df plan mc sc).enum, (vGroupRun p).dup = false := by
  intro p hp
  obtain ⟨i, pv⟩ := p
  cases mc with
  | none =>
    simp only [apply_ai_grouping_plan, List.enum, List.enumFrom] at hp
    exact absurd hp (List.not_mem_nil _)
  | some m =>
    simp only [apply_ai_grouping_plan] at hp
    split at hp
    · simp only [List.enum] at hp
      have h2 := enumFrom_snd_mem 0 _ _ hp
      dsimp only at h2
      rw [List.mem_map] at h2
      obtain ⟨kv, hkv, hout⟩ := h2
      subst hout
      refine vGroupRun_gaccum_dup i kv.2 ?_
      exact foldl_applyRowStep_ok m sc _ _ plan.main_group_mappings
        plan.sub_group_mappings _ ([], 0)
        (fun x hx => absurd hx (List.not_mem_nil x)) kv hkv
    · simp only [List.enum, List.enumFrom] at hp
      exact absurd hp (List.not_mem_nil _)

/-- The validator accepts every plan application. -/
theorem validate_apply_plan_ok (df : DataFrame) (plan : GroupingPlan)
    (mc sc : Option String) (t : Int) :
    (validate_and_count_groups (apply_ai_grouping_plan df plan mc sc) t).2.is_valid = true := by
  rw [validate_eq]
  dsimp only
  rw [List.all_eq_true]
  intro p hp
  rw [apply_plan_dup_false df plan mc sc p hp]
  rfl

/-- The validator's grouped and ungrouped record counts always sum to its
reported total. -/
theorem validate_counts_sum (groups : List MainGroup) (t : Int) :
    (validate_and_count_groups groups t).2.counts.grouped_records +
      (validate_and_count_groups groups t).2.counts.ungrouped_records =
      (validate_and_count_groups groups t).2.counts.total_rows := by
  rw [validate_eq]
  dsimp only
  omega

/-- The validator echoes the caller's row total. -/
theorem validate_total_rows (groups : List MainGroup) (t : Int) :
    (validate_and_count_groups groups t).2.counts.total_rows = t := by
  rw [validate_eq]

/-- C2: on any oracle failure (the `error` outcome covering network,
authentication, rate-limit and malformed-JSON failures, or a parsed
response missing a required key) `create_ai_grouping_plan` returns the
deterministic fallback plan, whose main-mapping side has a group keyed by
the cleaned form of every distinct value; and with an always-raising
oracle, `generate_ai_powered_groups_from_columns` still returns a result
with `is_valid = true` and full row coverage
(`grouped_items + ungrouped_count = total_items = row count`). -/
theorem claim_C2 :
    (∀ (e : String) (m : List String) (mc : List Int) (s : List String) (sc : List Int),
       create_ai_grouping_plan (Except.error e) m mc s sc =
         create_fallback_grouping_plan m mc s sc) ∧
    (∀ (raw : RawPlan) (m : List String) (mc : List Int) (s : List String) (sc : List Int),
       (raw.main_group_mappings = Option.none ∨ raw.sub_group_mappings = Option.none ∨
         raw.grouping_strategy = Option.none) →
       create_ai_grouping_plan (Except.ok raw) m mc s sc =
         create_fallback_grouping_plan m mc s sc) ∧
    (∀ (m : List String) (mc : List Int) (s : List String) (sc : List Int) (v : String),
       v ∈ m →
       ((create_fallback_grouping_plan m mc s sc).main_group_mappings.lookup
         (clean_group_name v)).isSome = true) ∧
    (∀ (e : String) (df : DataFrame) (mcol scol : Option String),
       records_savings_ok df = true →
       ∃ r, generate_ai_powered_groups_from_columns (Except.error e) df mcol scol = some r ∧
         r.is_valid = true ∧ r.grouped_items + r.ungrouped_count = r.total_items ∧
         r.total_items = (df.rows.length : Int)) := by
  refine ⟨fun e m mc s sc => rfl, ?_, ?_, ?_⟩
  · intro raw m mc s sc h
    obtain ⟨rm, rs, rg⟩ := raw
    cases rm <;> cases rs <;> cases rg <;> simp_all [create_ai_grouping_plan]
  · intro m mc s sc v hv
    apply lookup_isSome_of_key_mem
    apply foldl_upsert_key
    obtain ⟨i, hi⟩ := mem_enumFrom_of_mem v 0 m hv
    exact Or.inr ⟨(i, v), hi, rfl⟩
  · intro e df mcol scol hsav
    simp only [generate_ai_powered_groups_from_columns]
    rw [savings_records, if_pos hsav]
    refine ⟨_, rfl, ?_, ?_, ?_⟩
    · dsimp only
      exact validate_apply_plan_ok _ _ _ _ _
    · dsimp only
      exact validate_counts_sum _ _
    · dsimp only
      exact validate_total_rows _ _

theorem claim_C2_witness :
    create_ai_grouping_plan
        (Except.ok ⟨Option.none, Option.none, Option.none⟩) ["A"] [1] [] [] =
      create_fallback_grouping_plan ["A"] [1] [] [] ∧
    ((create_fallback_grouping_plan ["Apple"] [2] [] []).main_group_mappings.lookup
      (clean_group_name "Apple")).isSome = true ∧
    (∃ r, generate_ai_powered_groups_from_columns (Except.error "boom")
        (⟨["c"], [[("c", some "x")]]⟩ : DataFrame) (some "c") Option.none = some r ∧
      r.is_valid = true ∧ r.grouped_items + r.ungrouped_count = r.total_items ∧
      r.total_items = (((⟨["c"], [[("c", some "x")]]⟩ : DataFrame)).rows.length : Int)) :=
  ⟨claim_C2.2.1 ⟨Option.none, Option.none, Option.none⟩ ["A"] [1] [] [] (Or.inl rfl),
   claim_C2.2.2.1 ["Apple"] [2] [] [] "Apple" (by decide),
   claim_C2.2.2.2 "boom" (⟨["c"], [[("c", some "x")]]⟩ : DataFrame) (some "c") Option.none
     (by decide)⟩

/-! ## Chunked-pipeline accounting (C1) -/

theorem subperm_append {α : Type _} {a b c d : List α} (h1 : a.Subperm b)
    (h2 : c.Subperm d) : (a ++ c).Subperm (b ++ d) := by
  obtain ⟨l1, hp1, hs1⟩ := h1
  obtain ⟨l2, hp2, hs2⟩ := h2
  exact ⟨l1 ++ l2, hp1.append hp2, hs1.append hs2⟩

theorem subperm_map {α β : Type _} (f : α → β) {a b : List α} (h : a.Subperm b) :
    (a.map f).Subperm (b.map f) := by
  obtain ⟨l, hp, hs⟩ := h
  exact ⟨l.map f, hp.map f, hs.map f⟩

theorem subperm_nodup {α : Type _} {a b : List α} (h : a.Subperm b) (hb : b.Nodup) :
    a.Nodup := by
  obtain ⟨l, hp, hs⟩ := h
  exact hp.nodup (hs.nodup hb)

theorem nodup_of_mem_flatten {α : Type _} :
    ∀ (L : List (List α)), L.flatten.Nodup → ∀ l ∈ L, l.Nodup := by
  intro L h l hl
  induction L with
  | nil => simp at hl
  | cons x xs ih =>
    rw [List.flatten_cons] at h
    rcases List.mem_cons.mp hl with rfl | hl'
    · exact h.of_append_left
    · exact ih h.of_append_right hl'

theorem forall2_map_map {α β γ : Type _} (R : List β → List γ → Prop) (l : List α)
    (f : α → List β) (g : α → List γ) (h : ∀ a ∈ l, R (f a) (g a)) :
    List.Forall₂ R (l.map f) (l.map g) := by
  induction l with
  | nil => exact List.Forall₂.nil
  | cons a rest ih =>
    exact List.Forall₂.cons (h a (List.mem_cons_self _ _))
      (ih (fun x hx => h x (List.mem_cons_of_mem _ hx)))

theorem flatten_subperm_of_forall2 {α : Type _} :
    ∀ {A B : List (List α)}, List.Forall₂ (fun x y => List.Subperm x y) A B →
      A.flatten.Subperm B.flatten := by
  intro A B h
  induction h with
  | nil => exact List.Subperm.refl []
  | cons h1 _ ih =>
    rw [List.flatten_cons, List.flatten_cons]
    exact subperm_append h1 ih

theorem flatten_perm_of_forall2 {α : Type _} :
    ∀ {A B : List (List α)}, List.Forall₂ (fun x y => List.Perm x y) A B →
      A.flatten.Perm B.flatten := by
  intro A B h
  induction h with
  | nil => exact List.Perm.refl []
  | cons h1 _ ih =>
    rw [List.flatten_cons, List.flatten_cons]
    exact h1.append ih

theorem flatten_sublist_of_sublist {α : Type _} :
    ∀ {A B : List (List α)}, A.Sublist B → A.flatten.Sublist B.flatten := by
  intro A B h
  induction h with
  | slnil => exact List.Sublist.refl []
  | cons x _ ih =>
    rw [List.flatten_cons]
    exact ih.trans (List.sublist_append_right x _)
  | cons₂ x _ ih =>
    rw [List.flatten_cons, List.flatten_cons]
    exact (List.append_sublist_append_left x).mpr ih

theorem inj_of_nodup_map {α β : Type _} (f : α → β) :
    ∀ (l : List α), ((l.map f).Nodup) → ∀ {x y : α}, x ∈ l → y ∈ l → f x = f y → x = y := by
  intro l
  induction l with
  | nil => intro _ x y hx; simp at hx
  | cons a rest ih =>
    intro h x y hx hy he
    rw [List.map_cons, List.nodup_cons] at h
    rcases List.mem_cons.mp hx with rfl | hx' <;> rcases List.mem_cons.mp hy with rfl | hy'
    · rfl
    · exact absurd (he ▸ List.mem_map_of_mem f hy') h.1
    · exact absurd (he ▸ List.mem_map_of_mem f hx') (by rw [← he] at h ⊢; exact h.1)
    · exact ih h.2 hx' hy' he

theorem length_filter_mem (l s : List String) (hl : l.Nodup) (hs : s.Nodup)
    (hsub : ∀ a ∈ s, a ∈ l) :
    (l.filter (fun a => s.contains a)).length = s.length := by
  have hfn : (l.filter (fun a => s.contains a)).Nodup := hl.filter _
  have hset : (l.filter (fun a => s.contains a)).toFinset = s.toFinset := by
    ext a
    simp only [List.mem_toFinset, List.mem_filter, List.elem_iff]
    exact ⟨fun h => h.2, fun h => ⟨hsub a h, h⟩⟩
  calc (l.filter (fun a => s.contains a)).length
      = (l.filter (fun a => s.contains a)).toFinset.card :=
        (List.toFinset_card_of_nodup hfn).symm
    _ = s.toFinset.card := by rw [hset]
    _ = s.length := List.toFinset_card_of_nodup hs

theorem length_diff_of_sublist {α : Type _} [DecidableEq α] :
    ∀ {sel l : List α}, sel.Sublist l → (l.diff sel).length = l.length - sel.length := by
  intro sel
  induction sel with
  | nil => intro l _; simp
  | cons x sel' ih =>
    intro l h
    rw [List.diff_cons]
    have hx : x ∈ l := h.subset (List.mem_cons_self _ _)
    have h' : sel'.Sublist (l.erase x) := by
      have := h.erase x
      rwa [List.erase_cons_head] at this
    rw [ih h', List.length_erase_of_mem hx, List.length_cons]
    omega

/-- All values of a name-keyed `defaultdict(list)`, in key order. -/
def valsFlat {β : Type} (l : List (String × List β)) : List β := (l.map Prod.snd).flatten

theorem valsFlat_nil {β : Type} : valsFlat ([] : List (String × List β)) = [] := rfl

theorem valsFlat_cons {β : Type} (kv : String × List β) (rest : List (String × List β)) :
    valsFlat (kv :: rest) = kv.2 ++ valsFlat rest := by
  simp [valsFlat]

theorem valsFlat_append {β : Type} (a b : List (String × List β)) :
    valsFlat (a ++ b) = valsFlat a ++ valsFlat b := by
  simp [valsFlat]

theorem keys_map_extend {β : Type} (l : List (String × List β)) (k : String) (vs : List β) :
    ((l.map (fun kv => if kv.1 = k then (kv.1, kv.2 ++ vs) else kv)).map Prod.fst) =
      l.map Prod.fst := by
  rw [List.map_map]
  apply List.map_congr_left
  intro kv _
  by_cases h : kv.1 = k <;> simp [h]

theorem map_extend_id {β : Type} (l : List (String × List β)) (k : String) (vs : List β)
    (h : ∀ kv ∈ l, kv.1 ≠ k) :
    l.map (fun kv => if kv.1 = k then (kv.1, kv.2 ++ vs) else kv) = l := by
  rw [List.map_congr_left (fun kv hkv => if_neg (h kv hkv)), List.map_id']

theorem valsFlat_extend_mem {β : Type} :
    ∀ (l : List (String × List β)) (k : String) (vs : List β),
      ((l.map Prod.fst).Nodup) → l.any (fun kv => kv.1 = k) = true →
      (valsFlat (l.map (fun kv => if kv.1 = k then (kv.1, kv.2 ++ vs) else kv))).Perm
        (valsFlat l ++ vs) := by
  intro l k vs hnd hany
  induction l with
  | nil => simp at hany
  | cons kv rest ih =>
    rw [List.map_cons, List.nodup_cons] at hnd
    by_cases he : kv.1 = k
    · rw [List.map_cons, if_pos he, map_extend_id rest k vs
        (fun kv' hkv' hek => hnd.1 (he ▸ hek ▸ List.mem_map_of_mem Prod.fst hkv'))]
      rw [valsFlat_cons, valsFlat_cons]
      dsimp only
      rw [List.append_assoc, List.append_assoc]
      exact List.Perm.append_left kv.2 (List.perm_append_comm)
    · rw [List.map_cons, if_neg he]
      have hany' : rest.any (fun kv => kv.1 = k) = true := by
        rcases List.any_eq_true.mp hany with ⟨x, hx, hxe⟩
        rcases List.mem_cons.mp hx with rfl | hx'
        · exact absurd (by simpa using hxe) he
        · exact List.any_eq_true.mpr ⟨x, hx', hxe⟩
      have := ih hnd.2 hany'
      rw [valsFlat_cons, valsFlat_cons, List.append_assoc]
      exact this.append_left kv.2

theorem valsFlat_assocExtend {β : Type} (l : List (String × List β)) (k : String)
    (vs : List β) (hnd : (l.map Prod.fst).Nodup) :
    (valsFlat (assocExtend l k vs)).Perm (valsFlat l ++ vs) := by
  rw [assocExtend]
  split
  · next hany => exact valsFlat_extend_mem l k vs hnd hany
  · rw [valsFlat_append, valsFlat_cons, valsFlat_nil, List.append_nil]

theorem assocExtend_keys_nodup {β : Type} (l : List (String × List β)) (k : String)
    (vs : List β) (hnd : (l.map Prod.fst).Nodup) :
    ((assocExtend l k vs).map Prod.fst).Nodup := by
  rw [assocExtend]
  split
  · rw [keys_map_extend]
    exact hnd
  · next hany =>
    rw [List.map_append]
    refine List.Nodup.append hnd (by simp) ?_
    intro a ha hb
    simp only [List.map_cons, List.map_nil, List.mem_singleton] at hb
    subst hb
    rw [List.mem_map] at ha
    obtain ⟨kv, hkv, hfst⟩ := ha
    exact hany (List.any_eq_true.mpr ⟨kv, hkv, by simp [hfst]⟩)

/-- One step of the `type_analysis` accumulation of `process_chunk_data`. -/
def taStep (acc : List (String × List TypedItem)) (it : PItem) :
    List (String × List TypedItem) :=
  let r := extract_core_product_type (it.name.getD "")
  if r.2.2 > 3 / 10 then assocExtend acc r.1 [⟨it, r.2.2, r.2.1⟩] else acc

/-- Does an item pass the classification confidence gate? -/
def taKeep (it : PItem) : Bool := (extract_core_product_type (it.name.getD "")).2.2 > 3 / 10

/-- The typed record an item contributes. -/
def taTyped (it : PItem) : TypedItem :=
  ⟨it, (extract_core_product_type (it.name.getD "")).2.2,
    (extract_core_product_type (it.name.getD "")).2.1⟩

/-- The multiset of typed records a chunk's items contribute. -/
def taSel (items : List PItem) : List TypedItem := (items.filter taKeep).map taTyped

theorem foldl_taStep (items : List PItem) :
    ∀ (acc : List (String × List TypedItem)), ((acc.map Prod.fst).Nodup) →
      (((items.foldl taStep acc).map Prod.fst).Nodup ∧
       (valsFlat (items.foldl taStep acc)).Perm (valsFlat acc ++ taSel items)) := by
  induction items with
  | nil =>
    intro acc hnd
    exact ⟨hnd, by simp [taSel]⟩
  | cons it rest ih =>
    intro acc hnd
    rw [List.foldl_cons]
    by_cases hk : (extract_core_product_type (it.name.getD "")).2.2 > 3 / 10
    · have hstep : taStep acc it = assocExtend acc
          (extract_core_product_type (it.name.getD "")).1 [taTyped it] := by
        rw [taStep, if_pos hk]
        rfl
      rw [hstep]
      have hnd' := assocExtend_keys_nodup acc
        (extract_core_product_type (it.name.getD "")).1 [taTyped it] hnd
      obtain ⟨ihnd, ihperm⟩ := ih _ hnd'
      refine ⟨ihnd, ?_⟩
      have hsel : taSel (it :: rest) = taTyped it :: taSel rest := by
        rw [taSel, List.filter_cons, if_pos (by exact decide_eq_true hk), List.map_cons]
        rfl
      rw [hsel]
      have hext := valsFlat_assocExtend acc
        (extract_core_product_type (it.name.getD "")).1 [taTyped it] hnd
      refine ihperm.trans ?_
      have := hext.append_right (taSel rest)
      refine this.trans ?_
      rw [List.append_assoc, List.singleton_append]
    · have hstep : taStep acc it = acc := by
        rw [taStep, if_neg hk]
      rw [hstep]
      obtain ⟨ihnd, ihperm⟩ := ih acc hnd
      refine ⟨ihnd, ?_⟩
      have hsel : taSel (it :: rest) = taSel rest := by
        rw [taSel, List.filter_cons, if_neg (by simpa [taKeep] using hk)]
        rfl
      rw [hsel]
      exact ihperm

theorem foldl_pairsExtend {β : Type} (l : List (String × List β)) :
    ∀ (acc : List (String × List β)), ((acc.map Prod.fst).Nodup) →
      (((l.foldl (fun acc kv => assocExtend acc kv.1 kv.2) acc).map Prod.fst).Nodup ∧
       (valsFlat (l.foldl (fun acc kv => assocExtend acc kv.1 kv.2) acc)).Perm
         (valsFlat acc ++ valsFlat l)) := by
  induction l with
  | nil =>
    intro acc hnd
    exact ⟨hnd, by simp [valsFlat]⟩
  | cons kv rest ih =>
    intro acc hnd
    rw [List.foldl_cons]
    have hnd' := assocExtend_keys_nodup acc kv.1 kv.2 hnd
    obtain ⟨ihnd, ihperm⟩ := ih _ hnd'
    refine ⟨ihnd, ?_⟩
    rw [valsFlat_cons]
    have hext := valsFlat_assocExtend acc kv.1 kv.2 hnd
    refine ihperm.trans ?_
    have := hext.append_right (valsFlat rest)
    refine this.trans ?_
    rw [List.append_assoc]

theorem foldl_mergeStep (crs : List ChunkResult) :
    ∀ (acc : List (String × List TypedItem)), ((acc.map Prod.fst).Nodup) →
      (((crs.foldl (fun acc c => c.type_analysis.foldl
          (fun acc kv => assocExtend acc kv.1 kv.2) acc) acc).map Prod.fst).Nodup ∧
       (valsFlat (crs.foldl (fun acc c => c.type_analysis.foldl
          (fun acc kv => assocExtend acc kv.1 kv.2) acc) acc)).Perm
         (valsFlat acc ++ (crs.map (fun c => valsFlat c.type_analysis)).flatten)) := by
  induction crs with
  | nil =>
    intro acc hnd
    exact ⟨hnd, by simp⟩
  | cons c rest ih =>
    intro acc hnd
    rw [List.foldl_cons]
    obtain ⟨pnd, pperm⟩ := foldl_pairsExtend c.type_analysis acc hnd
    obtain ⟨ihnd, ihperm⟩ := ih _ pnd
    refine ⟨ihnd, ?_⟩
    rw [List.map_cons, List.flatten_cons]
    refine ihperm.trans ?_
    have := pperm.append_right ((rest.map (fun c => valsFlat c.type_analysis)).flatten)
    refine this.trans ?_
    rw [List.append_assoc]

/-- Total number of items across a sub-group dict of the chunked
pipeline. -/
def subSum (subs : List (String × FSubGroup)) : Nat :=
  (subs.map (fun kv => kv.2.fsItems.length)).sum

theorem subSum_append_single (l : List (String × FSubGroup)) (kv : String × FSubGroup) :
    subSum (l ++ [kv]) = subSum l + kv.2.fsItems.length := by
  simp [subSum]

theorem removeFirst_eq_erase {α : Type} [DecidableEq α] :
    ∀ (l : List α) (x : α), removeFirst l x = l.erase x := by
  intro l x
  induction l with
  | nil => rfl
  | cons y ys ih =>
    rw [removeFirst, List.erase_cons]
    by_cases h : y = x
    · rw [if_pos h, if_pos (beq_iff_eq.mpr h)]
    · rw [if_neg h, if_neg (by simpa using h), ih]

theorem foldl_removeFirst_eq_diff {α : Type} [DecidableEq α] :
    ∀ (sel l : List α), List.foldl removeFirst l sel = l.diff sel := by
  intro sel
  induction sel with
  | nil => intro l; simp
  | cons x sel' ih =>
    intro l
    rw [List.foldl_cons, ih, removeFirst_eq_erase, List.diff_cons]

theorem absorbScan_decomp (τ : ℚ) (seed : PItem) :
    ∀ (rest : List PItem) (st : List PItem × List String),
      ∃ sel : List PItem,
        rest.foldl
          (fun (st : List PItem × List String) it =>
            if (it.id.getD "") ∈ st.2 then st
            else if calculate_product_similarity ⟨seed.name, seed.category⟩
                ⟨it.name, it.category⟩ ≥ τ
            then (st.1 ++ [it], st.2 ++ [it.id.getD ""])
            else st) st =
          (st.1 ++ sel, st.2 ++ sel.map (fun it => it.id.getD "")) ∧ sel.Sublist rest := by
  intro rest
  induction rest with
  | nil =>
    intro st
    exact ⟨[], by simp, List.Sublist.refl []⟩
  | cons it rest' ih =>
    intro st
    rw [List.foldl_cons]
    by_cases h1 : (it.id.getD "") ∈ st.2
    · obtain ⟨sel, heq, hsub⟩ := ih st
      refine ⟨sel, ?_, hsub.cons it⟩
      rw [if_pos h1]
      exact heq
    · by_cases h2 : calculate_product_similarity ⟨seed.name, seed.category⟩
          ⟨it.name, it.category⟩ ≥ τ
      · obtain ⟨sel, heq, hsub⟩ := ih (st.1 ++ [it], st.2 ++ [it.id.getD ""])
        refine ⟨it :: sel, ?_, hsub.cons₂ it⟩
        rw [if_neg h1, if_pos h2, heq]
        simp
      · obtain ⟨sel, heq, hsub⟩ := ih st
        refine ⟨sel, ?_, hsub.cons it⟩
        rw [if_neg h1, if_neg h2]
        exact heq

theorem absorbScan_eq (τ : ℚ) (seed : PItem) (rest : List PItem) (a0 : List String) :
    ∃ sel : List PItem,
      absorbScan τ seed rest a0 = (sel, a0 ++ sel.map (fun it => it.id.getD "")) ∧
        sel.Sublist rest := by
  obtain ⟨sel, heq, hsub⟩ := absorbScan_decomp τ seed rest ([], a0)
  refine ⟨sel, ?_, hsub⟩
  rw [absorbScan, heq]
  simp

theorem clusterGoF_sum (τ : ℚ) :
    ∀ (fuel : Nat) (rem : List PItem) (assigned : List String)
      (acc : List (String × FSubGroup)) (nid : Nat),
      rem.length ≤ fuel →
      ((rem.map (fun it => it.id.getD "")).Nodup) →
      (∀ it ∈ rem, (it.id.getD "") ∉ assigned) →
      subSum (clusterGoF τ fuel rem assigned acc nid).1 = subSum acc + rem.length := by
  intro fuel
  induction fuel with
  | zero =>
    intro rem assigned acc nid hlen _ _
    match rem, hlen with
    | [], _ => rfl
  | succ f ih =>
    intro rem assigned acc nid hlen hnd hdisj
    match rem with
    | [] => rfl
    | seed :: rest =>
      rw [clusterGoF]
      rw [if_neg (hdisj seed (List.mem_cons_self _ _))]
      obtain ⟨sel, hA, hsel⟩ :=
        absorbScan_eq τ seed rest (assigned ++ [seed.id.getD ""])
      dsimp only
      rw [hA]
      dsimp only
      rw [foldl_removeFirst_eq_diff]
      rw [List.map_cons, List.nodup_cons] at hnd
      have hrestel : rest.Nodup := List.Nodup.of_map _ hnd.2
      have hdiffsub : (rest.diff sel).Sublist rest := List.diff_sublist rest sel
      have hnd' : (((rest.diff sel).map (fun it => it.id.getD "")).Nodup) :=
        (hdiffsub.map _).nodup hnd.2
      have hdisj' : ∀ x ∈ rest.diff sel, (x.id.getD "") ∉
          (assigned ++ [seed.id.getD ""]) ++ sel.map (fun it => it.id.getD "") := by
        intro x hx hmem
        obtain ⟨hxr, hxs⟩ := (List.Nodup.mem_diff_iff hrestel).mp hx
        rcases List.mem_append.mp hmem with hm | hm
        · rcases List.mem_append.mp hm with hm' | hm'
          · exact hdisj x (List.mem_cons_of_mem _ hxr) hm'
          · have he : (x.id.getD "") = (seed.id.getD "") := by simpa using hm'
            exact hnd.1 (he ▸ List.mem_map_of_mem _ hxr)
        · rw [List.mem_map] at hm
          obtain ⟨s, hs, hse⟩ := hm
          have : s = x := inj_of_nodup_map _ rest hnd.2 (hsel.subset hs) hxr hse
          exact hxs (this ▸ hs)
      rw [ih (rest.diff sel) _ _ (nid + 1)
        (by have := hdiffsub.length_le; simp only [List.length_cons] at hlen; omega)
        hnd' hdisj']
      rw [subSum_append_single, length_diff_of_sublist hsel]
      have hselle := hsel.length_le
      simp only [List.length_cons]
      omega

/-- Clustering partitions a list of distinct-id items: the sub-group
sizes sum to the item count. -/
theorem create_sub_groups_sum (items : List PItem) (nid : Nat) (τ : ℚ)
    (h : ((items.map (fun it => it.id.getD "")).Nodup)) :
    subSum (create_sub_groups_from_items items nid τ).1 = items.length := by
  rw [create_sub_groups_from_items]
  have hsum := clusterGoF_sum τ items.length items [] [] nid le_rfl h
    (by intro it _ hmem; simp at hmem)
  split
  · simp [subSum]
  · dsimp only
    split
    · simp [subSum]
    · next heq =>
      show subSum (clusterGo τ items [] [] nid).1 = items.length
      rw [clusterGo, hsum, subSum]
      simp

/-- One step of the main-group construction fold of
`create_final_groups_from_analysis`. -/
def buildStep (st : List (String × FMainGroup) × Nat) (kv : String × Candidate) :
    List (String × FMainGroup) × Nat :=
  let group_id := genId st.2
  let display_name := pyTitle (underscoresToSpaces kv.1)
  let group_items := kv.2.citems.map (fun t => t.item)
  let (subs, nid) := create_sub_groups_from_items group_items (st.2 + 1)
  (st.1 ++ [(group_id,
    { fmId := group_id
      fmName := display_name
      fmEnabled := true
      fmSubGroups := subs
      fmTotalItems := group_items.length
      fmEstimatedSavings := calculate_estimated_savings group_items })], nid)

/-- Total number of items across the sub-groups of the accumulated main
groups. -/
def fmSum (l : List (String × FMainGroup)) : Nat :=
  (l.map (fun kv => subSum kv.2.fmSubGroups)).sum

theorem fmSum_append_single (l : List (String × FMainGroup)) (kv : String × FMainGroup) :
    fmSum (l ++ [kv]) = fmSum l + subSum kv.2.fmSubGroups := by
  simp [fmSum]

theorem foldl_buildStep_sum (mgs : List (String × Candidate)) :
    ∀ (st : List (String × FMainGroup) × Nat),
      (∀ kv ∈ mgs, ((kv.2.citems.map (fun t => t.item.id.getD "")).Nodup)) →
      fmSum ((mgs.foldl buildStep st).1) =
        fmSum st.1 + (mgs.map (fun kv => kv.2.citems.length)).sum := by
  induction mgs with
  | nil => intro st _; simp
  | cons kv rest ih =>
    intro st h
    rw [List.foldl_cons,
      ih _ (fun x hx => h x (List.mem_cons_of_mem _ hx))]
    have hstep : fmSum (buildStep st kv).1 = fmSum st.1 + kv.2.citems.length := by
      rcases he : create_sub_groups_from_items (kv.2.citems.map (fun t => t.item))
          (st.2 + 1) with ⟨subs, nid⟩
      have hsubs : subs = (create_sub_groups_from_items
          (kv.2.citems.map (fun t => t.item)) (st.2 + 1)).1 := by rw [he]
      have hnd : (((kv.2.citems.map (fun t => t.item)).map
          (fun it => it.id.getD "")).Nodup) := by
        rw [List.map_map]
        exact h kv (List.mem_cons_self _ _)
      rw [buildStep]
      dsimp only
      rw [he]
      dsimp only
      rw [fmSum_append_single]
      dsimp only
      rw [hsubs, create_sub_groups_sum _ _ _ hnd, List.length_map]
    rw [hstep, List.map_cons, List.sum_cons]
    omega

/-- The sample `process_chunk_data` works on. -/
def sampleOf (sampler : Sampler) (chunk : List IRow) : List IRow :=
  if chunk.length > 100 then sampler 100 chunk else chunk

/-- A sampler that behaves like pandas `DataFrame.sample(n)`: it returns
`min n len` rows, all drawn (without replacement) from the frame. -/
def goodSampler (sampler : Sampler) : Prop :=
  ∀ (n : Nat) (l : List IRow), (sampler n l).length = min n l.length ∧ (sampler n l).Subperm l

theorem sampleOf_length (sampler : Sampler) (hs : goodSampler sampler) (c : List IRow) :
    (sampleOf sampler c).length = min c.length 100 := by
  rw [sampleOf]
  split
  · next h =>
    rw [(hs 100 c).1]
    omega
  · next h => omega

theorem sampleOf_subperm (sampler : Sampler) (hs : goodSampler sampler) (c : List IRow) :
    (sampleOf sampler c).Subperm c := by
  rw [sampleOf]
  split
  · exact (hs 100 c).2
  · exact List.Subperm.refl c

theorem process_chunk_items_eq (sampler : Sampler) (chunk : List IRow) (i : Nat) :
    (process_chunk_data sampler chunk i).items =
      (sampleOf sampler chunk).map (chunkRowItem i) := rfl

theorem process_chunk_ta_eq (sampler : Sampler) (chunk : List IRow) (i : Nat) :
    (process_chunk_data sampler chunk i).type_analysis =
      ((sampleOf sampler chunk).map (chunkRowItem i)).foldl taStep [] := rfl

theorem chunkifyF_flatten {α : Type} (k : Nat) (hk : k ≠ 0) :
    ∀ (fuel : Nat) (l : List α), l.length ≤ fuel → (chunkifyF k fuel l).flatten = l := by
  intro fuel
  induction fuel with
  | zero =>
    intro l hl
    match l, hl with
    | [], _ => rfl
  | succ f ih =>
    intro l hl
    match l with
    | [] => rfl
    | x :: xs =>
      rw [chunkifyF, if_neg hk, List.flatten_cons, ih _ ?_, List.take_append_drop]
      rw [List.length_drop]
      simp only [List.length_cons] at hl ⊢
      omega

theorem chunkify_flatten {α : Type} (k : Nat) (hk : k ≠ 0) (l : List α) :
    (chunkify k l).flatten = l :=
  chunkifyF_flatten k hk l.length l le_rfl

/-- The chunk list of the chunked pipeline. -/
def chunksOf (df : DataFrame) : List (List IRow) := chunkify 1000 df.rows.enum

/-- The chunk results of the chunked pipeline. -/
def crsOf (sampler : Sampler) (df : DataFrame) : List ChunkResult :=
  (chunksOf df).enum.map (fun p => process_chunk_data sampler p.2 p.1)

/-- Number of rows that survive the 100-row-per-chunk sampling. -/
def sampledCount (df : DataFrame) : Nat :=
  ((chunksOf df).map (fun c => min c.length 100)).sum

/-- Total item count across every sub-group of every main group of the
chunked pipeline's output. -/
def fgGroupedCount (fg : FinalGroups) : Nat :=
  (fg.main_groups.map (fun kv => (kv.2.fmSubGroups.map (fun s => s.2.fsItems.length)).sum)).sum

theorem merge_all_items_eq (crs : List ChunkResult) :
    (merge_chunk_analyses crs).all_items = (crs.map (fun c => c.items)).flatten := rfl

/-- The values flattened over the fully merged type dictionary. -/
def combinedOf (crs : List ChunkResult) : List (String × List TypedItem) :=
  crs.foldl (fun acc c => c.type_analysis.foldl
    (fun acc kv => assocExtend acc kv.1 kv.2) acc) []

/-- The promoted candidates in dictionary order. -/
def candidatesOf (crs : List ChunkResult) : List (String × Candidate) :=
  (combinedOf crs).filterMap
    (fun kv =>
      if kv.2.length ≥ 3 then
        some (kv.1,
          ({ citems := kv.2, ccount := kv.2.length,
             avg_confidence := ((kv.2.map (fun t => t.confidence)).sum) / (kv.2.length : ℚ) }
            : Candidate))
      else Option.none)

theorem merge_main_groups_eq (crs : List ChunkResult) :
    (merge_chunk_analyses crs).main_groups =
      (candidatesOf crs).foldl (fun acc x => insDescCand x acc) [] := rfl

theorem final_main_eq (m : MergedAnalysis) :
    (create_final_groups_from_analysis m).main_groups =
      (m.main_groups.foldl buildStep ([], 0)).1 := rfl

theorem final_ungrouped_eq (m : MergedAnalysis) :
    (create_final_groups_from_analysis m).ungrouped_items =
      m.all_items.filter (fun it =>
        !((m.main_groups.map (fun kv => kv.2.citems.map (fun t => t.item.id.getD ""))).flatten.contains
          (it.id.getD ""))) := rfl

theorem gen_intelligent_ok (sampler : Sampler) (df : DataFrame) (fg : FinalGroups)
    (h : generate_intelligent_groups sampler df = Except.ok fg) :
    fg = create_final_groups_from_analysis (merge_chunk_analyses (crsOf sampler df)) := by
  rw [generate_intelligent_groups] at h
  split at h
  · exact absurd h (by simp)
  · split at h
    · exact absurd h (by simp)
    · dsimp only at h
      split at h
      · exact absurd h (by simp)
      · exact (Except.ok.inj h).symm

theorem enum_map_comp {α β : Type _} (l : List α) (f : α → β) :
    l.enum.map (fun p => f p.2) = l.map f := by
  have h : (fun p : Nat × α => f p.2) = f ∘ Prod.snd := rfl
  rw [h, ← List.map_map, List.enum_map_snd]

theorem crs_items_map (sampler : Sampler) (df : DataFrame) :
    (crsOf sampler df).map (fun c => c.items) =
      (chunksOf df).enum.map (fun p => (sampleOf sampler p.2).map (chunkRowItem p.1)) := by
  rw [crsOf, List.map_map]
  rfl

theorem allIds_eq (sampler : Sampler) (df : DataFrame) :
    (merge_chunk_analyses (crsOf sampler df)).all_items.map (fun it => it.id.getD "") =
      ((chunksOf df).enum.map
        (fun p => (sampleOf sampler p.2).map (fun q => natDec q.1))).flatten := by
  rw [merge_all_items_eq, crs_items_map, List.map_flatten]
  congr 1
  rw [List.map_map]
  apply List.map_congr_left
  intro p _
  rw [Function.comp_apply, List.map_map]
  rfl

theorem chunk_ids_nodup (df : DataFrame) :
    ((chunksOf df).map (fun c => c.map (fun q : IRow => natDec q.1))).flatten.Nodup := by
  rw [← List.map_flatten, chunksOf, chunkify_flatten 1000 (by omega)]
  have h : df.rows.enum.map (fun q => natDec q.1) =
      (df.rows.enum.map Prod.fst).map natDec := by
    rw [List.map_map]
    rfl
  rw [h, List.enum_map_fst]
  exact (List.nodup_range _).map natDec_injective

theorem allIds_nodup (sampler : Sampler) (df : DataFrame) (hs : goodSampler sampler) :
    ((merge_chunk_analyses (crsOf sampler df)).all_items.map
      (fun it => it.id.getD "")).Nodup := by
  rw [allIds_eq]
  refine subperm_nodup ?_ (chunk_ids_nodup df)
  have hch : (chunksOf df).map (fun c => c.map (fun q : IRow => natDec q.1)) =
      (chunksOf df).enum.map (fun p => p.2.map (fun q : IRow => natDec q.1)) :=
    (enum_map_comp _ _).symm
  rw [hch]
  refine flatten_subperm_of_forall2 (forall2_map_map _ _ _ _ ?_)
  intro p _
  exact subperm_map _ (sampleOf_subperm sampler hs p.2)

theorem all_items_length (sampler : Sampler) (df : DataFrame) (hs : goodSampler sampler) :
    (merge_chunk_analyses (crsOf sampler df)).all_items.length = sampledCount df := by
  rw [merge_all_items_eq, crs_items_map, List.length_flatten, List.map_map, sampledCount,
    ← enum_map_comp (chunksOf df) (fun c => min c.length 100)]
  congr 1
  apply List.map_congr_left
  intro p _
  show ((sampleOf sampler p.2).map (chunkRowItem p.1)).length = min p.2.length 100
  rw [List.length_map, sampleOf_length sampler hs]

theorem taSel_ids_sublist (items : List PItem) :
    ((taSel items).map (fun t => t.item.id.getD "")).Sublist
      (items.map (fun it => it.id.getD "")) := by
  rw [taSel, List.map_map]
  have h : ((fun t : TypedItem => t.item.id.getD "") ∘ taTyped) =
      (fun it : PItem => it.id.getD "") := rfl
  rw [h]
  exact (List.filter_sublist items).map _

theorem combined_vals (crs : List ChunkResult) :
    (((combinedOf crs).map Prod.fst).Nodup) ∧
    (valsFlat (combinedOf crs)).Perm
      ((crs.map (fun c => valsFlat c.type_analysis)).flatten) := by
  have h := foldl_mergeStep crs [] (by simp)
  rw [combinedOf]
  exact ⟨h.1, by simpa using h.2⟩

theorem chunk_ta_vals_perm (sampler : Sampler) (p : Nat × List IRow) :
    (valsFlat (process_chunk_data sampler p.2 p.1).type_analysis).Perm
      (taSel ((sampleOf sampler p.2).map (chunkRowItem p.1))) := by
  rw [process_chunk_ta_eq]
  have h := foldl_taStep ((sampleOf sampler p.2).map (chunkRowItem p.1)) [] (by simp)
  simpa using h.2

theorem combined_ids_subperm (sampler : Sampler) (df : DataFrame) :
    ((valsFlat (combinedOf (crsOf sampler df))).map (fun t => t.item.id.getD "")).Subperm
      ((merge_chunk_analyses (crsOf sampler df)).all_items.map (fun it => it.id.getD "")) := by
  have h1 := (combined_vals (crsOf sampler df)).2.map (fun t : TypedItem => t.item.id.getD "")
  refine h1.subperm.trans ?_
  rw [List.map_flatten, List.map_map, allIds_eq, crsOf, List.map_map]
  refine flatten_subperm_of_forall2 (forall2_map_map _ _ _ _ ?_)
  intro p _
  show ((valsFlat (process_chunk_data sampler p.2 p.1).type_analysis).map
      (fun t => t.item.id.getD "")).Subperm
    ((sampleOf sampler p.2).map (fun q => natDec q.1))
  refine List.Subperm.trans
    ((chunk_ta_vals_perm sampler p).map (fun t => t.item.id.getD "")).subperm ?_
  have h2 := taSel_ids_sublist ((sampleOf sampler p.2).map (chunkRowItem p.1))
  rw [List.map_map] at h2
  have h3 : ((fun it : PItem => it.id.getD "") ∘ chunkRowItem p.1) =
      (fun q : IRow => natDec q.1) := rfl
  rw [h3] at h2
  exact h2.subperm

theorem candidatesOf_eq (crs : List ChunkResult) :
    candidatesOf crs = ((combinedOf crs).filter (fun kv => kv.2.length ≥ 3)).map
      (fun kv => (kv.1,
        ({ citems := kv.2, ccount := kv.2.length,
           avg_confidence := ((kv.2.map (fun t => t.confidence)).sum) / (kv.2.length : ℚ) }
          : Candidate))) := by
  rw [candidatesOf]
  generalize combinedOf crs = l
  induction l with
  | nil => rfl
  | cons kv rest ih =>
    rw [List.filterMap_cons, List.filter_cons]
    by_cases h : kv.2.length ≥ 3
    · rw [if_pos h, if_pos (decide_eq_true h), List.map_cons, ih]
    · rw [if_neg h, if_neg (by simpa using h)]
      exact ih

theorem insDescCand_perm (x : String × Candidate) :
    ∀ (l : List (String × Candidate)), (insDescCand x l).Perm (x :: l) := by
  intro l
  induction l with
  | nil => rfl
  | cons y ys ih =>
    rw [insDescCand]
    split
    · rfl
    · exact (ih.cons y).trans (List.Perm.swap x y ys)

theorem foldl_insDesc_perm :
    ∀ (l acc : List (String × Candidate)),
      ((l.foldl (fun acc x => insDescCand x acc) acc)).Perm (l ++ acc) := by
  intro l
  induction l with
  | nil => intro acc; rfl
  | cons x rest ih =>
    intro acc
    rw [List.foldl_cons]
    refine (ih _).trans ?_
    refine ((insDescCand_perm x acc).append_left rest).trans ?_
    rw [List.cons_append]
    exact List.perm_middle

theorem main_groups_perm (crs : List ChunkResult) :
    (merge_chunk_analyses crs).main_groups.Perm (candidatesOf crs) := by
  rw [merge_main_groups_eq]
  have h := foldl_insDesc_perm (candidatesOf crs) []
  simpa using h

theorem candidates_tid_eq (crs : List ChunkResult) :
    (candidatesOf crs).map (fun kv => kv.2.citems.map (fun t => t.item.id.getD "")) =
      ((combinedOf crs).filter (fun kv => kv.2.length ≥ 3)).map
        (fun kv => kv.2.map (fun t => t.item.id.getD "")) := by
  rw [candidatesOf_eq, List.map_map]
  rfl

/-- The flattened grouped-item id list is drawn without repetition from
the processed items. -/
theorem gids_subperm (sampler : Sampler) (df : DataFrame) :
    ((merge_chunk_analyses (crsOf sampler df)).main_groups.map
      (fun kv => kv.2.citems.map (fun t => t.item.id.getD ""))).flatten.Subperm
    ((merge_chunk_analyses (crsOf sampler df)).all_items.map (fun it => it.id.getD "")) := by
  have h1 : (((merge_chunk_analyses (crsOf sampler df)).main_groups.map
      (fun kv => kv.2.citems.map (fun t => t.item.id.getD ""))).flatten).Perm
      (((candidatesOf (crsOf sampler df)).map
        (fun kv => kv.2.citems.map (fun t => t.item.id.getD ""))).flatten) :=
    ((main_groups_perm (crsOf sampler df)).map _).flatten
  refine h1.subperm.trans ?_
  rw [candidates_tid_eq]
  have h2 : (((combinedOf (crsOf sampler df)).filter (fun kv => kv.2.length ≥ 3)).map
      (fun kv => kv.2.map (fun t => t.item.id.getD ""))).flatten.Sublist
      (((combinedOf (crsOf sampler df)).map
        (fun kv => kv.2.map (fun t => t.item.id.getD ""))).flatten) :=
    flatten_sublist_of_sublist ((List.filter_sublist _).map _)
  refine h2.subperm.trans ?_
  have h3 : ((combinedOf (crsOf sampler df)).map
      (fun kv => kv.2.map (fun t => t.item.id.getD ""))).flatten =
      (valsFlat (combinedOf (crsOf sampler df))).map (fun t => t.item.id.getD "") := by
    rw [valsFlat, List.map_flatten, List.map_map]
    rfl
  rw [h3]
  exact combined_ids_subperm sampler df

theorem subperm_subset {α : Type _} {a b : List α} (h : a.Subperm b) :
    ∀ {x : α}, x ∈ a → x ∈ b := by
  obtain ⟨l, hp, hs⟩ := h
  intro x hx
  exact hs.subset (hp.symm.subset hx)

/-- Counting through `create_final_groups_from_analysis`: when the item
ids are globally distinct and the promoted candidates draw distinct ids
from the processed items, grouped plus ungrouped accounts for every
processed item. -/
theorem final_coverage (m : MergedAnalysis)
    (hids : ((m.all_items.map (fun it => it.id.getD "")).Nodup))
    (hgn : ((m.main_groups.map
      (fun kv => kv.2.citems.map (fun t => t.item.id.getD ""))).flatten).Nodup)
    (hsub : ∀ a ∈ (m.main_groups.map
        (fun kv => kv.2.citems.map (fun t => t.item.id.getD ""))).flatten,
      a ∈ m.all_items.map (fun it => it.id.getD "")) :
    fgGroupedCount (create_final_groups_from_analysis m) +
      (create_final_groups_from_analysis m).ungrouped_items.length = m.all_items.length := by
  have hfg : fgGroupedCount (create_final_groups_from_analysis m) =
      fmSum (m.main_groups.foldl buildStep ([], 0)).1 := by
    rw [fgGroupedCount, final_main_eq]
    rfl
  have hbuilt := foldl_buildStep_sum m.main_groups ([], 0)
    (fun kv hkv => nodup_of_mem_flatten _ hgn _ (List.mem_map_of_mem _ hkv))
  have hsum_g : fmSum (m.main_groups.foldl buildStep ([], 0)).1 =
      (m.main_groups.map (fun kv => kv.2.citems.length)).sum := by
    rw [hbuilt]
    simp [fmSum]
  have hglen : ((m.main_groups.map
      (fun kv => kv.2.citems.map (fun t => t.item.id.getD ""))).flatten).length =
      (m.main_groups.map (fun kv => kv.2.citems.length)).sum := by
    rw [List.length_flatten, List.map_map]
    congr 1
    apply List.map_congr_left
    intro kv _
    simp
  have hcompl : m.all_items.length =
      (m.all_items.filter (fun it => ((m.main_groups.map
        (fun kv => kv.2.citems.map (fun t => t.item.id.getD ""))).flatten).contains
        (it.id.getD ""))).length +
      (m.all_items.filter (fun it => !(((m.main_groups.map
        (fun kv => kv.2.citems.map (fun t => t.item.id.getD ""))).flatten).contains
        (it.id.getD "")))).length :=
    List.length_eq_length_filter_add _
  have hfl : (m.all_items.filter (fun it => ((m.main_groups.map
      (fun kv => kv.2.citems.map (fun t => t.item.id.getD ""))).flatten).contains
      (it.id.getD ""))).length =
      ((m.all_items.map (fun it => it.id.getD "")).filter
        (fun a => ((m.main_groups.map
          (fun kv => kv.2.citems.map (fun t => t.item.id.getD ""))).flatten).contains
          a)).length := by
    rw [List.map_filter, List.length_map]
    rfl
  have hfm := length_filter_mem (m.all_items.map (fun it => it.id.getD ""))
    ((m.main_groups.map (fun kv => kv.2.citems.map (fun t => t.item.id.getD ""))).flatten)
    hids hgn hsub
  have hle := List.length_filter_le
    (fun a => ((m.main_groups.map
      (fun kv => kv.2.citems.map (fun t => t.item.id.getD ""))).flatten).contains a)
    (m.all_items.map (fun it => it.id.getD ""))
  have hml : (m.all_items.map (fun it => it.id.getD "")).length = m.all_items.length :=
    List.length_map _ _
  rw [hfg, hsum_g, final_ungrouped_eq]
  omega

/-- Chunked-pipeline coverage with respect to the sampled row count. -/
theorem intelligent_coverage (sampler : Sampler) (df : DataFrame) (fg : FinalGroups)
    (hs : goodSampler sampler) (h : generate_intelligent_groups sampler df = Except.ok fg) :
    fgGroupedCount fg + fg.ungrouped_items.length = sampledCount df := by
  rw [gen_intelligent_ok sampler df fg h]
  rw [final_coverage _ (allIds_nodup sampler df hs)
    (subperm_nodup (gids_subperm sampler df) (allIds_nodup sampler df hs))
    (fun a ha => subperm_subset (gids_subperm sampler df) ha)]
  exact all_items_length sampler df hs

/-- A deterministic faithful sampler (keeps the first `n` rows). -/
def takeSampler : Sampler := fun n rows => rows.take n

theorem goodSampler_takeSampler : goodSampler takeSampler := by
  intro n l
  exact ⟨List.length_take n l, (List.take_sublist n l).subperm⟩

/-- C1: after validation, grouped plus ungrouped records equal the
validator's reported total for every validator-based strategy; for the
chunked frequency-analysis strategy the accounted items are the sampled
rows — at most 100 per 1000-row chunk — rather than all source rows. -/
theorem claim_C1 :
    (∀ (sampler : Sampler) (df : DataFrame) (fg : FinalGroups),
      goodSampler sampler →
      generate_intelligent_groups sampler df = Except.ok fg →
      fgGroupedCount fg + fg.ungrouped_items.length = sampledCount df) ∧
    (∀ df : DataFrame, sampledCount df ≤ df.rows.length) ∧
    (∀ (groups : List MainGroup) (t : Int),
      (validate_and_count_groups groups t).2.counts.grouped_records +
        (validate_and_count_groups groups t).2.counts.ungrouped_records =
        (validate_and_count_groups groups t).2.counts.total_rows) := by
  refine ⟨fun sampler df fg hs h => intelligent_coverage sampler df fg hs h, ?_,
    fun groups t => validate_counts_sum groups t⟩
  intro df
  rw [sampledCount]
  have h1 : ((chunksOf df).map (fun c => min c.length 100)).sum ≤
      ((chunksOf df).map (fun c => c.length)).sum := by
    apply List.sum_le_sum
    intro i _
    omega
  have h2 : ((chunksOf df).map (fun c => c.length)).sum = df.rows.length := by
    rw [← List.length_flatten, chunksOf, chunkify_flatten 1000 (by omega),
      List.enum_length]
  omega

/-- A dataset of 101 identical rows: one chunk, sampled down to 100. -/
def df101 : DataFrame := ⟨["name"], List.replicate 101 [("name", some "zzz")]⟩

theorem claim_C1_counterexample :
    goodSampler takeSampler ∧
    (match generate_intelligent_groups takeSampler df101 with
      | Except.ok fg => some (fgGroupedCount fg + fg.ungrouped_items.length)
      | Except.error _ => Option.none) = some 100 ∧
    df101.rows.length = 101 := by
  refine ⟨goodSampler_takeSampler, ?_, by decide⟩
  decide

/-- A one-row dataset for the witness. -/
def dfW : DataFrame := ⟨["name"], [[("name", some "Widget")]]⟩

/-- The chunked pipeline's output on `dfW`. -/
def fgW : FinalGroups :=
  match generate_intelligent_groups takeSampler dfW with
  | Except.ok fg => fg
  | Except.error _ => ⟨[], [], ⟨0, 0, 0, ""⟩⟩

theorem claim_C1_witness :
    fgGroupedCount fgW + fgW.ungrouped_items.length = sampledCount dfW :=
  claim_C1.1 takeSampler dfW fgW goodSampler_takeSampler (by rfl)

end Grouping
